import Mathlib

/-!
Date helpers of the Observer front-end (`utils/dateUtils.js`).

A shallow embedding of `dateUtils.js`.  The helpers delegate to the `moment`
library and to the JavaScript `Date` object; the part of their behaviour the
helpers rely on is modelled in the first sections:

* civil calendar, `Date` normalisation (`makeDay`) and the time value, as a
  day number (ECMAScript `DayFromYear`);
* the regular expressions `moment` uses for the tokens `MM`, `DD`, `YYYY` and
  `MMM` (English locale) and for literal separators, strict and lenient;
* `moment(input, format, strict)` (`configFromStringAndFormat`) and
  `moment(input, [formats])` (`configFromStringAndArray`, with the scoring of
  the current releases: unread characters plus ten per unused token, a valid
  format first);
* formatting, and `add` of months and days.

Moments are date-only: a valid moment is a civil date at midnight, and local
and UTC mode agree on it.  JavaScript numbers are modelled as integers or
`NaN`.  The clock is explicit: every function that reads the current date
takes it as the argument `now`.  A `while` or `for` loop takes its fuel as an
argument and returns `none` when the fuel runs out; the theorems show that
enough fuel gives the result.  The list of formats `getMomentDate` parses with
comes from the module `constants/DateUtilConstants`; it is the argument `fs`.
-/

namespace DateUtils

/-! ## Civil calendar -/

/-- The function `isLeapYear` of `moment`. -/
def isLeapYear (y : Int) : Bool :=
  (y % 4 == 0 && y % 100 != 0) || y % 400 == 0

/-- The function `daysInMonth(year, month)` of `moment`; `month` is zero-based
and may lie outside `0..11`. -/
def daysInMonth (year month : Int) : Int :=
  let modMonth := month % 12
  let year := year + (month - modMonth) / 12
  if modMonth = 1 then (if isLeapYear year then 29 else 28)
  else 31 - ((modMonth % 7) % 2)

/-- A civil date: `month` is zero-based (`0` is January), `day` starts at 1. -/
structure Civil where
  year : Int
  month : Int
  day : Int
  deriving DecidableEq, Repr

/-- The date is a real calendar date. -/
def Civil.WF (c : Civil) : Prop :=
  0 ≤ c.month ∧ c.month ≤ 11 ∧ 1 ≤ c.day ∧ c.day ≤ daysInMonth c.year c.month

instance (c : Civil) : Decidable c.WF := by
  unfold Civil.WF; infer_instance

/-- The calendar day after `c`. -/
def nextDay (c : Civil) : Civil :=
  if c.day < daysInMonth c.year c.month then { c with day := c.day + 1 }
  else if c.month < 11 then ⟨c.year, c.month + 1, 1⟩
  else ⟨c.year + 1, 0, 1⟩

/-- The calendar day before `c`. -/
def prevDay (c : Civil) : Civil :=
  if 1 < c.day then { c with day := c.day - 1 }
  else if 0 < c.month then ⟨c.year, c.month - 1, daysInMonth c.year (c.month - 1)⟩
  else ⟨c.year - 1, 11, 31⟩

/-- Move `n` calendar days forward. -/
def plusDays (c : Civil) : Nat → Civil
  | 0 => c
  | n + 1 => plusDays (nextDay c) n

/-- Move `n` calendar days backward. -/
def minusDays (c : Civil) : Nat → Civil
  | 0 => c
  | n + 1 => minusDays (prevDay c) n

/-- Move a signed number of calendar days. -/
def addDays (c : Civil) (n : Int) : Civil :=
  if 0 ≤ n then plusDays c n.toNat else minusDays c (-n).toNat

/-- What a JavaScript `Date` holds after its fields are set to year `y`,
zero-based month `m` and day of month `d`, any of which may be out of range:
the month carries into the year and the day counts from the first of that
month (ECMAScript `MakeDay`). -/
def makeDay (y m d : Int) : Civil :=
  addDays ⟨y + m / 12, m % 12, 1⟩ (d - 1)

/-- ECMAScript `DayFromYear`: the day number of 1 January of year `y`. -/
def dayFromYear (y : Int) : Int :=
  365 * (y - 1970) + (y - 1969) / 4 - (y - 1901) / 100 + (y - 1601) / 400

/-- Days of the year before the first of the zero-based month `m`. -/
def daysBeforeMonth (leap : Bool) (m : Int) : Int :=
  let l : Int := if leap then 1 else 0
  if m ≤ 0 then 0 else if m = 1 then 31 else if m = 2 then 59 + l
  else if m = 3 then 90 + l else if m = 4 then 120 + l else if m = 5 then 151 + l
  else if m = 6 then 181 + l else if m = 7 then 212 + l else if m = 8 then 243 + l
  else if m = 9 then 273 + l else if m = 10 then 304 + l else 334 + l

/-- The day number of a civil date (days since 1 January 1970). -/
def dayNumber (c : Civil) : Int :=
  dayFromYear c.year + daysBeforeMonth (isLeapYear c.year) c.month + (c.day - 1)

/-- Milliseconds in a day. -/
def msPerDay : Int := 86400000

/-! ## Moments -/

/-- A `moment` object, date-only: `none` is the invalid moment. -/
abbrev Moment := Option Civil

/-- The method `valueOf`: the time value in milliseconds, `none` for `NaN`. -/
def Moment.valueOf (m : Moment) : Option Int :=
  m.map (fun c => dayNumber c * msPerDay)

/-- JavaScript `x <= y` on numbers where `none` is `NaN`. -/
def jsLe : Option Int → Option Int → Bool
  | some x, some y => decide (x ≤ y)
  | _, _ => false

/-- JavaScript `x < y` on numbers where `none` is `NaN`. -/
def jsLt : Option Int → Option Int → Bool
  | some x, some y => decide (x < y)
  | _, _ => false

/-! ## Regular expressions used by `moment` when parsing -/

/-- The class `\d`. -/
def isDigit (c : Char) : Bool := decide (48 ≤ c.toNat) && decide (c.toNat ≤ 57)

/-- The class `\s` of JavaScript regular expressions. -/
def isSpace (c : Char) : Bool :=
  let n := c.toNat
  (decide (9 ≤ n) && decide (n ≤ 13)) || n == 32 || n == 160 || n == 5760
    || (decide (8192 ≤ n) && decide (n ≤ 8202)) || n == 8232 || n == 8233
    || n == 8239 || n == 8287 || n == 12288 || n == 65279

/-- The class `\w`. -/
def isWord (c : Char) : Bool :=
  let n := c.toNat
  (decide (48 ≤ n) && decide (n ≤ 57)) || (decide (65 ≤ n) && decide (n ≤ 90))
    || n == 95 || (decide (97 ≤ n) && decide (n ≤ 122))

/-- Length of a string in UTF-16 code units, the `length` of JavaScript. -/
def jsLength : List Char → Nat
  | [] => 0
  | c :: cs => (if c.toNat < 65536 then 1 else 2) + jsLength cs

/-- The longest prefix of at most `hi` characters that satisfy `p`. -/
def takeRun (p : Char → Bool) : Nat → List Char → List Char
  | 0, _ => []
  | _, [] => []
  | hi + 1, c :: cs => if p c then c :: takeRun p hi cs else []

/-- The leftmost match of `\d{lo,hi}` (with `1 ≤ lo`): the matched digits and
the text after them. -/
def searchDigits (lo hi : Nat) : List Char → Option (List Char × List Char)
  | [] => none
  | c :: cs =>
    let run := takeRun isDigit hi (c :: cs)
    if lo ≤ run.length ∧ 0 < run.length then some (run, (c :: cs).drop run.length)
    else searchDigits lo hi cs

/-- The leftmost occurrence of the literal text `lit`: the text after it. -/
def searchLit (lit : List Char) : List Char → Option (List Char)
  | [] => if lit = [] then some [] else none
  | c :: cs =>
    if lit.isPrefixOf (c :: cs) then some ((c :: cs).drop lit.length)
    else searchLit lit cs

/-- The letter class of the first alternative of `matchWord`, under the flag
`i`: an apostrophe, an ASCII letter, or a character of the listed ranges. -/
def isWordLetter (c : Char) : Bool :=
  let n := c.toNat
  n == 39 || (decide (65 ≤ n) && decide (n ≤ 90)) || (decide (97 ≤ n) && decide (n ≤ 122))
    || (decide (160 ≤ n) && decide (n ≤ 1535)) || (decide (1792 ≤ n) && decide (n ≤ 55295))
    || (decide (63744 ≤ n) && decide (n ≤ 64975)) || (decide (65008 ≤ n) && decide (n ≤ 65287))
    || (decide (65296 ≤ n) && decide (n ≤ 65519))

/-- The class `[U+0600-U+06FF]`. -/
def isArabic (c : Char) : Bool := decide (1536 ≤ c.toNat) && decide (c.toNat ≤ 1791)

/-- The class `[U+0600-U+06FF or /]`. -/
def isArabicOrSlash (c : Char) : Bool := isArabic c || c.toNat == 47

/-- First alternative of `matchWord` at the head of the text,
`[0-9]{0,256}[letters]{1,256}`: the length of the match. -/
def wordAlt1 (s : List Char) : Option Nat :=
  let ds := takeRun isDigit 256 s
  let ls := takeRun isWordLetter 256 (s.drop ds.length)
  if 0 < ls.length then some (ds.length + ls.length) else none

/-- One round of the group `(\s*?[U+0600-U+06FF]{1,256})` at the head of the
text: the length of the match. -/
def arabicGroup (s : List Char) : Option Nat :=
  let ws := s.takeWhile isSpace
  let ls := takeRun isArabic 256 (s.drop ws.length)
  if 0 < ls.length then some (ws.length + ls.length) else none

/-- The group `(\s*?[U+0600-U+06FF]{1,256}){1,2}` at the head of the text. -/
def arabicGroups (s : List Char) : Option Nat :=
  match arabicGroup s with
  | none => none
  | some n =>
    match arabicGroup (s.drop n) with
    | none => some n
    | some k => some (n + k)

/-- Second alternative of `matchWord` at the head of the text, with the first
part `[U+0600-U+06FF or /]{1,256}` taking `k` characters, then `k - 1`, down to
one. -/
def wordAlt2From (s : List Char) : Nat → Option Nat
  | 0 => none
  | k + 1 =>
    match arabicGroups (s.drop (k + 1)) with
    | some n => some (k + 1 + n)
    | none => wordAlt2From s k

/-- Second alternative of `matchWord` at the head of the text. -/
def wordAlt2 (s : List Char) : Option Nat :=
  wordAlt2From s (takeRun isArabicOrSlash 256 s).length

/-- The leftmost match of `matchWord`, the expression `moment` uses for the
token `MMM` in the English locale: the matched word and the text after it. -/
def searchWord : List Char → Option (List Char × List Char)
  | [] => none
  | c :: cs =>
    match (wordAlt1 (c :: cs)).orElse (fun _ => wordAlt2 (c :: cs)) with
    | some n => some ((c :: cs).take n, (c :: cs).drop n)
    | none => searchWord cs

/-- The function `toInt` of `moment` on a text of decimal digits. -/
def digitsToNat (ds : List Char) : Nat :=
  ds.foldl (fun acc c => 10 * acc + (c.toNat - 48)) 0

/-- Short month names of the English locale. -/
def monthsShort : List String :=
  ["Jan", "Feb", "Mar", "Apr", "May", "Jun", "Jul", "Aug", "Sep", "Oct", "Nov", "Dec"]

/-- Equality of texts under the flag `i` (ASCII letters fold). -/
def eqIgnoreCase (a b : List Char) : Bool :=
  a.map Char.toUpper == b.map Char.toUpper

/-- The function `monthsParse` of the English locale for the token `MMM`:
strict parsing wants the short name, otherwise the short name may be followed
by anything (which covers the long name). -/
def monthsParse (word : List Char) (strict : Bool) : Option Nat :=
  monthsShort.findIdx? (fun name =>
    if strict then eqIgnoreCase word name.toList
    else eqIgnoreCase (word.take name.length) name.toList)

/-! ## Parsing with a format: `moment(input, format, strict)` -/

/-- The pieces a format string splits into: the tokens the formats of this
module use, and literal text. -/
inductive Tok where
  | MM
  | DD
  | YYYY
  | MMM
  | lit (text : String)
  deriving DecidableEq, Repr

/-- A format string, split into its pieces. -/
abbrev Format := List Tok

/-- The working state of `configFromStringAndFormat`: the text still to read,
the fields `_a[YEAR]`, `_a[MONTH]`, `_a[DATE]` and the parsing flags. -/
structure ParseState where
  input : List Char
  year : Option Int
  month : Option Int
  day : Option Int
  parsedLen : Nat
  unusedTokens : Nat
  empty : Bool
  invalidMonth : Bool
  deriving DecidableEq, Repr

/-- The value of the token `YYYY`: two digits go through
`parseTwoDigitYear`. -/
def parseYearToken (ds : List Char) : Int :=
  if ds.length = 2 then
    (digitsToNat ds : Int) + (if 68 < digitsToNat ds then 1900 else 2000)
  else (digitsToNat ds : Int)

/-- One round of the token loop of `configFromStringAndFormat`. -/
def parseTok (strict : Bool) (st : ParseState) : Tok → ParseState
  | .MM =>
    match searchDigits (if strict then 2 else 1) 2 st.input with
    | some (ds, rest) =>
      { st with input := rest, parsedLen := st.parsedLen + ds.length, empty := false,
                month := some ((digitsToNat ds : Int) - 1) }
    | none => { st with unusedTokens := st.unusedTokens + 1 }
  | .DD =>
    match searchDigits (if strict then 2 else 1) 2 st.input with
    | some (ds, rest) =>
      { st with input := rest, parsedLen := st.parsedLen + ds.length, empty := false,
                day := some (digitsToNat ds : Int) }
    | none => { st with unusedTokens := st.unusedTokens + 1 }
  | .YYYY =>
    match searchDigits (if strict then 4 else 1) 4 st.input with
    | some (ds, rest) =>
      { st with input := rest, parsedLen := st.parsedLen + ds.length, empty := false,
                year := some (parseYearToken ds) }
    | none => { st with unusedTokens := st.unusedTokens + 1 }
  | .MMM =>
    match searchWord st.input with
    | some (w, rest) =>
      match monthsParse w strict with
      | some i =>
        { st with input := rest, parsedLen := st.parsedLen + w.length, empty := false,
                  month := some (i : Int) }
      | none =>
        { st with input := rest, parsedLen := st.parsedLen + w.length, empty := false,
                  invalidMonth := true }
    | none => { st with unusedTokens := st.unusedTokens + 1 }
  | .lit text =>
    match searchLit text.toList st.input with
    | some rest => { st with input := rest, parsedLen := st.parsedLen + text.length }
    | none => if strict then { st with unusedTokens := st.unusedTokens + 1 } else st

/-- What `configFromStringAndFormat` leaves behind: the date (when the moment
is valid) and the two flags the format-list scoring reads. -/
structure Parsed where
  date : Moment
  charsLeftOver : Nat
  unusedTokens : Nat
  deriving DecidableEq, Repr

/-- The function `checkOverflow` on the year, month and day: the date, or
the invalid moment when the month or the day of the month is out of range. -/
def civilOfFields (y m d : Int) : Moment :=
  if m < 0 ∨ 11 < m ∨ d < 1 ∨ daysInMonth y m < d then none else some ⟨y, m, d⟩

/-- The function `configFromStringAndFormat`, then `isValid`: run the token
loop, take the current date for the leading fields that were not parsed and
the first of the month or January for the other ones (`configFromArray`),
reject a month or day out of range (`checkOverflow`), a text in which no
token was found, a word that is no month and, when `strict`, any unread
character or unused token. -/
def parseFormat (now : Civil) (text : List Char) (f : Format) (strict : Bool) : Parsed :=
  let st := f.foldl (parseTok strict) ⟨text, none, none, none, 0, 0, true, false⟩
  let charsLeftOver := jsLength text - st.parsedLen
  let y := st.year.getD now.year
  let m := st.month.getD (if st.year.isSome then 0 else now.month)
  let d := st.day.getD (if st.year.isSome || st.month.isSome then 1 else now.day)
  let flagsOk := !st.empty && !st.invalidMonth
    && (!strict || (charsLeftOver == 0 && st.unusedTokens == 0))
  ⟨if flagsOk then civilOfFields y m d else none, charsLeftOver, st.unusedTokens⟩

/-- The state of the loop of `configFromStringAndArray`: the best parse so
far, its score, and whether it is valid. -/
structure Best where
  parsed : Parsed
  score : Nat
  valid : Bool
  deriving DecidableEq, Repr

/-- One round of the loop of `configFromStringAndArray`. -/
def pickBest (now : Civil) (text : List Char) (best : Option Best) (f : Format) :
    Option Best :=
  let p := parseFormat now text f false
  let score := p.charsLeftOver + p.unusedTokens * 10
  let valid := p.date.isSome
  match best with
  | none => some ⟨p, score, valid⟩
  | some b =>
    if !b.valid then
      (if score < b.score ∨ valid = true then some ⟨p, score, valid⟩ else some b)
    else
      (if score < b.score then some ⟨p, score, b.valid⟩ else some b)

/-- The function `configFromStringAndArray`: parse the text with each format
of the list, not strictly, and keep the best one. An empty list gives the
invalid moment. -/
def parseFormats (now : Civil) (text : List Char) (fs : List Format) : Moment :=
  match fs.foldl (pickBest now text) none with
  | some b => b.parsed.date
  | none => none

/-- The values the helpers are called with. -/
inductive DateInput where
  | str (s : String)
  | num (n : Int)
  | mom (m : Moment)
  | null
  | undefined
  deriving DecidableEq, Repr

/-- The text `moment` parses when it is given a format: `'' + input`. -/
def inputText (n : Int) : String := toString n

/-- The call `moment(input, format, strict)`, and `moment.utc` alike. -/
def momentWithFormat (now : Civil) (input : DateInput) (f : Format) (strict : Bool) :
    Moment :=
  match input with
  | .null => none
  | .mom m => m
  | .str s => (parseFormat now s.toList f strict).date
  | .num n => (parseFormat now (inputText n).toList f strict).date
  | .undefined => (parseFormat now "undefined".toList f strict).date

/-- The call `moment.utc(input, formats)` with a list of formats. -/
def momentWithFormats (now : Civil) (input : DateInput) (fs : List Format) : Moment :=
  match input with
  | .null => none
  | .mom m => m
  | .str s => parseFormats now s.toList fs
  | .num n => parseFormats now (inputText n).toList fs
  | .undefined => parseFormats now "undefined".toList fs

/-! ## Formatting and arithmetic of moments -/

/-- The function `zeroFill` of `moment` (without a forced sign). -/
def zeroFill (n : Int) (len : Nat) : String :=
  let ds := toString n.natAbs
  (if 0 ≤ n then "" else "-") ++ String.mk (List.replicate (len - ds.length) '0') ++ ds

/-- What one piece of a format prints for a valid date. -/
def formatTok (c : Civil) : Tok → String
  | .MM => zeroFill (c.month + 1) 2
  | .DD => zeroFill c.day 2
  | .YYYY => zeroFill c.year 4
  | .MMM => monthsShort.getD c.month.toNat ""
  | .lit text => text

/-- The method `format`: an invalid moment prints `Invalid date`. -/
def Moment.format (m : Moment) (f : Format) : String :=
  match m with
  | some c => String.join (f.map (formatTok c))
  | none => "Invalid date"

/-- The method `year`: `none` is `NaN`. -/
def Moment.year (m : Moment) : Option Int := m.map (fun c => c.year)

/-- The method `add(n, 'months')` (a year is twelve months): `setMonth` keeps
the day of the month unless the target month is shorter. An invalid moment
stays as it is. -/
def Moment.addMonths (m : Moment) (n : Int) : Moment :=
  m.map (fun c => makeDay c.year (c.month + n) (min c.day (daysInMonth c.year (c.month + n))))

/-- The method `add(n, 'days')`, which sets the day of the month to
`date() + n`; `subtract` passes `-n`. -/
def Moment.addDays (m : Moment) (n : Int) : Moment :=
  m.map (fun c => makeDay c.year c.month (c.day + n))

/-- The method `isAfter` of `moment`. -/
def Moment.isAfter (a b : Moment) : Bool :=
  if a.isSome && b.isSome then jsLt b.valueOf a.valueOf else false

/-- The method `isBefore` of `moment`. -/
def Moment.isBefore (a b : Moment) : Bool :=
  if a.isSome && b.isSome then jsLt a.valueOf b.valueOf else false

/-- The method `isSame` of `moment`. -/
def Moment.isSame (a b : Moment) : Bool :=
  if a.isSome && b.isSome then a.valueOf == b.valueOf else false

/-- The method `isSameOrAfter` of `moment`. -/
def Moment.isSameOrAfter (a b : Moment) : Bool := a.isSame b || a.isAfter b

/-- The method `isSameOrBefore` of `moment`. -/
def Moment.isSameOrBefore (a b : Moment) : Bool := a.isSame b || a.isBefore b

/-! ## The constants of `constants/DateUtilConstants` -/

/-- Modelled from the spec: the constant `MM_DD_YYYY` of the module
`constants/DateUtilConstants`, the month/day/year pattern `MM/DD/YYYY`. -/
def MM_DD_YYYY : Format := [.MM, .lit "/", .DD, .lit "/", .YYYY]

/-- Modelled from the spec: the constant `YYYY_MM_DD` of the module
`constants/DateUtilConstants`, the year-month-day pattern `YYYY-MM-DD`. -/
def YYYY_MM_DD : Format := [.YYYY, .lit "-", .MM, .lit "-", .DD]

/-- Modelled from the spec: the constant `YYYY_MMM` of the module
`constants/DateUtilConstants`, the year-month-abbreviation pattern
`YYYY-MMM`. -/
def YYYY_MMM : Format := [.YYYY, .lit "-", .MMM]

/-- Modelled from the spec: the constant `MMM` of the module
`constants/DateUtilConstants`, the month abbreviation alone. -/
def MMM : Format := [.MMM]

/-- Modelled from the spec: the constant `MMM_DD` of the module
`constants/DateUtilConstants`, month abbreviation and day, `MMM DD`. -/
def MMM_DD : Format := [.MMM, .lit " ", .DD]

/-- The format constants the source names. The source parses with every
format the constants module exports (`dateFormats`, the argument `fs` below);
the theorems about parsing take a list drawn from these. -/
def knownFormats : List Format := [MM_DD_YYYY, YYYY_MM_DD, YYYY_MMM, MMM, MMM_DD]

/-! ## `dateUtils.js` -/

/-- `getMomentDate(dateStr)` with `utcMode` left at its default: parse with
the list `fs` of all exported formats. -/
def getMomentDate (fs : List Format) (now : Civil) (dateStr : DateInput) : Moment :=
  momentWithFormats now dateStr fs

/-- `isValidDate(dateStr, format, strictParsing)`. -/
def isValidDate (now : Civil) (dateStr : DateInput) (f : Format) (strictParsing : Bool) :
    Bool :=
  (momentWithFormat now dateStr f strictParsing).isSome

/-- `isDate(dateStr)` with `strictParsing` left at its default `true`. -/
def isDate (now : Civil) (dateStr : DateInput) : Bool :=
  isValidDate now dateStr MM_DD_YYYY true
    || isValidDate now dateStr YYYY_MM_DD true
    || isValidDate now dateStr YYYY_MMM true

/-- `getYear(dateStr)`: `none` is `NaN`. -/
def getYear (fs : List Format) (now : Civil) (dateStr : DateInput) : Option Int :=
  (getMomentDate fs now dateStr).year

/-- `isAfter(firstDate, secondDate)`: `none` is `null`. -/
def isAfter (fs : List Format) (now : Civil) (firstDate secondDate : DateInput) :
    Option Bool :=
  if isDate now firstDate && isDate now secondDate then
    some ((getMomentDate fs now firstDate).isAfter (getMomentDate fs now secondDate))
  else none

/-- `isSameOrAfter(firstDate, secondDate)`: `none` is `null`. -/
def isSameOrAfter (fs : List Format) (now : Civil) (firstDate secondDate : DateInput) :
    Option Bool :=
  if isDate now firstDate && isDate now secondDate then
    some ((getMomentDate fs now firstDate).isSameOrAfter (getMomentDate fs now secondDate))
  else none

/-- `isSameOrBefore(firstDate, secondDate)`: `none` is `null`. -/
def isSameOrBefore (fs : List Format) (now : Civil) (firstDate secondDate : DateInput) :
    Option Bool :=
  if isDate now firstDate && isDate now secondDate then
    some ((getMomentDate fs now firstDate).isSameOrBefore (getMomentDate fs now secondDate))
  else none

/-- `toMonthDayYearFormat(dateStr)` with `utcMode` left at its default. -/
def toMonthDayYearFormat (fs : List Format) (now : Civil) (dateStr : DateInput) : String :=
  (getMomentDate fs now dateStr).format MM_DD_YYYY

/-- A JavaScript number that is an integer or `NaN` (`none`). -/
abbrev JSNum := Option Int

/-- How a template literal prints a number. -/
def JSNum.toText : JSNum → String
  | some n => toString n
  | none => "NaN"

/-- The global `parseInt(text, 10)`: leading white space, an optional sign,
then the longest run of decimal digits; `NaN` when there is no digit. -/
def parseInt (text : String) : JSNum :=
  let t := text.toList.dropWhile isSpace
  let neg := t.head? == some '-'
  let t := if t.head? == some '-' || t.head? == some '+' then t.tail else t
  let ds := t.takeWhile isDigit
  if ds = [] then none
  else some (if neg then -(digitsToNat ds : Int) else (digitsToNat ds : Int))

/-- The loop of `generateAvailableYears`: `for (i = from; i < currentYear; i++)
years.push(i)`. `none` when the fuel runs out before the loop ends. -/
def generateAvailableYearsLoop (currentYear : Int) : Nat → Int → List Int → Option (List Int)
  | 0, _, _ => none
  | fuel + 1, i, years =>
    if i < currentYear then generateAvailableYearsLoop currentYear fuel (i + 1) (years ++ [i])
    else some years

/-- `generateAvailableYears(defaultAdditiveYear, defaultYearFrom)`, the clock
being `now`. -/
def generateAvailableYears (now : Civil) (fuel : Nat)
    (defaultAdditiveYear defaultYearFrom : Int) : Option (List Int) :=
  let currentYear := now.year + defaultAdditiveYear
  (generateAvailableYearsLoop currentYear fuel defaultYearFrom []).map List.reverse

/-- The argument `year` of the two range functions: a string or a number. -/
inductive YearInput where
  | str (s : String)
  | num (n : Int)
  deriving DecidableEq, Repr

/-- `fiscalYearToDateRange(year)`. -/
def fiscalYearToDateRange (now : Civil) (year : YearInput) : List String :=
  let fiscalYear : JSNum :=
    match year with
    | .str s => (parseInt s).map (fun n => n - 1)
    | .num n => some (n - 1)
  let dateFrom := momentWithFormat now (.str ("07/01/" ++ fiscalYear.toText)) MM_DD_YYYY false
  let dateTo := ((momentWithFormat now (.mom dateFrom) [] false).addMonths 12).addDays (-1)
  [dateFrom.format MM_DD_YYYY, dateTo.format MM_DD_YYYY]

/-- `calendarYearToDateRange(year)`. -/
def calendarYearToDateRange (now : Civil) (year : YearInput) : List String :=
  let calendarYear : JSNum :=
    match year with
    | .str s => parseInt s
    | .num n => some (n - 1)
  let dateFrom := momentWithFormat now (.str ("01/01/" ++ calendarYear.toText)) MM_DD_YYYY false
  let dateTo := ((momentWithFormat now (.mom dateFrom) [] false).addMonths 12).addDays (-1)
  [dateFrom.format MM_DD_YYYY, dateTo.format MM_DD_YYYY]

/-- A match of `(\w|\s)*([\d][\d])` that starts at the head of the text: the
whole match, the last character the first group took (if any) and the two
digits of the second group. The star is greedy: one more character first, the
two digits here only when that fails. -/
def yearLabelAt : List Char → Option (List Char × Option Char × List Char)
  | [] => none
  | c :: rest =>
    let more :=
      if isWord c || isSpace c then
        (yearLabelAt rest).map (fun r => (c :: r.1, some (r.2.1.getD c), r.2.2))
      else none
    more.orElse (fun _ =>
      match rest with
      | d :: _ => if isDigit c && isDigit d then some ([c, d], none, [c, d]) else none
      | [] => none)

/-- `yearLabelRegex.exec(text)` from index 0: the leftmost match, as the array
of the whole match and the two groups (`none` inside is `undefined`). -/
def yearLabelExec : List Char → Option (List (Option String))
  | [] => none
  | c :: cs =>
    match yearLabelAt (c :: cs) with
    | some r => some [some (String.mk r.1), r.2.1.map (fun x => String.mk [x]), some (String.mk r.2.2)]
    | none => yearLabelExec cs

/-- `parseYearFromLabel(dateRangeLabel)`: the outer `none` is `null`.
`label.match(regex)` with the flag `g` is truthy exactly when a first `exec`
finds a match, and leaves the index at 0 for the `exec` that follows. -/
def parseYearFromLabel (dateRangeLabel : DateInput) : Option JSNum :=
  match dateRangeLabel with
  | .str label =>
    if (yearLabelExec label.toList).isSome then
      match yearLabelExec label.toList with
      | some groups =>
        if groups.length = 3 then
          some (parseInt ("20" ++ ((groups.getD 2 none).getD "undefined")))
        else none
      | none => none
    else none
  | _ => none

/-- The loop of `getDateRangeDates`: `while (dateFrom <= dateTo)` push the
formatted day and add one day. `none` when the fuel runs out before the loop
ends. -/
def getDateRangeDatesLoop (fs : List Format) (now : Civil) (dateTo : Moment) :
    Nat → Moment → List String → Option (List String)
  | 0, _, _ => none
  | fuel + 1, dateFrom, dates =>
    if jsLe dateFrom.valueOf dateTo.valueOf then
      getDateRangeDatesLoop fs now dateTo fuel (dateFrom.addDays 1)
        (dates ++ [toMonthDayYearFormat fs now (.mom dateFrom)])
    else some dates

/-- `getDateRangeDates(startDate, endDate)`. -/
def getDateRangeDates (fs : List Format) (now : Civil) (fuel : Nat)
    (startDate endDate : DateInput) : Option (List String) :=
  getDateRangeDatesLoop fs now (getMomentDate fs now endDate) fuel
    (getMomentDate fs now startDate) []

/-- The loop of `getDateRangeYears`: `while (dateFromYear <= dateToYear)
years.push(dateFromYear++)`. `none` when the fuel runs out before the loop
ends. -/
def getDateRangeYearsLoop (dateToYear : JSNum) :
    Nat → JSNum → List JSNum → Option (List JSNum)
  | 0, _, _ => none
  | fuel + 1, dateFromYear, years =>
    if jsLe dateFromYear dateToYear then
      getDateRangeYearsLoop dateToYear fuel (dateFromYear.map (fun y => y + 1))
        (years ++ [dateFromYear])
    else some years

/-- `getDateRangeYears(startDate, endDate)`. -/
def getDateRangeYears (fs : List Format) (now : Civil) (fuel : Nat)
    (startDate endDate : DateInput) : Option (List JSNum) :=
  getDateRangeYearsLoop (getYear fs now endDate) fuel (getYear fs now startDate) []

/-- `getCurrentDate(format)`: today's date, printed with `format`. -/
def getCurrentDate (now : Civil) (f : Format) : String :=
  Moment.format (some now) f

/-- `toISOFormat(dateStr)`. -/
def toISOFormat (fs : List Format) (now : Civil) (dateStr : DateInput) : String :=
  (getMomentDate fs now dateStr).format YYYY_MM_DD

/-- Month names of the English locale, `moment.months()`. -/
def months : List String :=
  ["January", "February", "March", "April", "May", "June", "July", "August", "September",
    "October", "November", "December"]

/-- The call `moment.monthsShort(DF.MMM)`: the short month names of the
English locale, whatever the format. -/
def momentMonthsShort : List String := monthsShort

/-- `getMonthByShortName(monthName)`: the index of the name in the list, or
`-1`. -/
def getMonthByShortName (monthName : String) : Int :=
  match momentMonthsShort.findIdx? (fun name => name == monthName) with
  | some i => (i : Int)
  | none => -1

/-- `getShortMonthName(month)`: the entry of the list at the index `month`;
`none` is `undefined`. -/
def getShortMonthName (month : Int) : Option String :=
  if 0 ≤ month then momentMonthsShort.get? month.toNat else none

/-- The method `month(value)` of `moment` with a number, `setMonth`: the day of
the month is kept unless the target month is shorter. -/
def Moment.setMonth (m : Moment) (value : Int) : Moment :=
  m.map (fun c => makeDay c.year value (min c.day (daysInMonth c.year value)))

/-- The method `month(value)` of `moment` with a string: a text of digits is
the number it spells, another text goes through `monthsParse` (not strict), and
a text that names no month leaves the moment as it is. -/
def Moment.setMonthText (m : Moment) (value : String) : Moment :=
  if value.toList ≠ [] ∧ value.toList.all isDigit = true then
    m.setMonth (digitsToNat value.toList)
  else
    match monthsParse value.toList false with
    | some i => m.setMonth (i : Int)
    | none => m

/-- `getMonthNumber(month)` for a string: `moment().month(month).format('M') - 1`,
the one-based month number the moment prints, minus one; `none` is `NaN`. -/
def getMonthNumber (now : Civil) (month : String) : JSNum :=
  ((Moment.setMonthText (some now) month).map (fun c => c.month + 1)).map (fun k => k - 1)

/-- `_.startsWith(text, target)` of lodash on two strings. -/
def startsWith (text target : String) : Bool :=
  target.toList.isPrefixOf text.toList

/-- `isFiscalYear(dateRange)`; the prefix constant comes from the module
`constants/DateUtilConstants`. -/
def isFiscalYear (fiscalYearPrefix : String) (dateRange : DateInput) : Bool :=
  match dateRange with
  | .str s => startsWith s fiscalYearPrefix
  | _ => false

/-- `isCalendarYear(dateRange)`; the prefix constant comes from the module
`constants/DateUtilConstants`. -/
def isCalendarYear (calendarYearPrefix : String) (dateRange : DateInput) : Bool :=
  match dateRange with
  | .str s => startsWith s calendarYearPrefix
  | _ => false

/-- The text is an ISO year-month-day date after optional white space: the
texts for which `configFromISO` picks the format `YYYY-MM-DD` and no time. -/
def isIsoDateText (text : List Char) : Bool :=
  match text.dropWhile isSpace with
  | [y1, y2, y3, y4, c4, m1, m2, c7, d1, d2] =>
    c4 == '-' && c7 == '-' && [y1, y2, y3, y4, m1, m2, d1, d2].all isDigit
  | _ => false

/-- The call `moment(text)` on a string, no format given. Only the branch of
an ISO year-month-day text is modelled, which parses the text with
`YYYY-MM-DD`, not strictly; `none` stands for every other text (other ISO
forms, RFC 2822, and the fallback to `new Date(text)`, whose result depends on
the JavaScript engine). -/
def momentOfString (now : Civil) (text : String) : Option Moment :=
  if isIsoDateText text.toList then some (parseFormat now text.toList YYYY_MM_DD false).date
  else none

/-- The method `diff(that, 'days')`: the difference of the time values in
days, rounded toward zero; `NaN` when a moment is invalid. -/
def Moment.diffDays (a b : Moment) : JSNum :=
  match a.valueOf, b.valueOf with
  | some x, some y => some (Int.tdiv (x - y) msPerDay)
  | _, _ => none

/-- `getDiffDaysBetweenTwoDate(dateTo, dateFrom)` on two strings; the outer
`none` is a text `momentOfString` does not model. -/
def getDiffDaysBetweenTwoDate (now : Civil) (dateTo dateFrom : String) : Option JSNum :=
  match momentOfString now dateTo, momentOfString now dateFrom with
  | some a, some b => some (a.diffDays b)
  | _, _ => none

/-- The record `getDateRangeSubtractFromNow` returns. -/
structure DateRange where
  date_from : String
  date_to : String
  label : String
  deriving DecidableEq, Repr

/-- `getDateRangeSubtractFromNow(daysToSubtract)`. -/
def getDateRangeSubtractFromNow (fs : List Format) (now : Civil) (daysToSubtract : Int) :
    DateRange :=
  let dateTo := getCurrentDate now YYYY_MM_DD
  let dateFrom := (getMomentDate fs now (.str dateTo)).addDays (-daysToSubtract)
  { date_from := toISOFormat fs now (.mom dateFrom),
    date_to := toISOFormat fs now (.str dateTo),
    label := toISOFormat fs now (.mom dateFrom) ++ " - " ++ toISOFormat fs now (.str dateTo) }

/-! ## Notions the statements use -/

/-- The value of a decimal digit. -/
def digitValue (c : Char) : Int := (c.toNat : Int) - 48

/-- The text holds two adjacent decimal digits. -/
def hasDigitPair : List Char → Bool
  | c :: d :: rest => (isDigit c && isDigit d) || hasDigitPair (d :: rest)
  | _ => false

/-- What a strict token accepts: two digits, four digits, a short month name,
or the literal text. -/
def TokText : Tok → List Char → Prop
  | .MM, w => w.length = 2 ∧ ∀ c ∈ w, isDigit c = true
  | .DD, w => w.length = 2 ∧ ∀ c ∈ w, isDigit c = true
  | .YYYY, w => w.length = 4 ∧ ∀ c ∈ w, isDigit c = true
  | .MMM, w => (monthsParse w true).isSome = true
  | .lit text, w => w = text.toList

/-- The tokens of `f` read `n` characters of `s` in turn, each one after some
skipped characters, and leave `rest`. -/
def ReadBy : Format → List Char → List Char → Nat → Prop
  | [], s, rest, n => s = rest ∧ n = 0
  | tok :: f, s, rest, n =>
    ∃ sk w mid k, s = sk ++ w ++ mid ∧ TokText tok w ∧ ReadBy f mid rest k ∧ n = w.length + k

/-- The tokens of `f` read the whole of `s`, nothing skipped. -/
def ExactRead : Format → List Char → Prop
  | [], s => s = []
  | tok :: f, s => ∃ w mid, s = w ++ mid ∧ TokText tok w ∧ ExactRead f mid

/-- An ASCII letter. -/
def isAsciiLetter (c : Char) : Bool :=
  (decide (65 ≤ c.toNat) && decide (c.toNat ≤ 90)) || (decide (97 ≤ c.toNat) && decide (c.toNat ≤ 122))

/-- The civil date `a` is strictly later than `b`. -/
def Civil.later (a b : Civil) : Bool :=
  decide (b.year < a.year) || (decide (a.year = b.year)
    && (decide (b.month < a.month) || (decide (a.month = b.month) && decide (b.day < a.day))))

/-- The civil date with the one-based month `m`, when it is a real calendar
date. -/
def realDate (y m d : Int) : Option Civil :=
  if Civil.WF ⟨y, m - 1, d⟩ then some ⟨y, m - 1, d⟩ else none

/-- The calendar date a text denotes, read as the spec words it: two-digit
month, slash, two-digit day, slash, four-digit year; or four-digit year, dash,
two-digit month, dash, two-digit day; or four-digit year, dash, three-letter
month abbreviation (any case), which denotes the first day of that month. -/
def denotedDate (text : List Char) : Option Civil :=
  match text with
  | [c0, c1, c2, c3, c4, c5, c6, c7, c8, c9] =>
    if c2 = '/' ∧ c5 = '/' ∧ [c0, c1, c3, c4, c6, c7, c8, c9].all isDigit = true then
      realDate (digitsToNat [c6, c7, c8, c9]) (digitsToNat [c0, c1]) (digitsToNat [c3, c4])
    else if c4 = '-' ∧ c7 = '-' ∧ [c0, c1, c2, c3, c5, c6, c8, c9].all isDigit = true then
      realDate (digitsToNat [c0, c1, c2, c3]) (digitsToNat [c5, c6]) (digitsToNat [c8, c9])
    else none
  | [c0, c1, c2, c3, c4, c5, c6, c7] =>
    if c4 = '-' ∧ [c0, c1, c2, c3].all isDigit = true then
      (monthsShort.findIdx? (fun name => eqIgnoreCase [c5, c6, c7] name.toList)).map
        (fun (k : Nat) => ⟨digitsToNat [c0, c1, c2, c3], (k : Int), 1⟩)
    else none
  | _ => none

/-- The last pair of adjacent decimal digits of a text. -/
def lastDigitPair : List Char → Option (Char × Char)
  | c :: d :: rest =>
    match lastDigitPair (d :: rest) with
    | some p => some p
    | none => if isDigit c && isDigit d then some (c, d) else none
  | _ => none

/-- The maximal runs of word and white-space characters of a text, in the
order of the text; every other character ends a run. -/
def wordRuns : List Char → List (List Char)
  | [] => [[]]
  | c :: cs =>
    if isWord c || isSpace c then
      match wordRuns cs with
      | r :: rs => (c :: r) :: rs
      | [] => [[c]]
    else [] :: wordRuns cs

/-- The last pair of adjacent digits in the first run of word and white-space
characters that holds such a pair. -/
def firstRunLastPair (text : List Char) : Option (Char × Char) :=
  ((wordRuns text).find? hasDigitPair).bind lastDigitPair

/-- The year field of the parsing state is either not set or in `0..9999`. -/
def YearInRange (st : ParseState) : Prop :=
  ∀ v, st.year = some v → 0 ≤ v ∧ v ≤ 9999

/-! ## The comparison helpers answer `null` exactly on an operand that is no date -/

/-- Claim C1: each of `isAfter`, `isSameOrAfter` and `isSameOrBefore` returns
`null` exactly when `isDate` rejects one of the two operands, and returns a
boolean exactly when `isDate` accepts both. -/
theorem comparison_null_iff_not_isDate (fs : List Format) (now : Civil) (a b : DateInput) :
    ((isAfter fs now a b = none ↔ (isDate now a = false ∨ isDate now b = false))
      ∧ (isSameOrAfter fs now a b = none ↔ (isDate now a = false ∨ isDate now b = false))
      ∧ (isSameOrBefore fs now a b = none ↔ (isDate now a = false ∨ isDate now b = false)))
    ∧ ((isAfter fs now a b).isSome = (isDate now a && isDate now b)
      ∧ (isSameOrAfter fs now a b).isSome = (isDate now a && isDate now b)
      ∧ (isSameOrBefore fs now a b).isSome = (isDate now a && isDate now b)) := by
  unfold isAfter isSameOrAfter isSameOrBefore
  cases ha : isDate now a <;> cases hb : isDate now b <;> simp

/-! ## `generateAvailableYears` -/

/-- The loop pushes the integers from `i` up to `cy - 1`, and ends within
`cy - i + 1` rounds. -/
theorem generateAvailableYearsLoop_eq (cy : Int) :
    ∀ (n fuel : Nat) (i : Int) (years : List Int), (cy - i).toNat = n → n < fuel →
      generateAvailableYearsLoop cy fuel i years
        = some (years ++ (List.range n).map (fun (k : Nat) => i + (k : Int))) := by
  intro n
  induction n with
  | zero =>
    intro fuel i years hn hf
    obtain ⟨fuel, rfl⟩ : ∃ k, fuel = k + 1 := ⟨fuel - 1, by omega⟩
    have : ¬ i < cy := by omega
    simp [generateAvailableYearsLoop, this]
  | succ n ih =>
    intro fuel i years hn hf
    obtain ⟨fuel, rfl⟩ : ∃ k, fuel = k + 1 := ⟨fuel - 1, by omega⟩
    have h : i < cy := by omega
    simp only [generateAvailableYearsLoop, h, if_true]
    rw [ih fuel (i + 1) (years ++ [i]) (by omega) (by omega)]
    simp only [List.range_succ_eq_map, List.map_cons, List.map_map, List.append_assoc,
      List.singleton_append, Nat.cast_zero, add_zero]
    congr 3
    apply List.map_congr_left
    intro k _
    simp only [Function.comp, Nat.cast_succ]
    ring

/-- Claim C6: with the clock at year `c`, `generateAvailableYears(a, f)` ends
and returns the descending list `c+a-1, c+a-2, ...` of `c+a-f` consecutive
integers, which holds exactly the integers of `[f, c+a-1]`; it is empty when
`f > c+a-1`. -/
theorem generateAvailableYears_descending (now : Civil) (a f : Int) (fuel : Nat)
    (hfuel : (now.year + a - f).toNat < fuel) :
    generateAvailableYears now fuel a f
        = some ((List.range (now.year + a - f).toNat).map (fun (k : Nat) => now.year + a - 1 - (k : Int)))
      ∧ (f ≤ now.year + a - 1 → ∀ x : Int,
          x ∈ (List.range (now.year + a - f).toNat).map (fun (k : Nat) => now.year + a - 1 - (k : Int))
            ↔ (f ≤ x ∧ x ≤ now.year + a - 1)) := by
  constructor
  · unfold generateAvailableYears
    simp only
    rw [generateAvailableYearsLoop_eq (now.year + a) _ fuel f [] rfl hfuel]
    simp only [List.nil_append, Option.map_some', Option.some.injEq]
    apply List.ext_getElem
    · simp
    · intro i h1 h2
      simp only [List.length_reverse, List.length_map, List.length_range] at h1
      simp only [List.getElem_reverse, List.getElem_map, List.getElem_range, List.length_map,
        List.length_range]
      omega
  · intro _ x
    simp only [List.mem_map, List.mem_range]
    constructor
    · rintro ⟨k, hk, rfl⟩
      omega
    · intro hx
      exact ⟨(now.year + a - 1 - x).toNat, by omega, by omega⟩

/-- With the clock in 2025, `generateAvailableYears(2, 2004)` is
`[2026, 2025, ..., 2004]`. -/
theorem generateAvailableYears_witness :
    generateAvailableYears ⟨2025, 10, 6⟩ 24 2 2004
      = some [2026, 2025, 2024, 2023, 2022, 2021, 2020, 2019, 2018, 2017, 2016, 2015, 2014,
          2013, 2012, 2011, 2010, 2009, 2008, 2007, 2006, 2005, 2004] :=
  (generateAvailableYears_descending ⟨2025, 10, 6⟩ 2 2004 24 (by decide)).1.trans (by decide)

theorem isDigit_isWord {c : Char} (h : isDigit c = true) : isWord c = true := by
  simp only [isDigit, Bool.and_eq_true, decide_eq_true_eq] at h
  simp [isWord, h.1, h.2]

theorem isDigit_not_isSpace {c : Char} (h : isDigit c = true) : isSpace c = false := by
  simp only [isDigit, Bool.and_eq_true, decide_eq_true_eq] at h
  simp only [isSpace, Bool.or_eq_false_iff, Bool.and_eq_false_iff, decide_eq_false_iff_not,
    beq_eq_false_iff_ne, ne_eq]
  omega

/-- A match at the head ends in two digits, and the text holds them. -/
theorem yearLabelAt_some : ∀ (s : List Char) (r : List Char × Option Char × List Char),
    yearLabelAt s = some r →
      hasDigitPair s = true ∧ ∃ d1 d2, r.2.2 = [d1, d2] ∧ isDigit d1 = true ∧ isDigit d2 = true := by
  intro s
  induction s with
  | nil => intro r h; simp [yearLabelAt] at h
  | cons c rest ih =>
    intro r h
    simp only [yearLabelAt] at h
    cases hm : yearLabelAt rest with
    | some r1 =>
      obtain ⟨hp, d1, d2, hd, h1, h2⟩ := ih r1 hm
      have hpair : hasDigitPair (c :: rest) = true := by
        cases rest with
        | nil => simp [hasDigitPair] at hp
        | cons d rest2 => simp [hasDigitPair, hp]
      by_cases hw : (isWord c || isSpace c) = true
      · simp only [hw, hm, if_true, Option.map_some', Option.orElse] at h
        cases h
        exact ⟨hpair, d1, d2, hd, h1, h2⟩
      · simp only [hw, Bool.false_eq_true, if_false, Option.orElse] at h
        cases rest with
        | nil => simp at h
        | cons d rest2 =>
          simp only at h
          split at h
          · rename_i hdd
            cases h
            simp only [Bool.and_eq_true] at hdd
            exact ⟨hpair, c, d, rfl, hdd.1, hdd.2⟩
          · simp at h
    | none =>
      rw [hm] at h
      simp only [Option.map_none', ite_self, Option.orElse] at h
      cases rest with
      | nil => simp at h
      | cons d rest2 =>
        simp only at h
        split at h
        · rename_i hdd
          cases h
          simp only [Bool.and_eq_true] at hdd
          exact ⟨by simp [hasDigitPair, hdd.1, hdd.2], c, d, rfl, hdd.1, hdd.2⟩
        · simp at h

/-- Two digits at the head make a match at the head. -/
theorem yearLabelAt_isSome_of_digits (c d : Char) (rest : List Char)
    (hc : isDigit c = true) (hd : isDigit d = true) :
    (yearLabelAt (c :: d :: rest)).isSome = true := by
  rw [yearLabelAt]
  simp only [isDigit_isWord hc, Bool.true_or, if_true, hc, hd, Bool.and_self]
  cases yearLabelAt (d :: rest) <;> simp [Option.orElse]

/-- `exec` fails exactly on a text without two adjacent digits, and otherwise
returns an array of three entries whose last one is two digits. -/
theorem yearLabelExec_spec : ∀ (s : List Char),
    (hasDigitPair s = false ∧ yearLabelExec s = none)
    ∨ (hasDigitPair s = true ∧ ∃ w g1 d1 d2,
        yearLabelExec s = some [some w, g1, some (String.mk [d1, d2])]
          ∧ isDigit d1 = true ∧ isDigit d2 = true) := by
  intro s
  induction s with
  | nil => left; simp [hasDigitPair, yearLabelExec]
  | cons c cs ih =>
    cases hat : yearLabelAt (c :: cs) with
    | some r =>
      obtain ⟨hp, d1, d2, hd, h1, h2⟩ := yearLabelAt_some _ r hat
      right
      refine ⟨hp, String.mk r.1, r.2.1.map (fun x => String.mk [x]), d1, d2, ?_, h1, h2⟩
      simp [yearLabelExec, hat, hd]
    | none =>
      have hex : yearLabelExec (c :: cs) = yearLabelExec cs := by simp [yearLabelExec, hat]
      rw [hex]
      rcases ih with ⟨hp, hn⟩ | ⟨hp, h⟩
      · left
        refine ⟨?_, hn⟩
        cases cs with
        | nil => simp [hasDigitPair]
        | cons d rest =>
          have hcd : (isDigit c && isDigit d) = false := by
            by_contra hne
            simp only [Bool.not_eq_false, Bool.and_eq_true] at hne
            have := yearLabelAt_isSome_of_digits c d rest hne.1 hne.2
            simp [hat] at this
          simp only [hasDigitPair, hcd, hp, Bool.or_self]
      · right
        refine ⟨?_, h⟩
        cases cs with
        | nil => simp [hasDigitPair] at hp
        | cons d rest => simp [hasDigitPair, hp]

theorem parseInt_century (d1 d2 : Char) (h1 : isDigit d1 = true) (h2 : isDigit d2 = true) :
    parseInt ("20" ++ String.mk [d1, d2]) = some (2000 + 10 * digitValue d1 + digitValue d2) := by
  have e : ("20" ++ String.mk [d1, d2]).toList = ['2', '0', d1, d2] := by
    simp [String.toList, String.data_append]
  simp only [parseInt, e]
  have hs : isSpace '2' = false := by decide
  simp [List.dropWhile, hs, List.takeWhile, h1, h2, show isDigit '2' = true by decide,
    show isDigit '0' = true by decide, digitsToNat, digitValue]
  simp only [isDigit, Bool.and_eq_true, decide_eq_true_eq] at h1 h2
  omega

/-- Claim C8: `parseYearFromLabel` returns `null` for every input that is no
string; for a string it returns `null` exactly when the text has no two
adjacent decimal digits; a result that is not `null` is an integer of
`2000..2099`; and the array `exec` returns always has three entries. -/
theorem parseYearFromLabel_null_iff (label : String) (n : Int) (m : Moment) :
    (parseYearFromLabel (.num n) = none ∧ parseYearFromLabel (.mom m) = none
      ∧ parseYearFromLabel .null = none ∧ parseYearFromLabel .undefined = none)
    ∧ (parseYearFromLabel (.str label) = none ↔ hasDigitPair label.toList = false)
    ∧ (parseYearFromLabel (.str label) = none
        ∨ ∃ y : Int, parseYearFromLabel (.str label) = some (some y) ∧ 2000 ≤ y ∧ y ≤ 2099)
    ∧ (yearLabelExec label.toList = none
        ∨ ∃ groups, yearLabelExec label.toList = some groups ∧ groups.length = 3) := by
  refine ⟨⟨rfl, rfl, rfl, rfl⟩, ?_⟩
  simp only [String.toList]
  rcases yearLabelExec_spec label.data with ⟨hp, hn⟩ | ⟨hp, w, g1, d1, d2, he, h1, h2⟩
  · have hnull : parseYearFromLabel (.str label) = none := by
      simp [parseYearFromLabel, String.toList, hn]
    exact ⟨by simp [hnull, hp], Or.inl hnull, Or.inl hn⟩
  · have hval : parseYearFromLabel (.str label)
        = some (some (2000 + 10 * digitValue d1 + digitValue d2)) := by
      simp only [parseYearFromLabel, String.toList, he, Option.isSome_some, if_true,
        List.length_cons, List.length_nil, List.getD_cons_succ, List.getD_cons_zero,
        Option.getD_some]
      rw [parseInt_century d1 d2 h1 h2]
    refine ⟨by simp [hval, hp], Or.inr ⟨_, hval, ?_, ?_⟩, Or.inr ⟨_, he, rfl⟩⟩
    · simp only [isDigit, Bool.and_eq_true, decide_eq_true_eq] at h1 h2
      simp only [digitValue]; omega
    · simp only [isDigit, Bool.and_eq_true, decide_eq_true_eq] at h1 h2
      simp only [digitValue]; omega

/-- In a text of word and white-space characters that ends in two digits, the
match at the head covers the whole text and its second group is the last two
characters. -/
theorem yearLabelAt_suffix (d1 d2 : Char) (h1 : isDigit d1 = true) (h2 : isDigit d2 = true) :
    ∀ pre : List Char, (∀ c ∈ pre, (isWord c || isSpace c) = true) →
      ∃ g1, yearLabelAt (pre ++ [d1, d2]) = some (pre ++ [d1, d2], g1, [d1, d2]) := by
  have hlast : yearLabelAt [d2] = none := by
    simp [yearLabelAt, Option.orElse]
  intro pre
  induction pre with
  | nil =>
    intro _
    refine ⟨none, ?_⟩
    simp only [List.nil_append]
    rw [yearLabelAt, hlast]
    simp [Option.orElse, h1, h2]
  | cons c pre ih =>
    intro hpre
    obtain ⟨g1, hg⟩ := ih (fun x hx => hpre x (List.mem_cons_of_mem _ hx))
    refine ⟨some (g1.getD c), ?_⟩
    have hc := hpre c (List.mem_cons_self _ _)
    simp only [List.cons_append]
    simp [yearLabelAt, hg, hc, Option.orElse]

/-- Claim C7 as stated fails: the label `FY 23-24` ends in the digits `2 4`,
and `parseYearFromLabel` returns 2023, not 2024. -/
theorem parseYearFromLabel_suffix_counterexample :
    "FY 23-24".toList = "FY 23-".toList ++ ['2', '4']
      ∧ isDigit '2' = true ∧ isDigit '4' = true
      ∧ parseYearFromLabel (.str "FY 23-24") = some (some 2023)
      ∧ parseYearFromLabel (.str "FY 23-24")
          ≠ some (some (2000 + 10 * digitValue '2' + digitValue '4')) := by
  decide

theorem isDigit_iff {c : Char} : isDigit c = true ↔ 48 ≤ c.toNat ∧ c.toNat ≤ 57 := by
  simp [isDigit]

theorem not_isDigit_slash : isDigit '/' = false := by decide
theorem not_isDigit_dash : isDigit '-' = false := by decide

theorem jsLength_cons_digit {c : Char} (h : isDigit c = true) (cs : List Char) :
    jsLength (c :: cs) = jsLength cs + 1 := by
  rw [isDigit_iff] at h
  rw [jsLength, if_pos (by omega), Nat.add_comm]

theorem jsLength_cons_slash (cs : List Char) : jsLength ('/' :: cs) = jsLength cs + 1 := by
  rw [jsLength, if_pos (by decide), Nat.add_comm]

theorem jsLength_cons_dash (cs : List Char) : jsLength ('-' :: cs) = jsLength cs + 1 := by
  rw [jsLength, if_pos (by decide), Nat.add_comm]

theorem searchDigits_two (lo : Nat) (hlo : lo ≤ 2) (a b : Char) (rest : List Char)
    (ha : isDigit a = true) (hb : isDigit b = true) :
    searchDigits lo 2 (a :: b :: rest) = some ([a, b], rest) := by
  simp [searchDigits, takeRun, ha, hb, hlo]

theorem searchDigits_four (lo : Nat) (hlo : lo ≤ 4) (a b c d : Char) (rest : List Char)
    (ha : isDigit a = true) (hb : isDigit b = true) (hc : isDigit c = true)
    (hd : isDigit d = true) :
    searchDigits lo 4 (a :: b :: c :: d :: rest) = some ([a, b, c, d], rest) := by
  simp [searchDigits, takeRun, ha, hb, hc, hd, hlo]

theorem searchLit_head (x : Char) (rest : List Char) :
    searchLit [x] (x :: rest) = some rest := by
  simp [searchLit]

theorem parseTok_MM (strict : Bool) (a b : Char) (rest : List Char) (y m d : Option Int)
    (n u : Nat) (e i : Bool) (ha : isDigit a = true) (hb : isDigit b = true) :
    parseTok strict ⟨a :: b :: rest, y, m, d, n, u, e, i⟩ .MM
      = ⟨rest, y, some ((digitsToNat [a, b] : Int) - 1), d, n + 2, u, false, i⟩ := by
  cases strict
  · simp only [parseTok, Bool.false_eq_true, if_false,
      searchDigits_two 1 (by decide) a b rest ha hb, List.length_cons, List.length_nil]
  · simp only [parseTok, if_true,
      searchDigits_two 2 (by decide) a b rest ha hb, List.length_cons, List.length_nil]

theorem parseTok_DD (strict : Bool) (a b : Char) (rest : List Char) (y m d : Option Int)
    (n u : Nat) (e i : Bool) (ha : isDigit a = true) (hb : isDigit b = true) :
    parseTok strict ⟨a :: b :: rest, y, m, d, n, u, e, i⟩ .DD
      = ⟨rest, y, m, some (digitsToNat [a, b] : Int), n + 2, u, false, i⟩ := by
  cases strict
  · simp only [parseTok, Bool.false_eq_true, if_false,
      searchDigits_two 1 (by decide) a b rest ha hb, List.length_cons, List.length_nil]
  · simp only [parseTok, if_true,
      searchDigits_two 2 (by decide) a b rest ha hb, List.length_cons, List.length_nil]

theorem parseTok_YYYY (strict : Bool) (a b c k : Char) (rest : List Char) (y m d : Option Int)
    (n u : Nat) (e i : Bool) (ha : isDigit a = true) (hb : isDigit b = true)
    (hc : isDigit c = true) (hk : isDigit k = true) :
    parseTok strict ⟨a :: b :: c :: k :: rest, y, m, d, n, u, e, i⟩ .YYYY
      = ⟨rest, some (digitsToNat [a, b, c, k] : Int), m, d, n + 4, u, false, i⟩ := by
  cases strict
  · simp only [parseTok, Bool.false_eq_true, if_false,
      searchDigits_four 1 (by decide) a b c k rest ha hb hc hk, List.length_cons,
      List.length_nil, parseYearToken]
    simp
  · simp only [parseTok, if_true,
      searchDigits_four 4 (by decide) a b c k rest ha hb hc hk, List.length_cons,
      List.length_nil, parseYearToken]
    simp

theorem parseTok_lit_head (strict : Bool) (x : Char) (rest : List Char) (y m d : Option Int)
    (n u : Nat) (e i : Bool) :
    parseTok strict ⟨x :: rest, y, m, d, n, u, e, i⟩ (.lit (String.mk [x]))
      = ⟨rest, y, m, d, n + 1, u, e, i⟩ := by
  simp only [parseTok, String.toList, searchLit_head]
  rfl

theorem slash_eq : ("/" : String) = String.mk ['/'] := rfl
theorem dash_eq : ("-" : String) = String.mk ['-'] := rfl

theorem parseFormat_mdy (now : Civil) (strict : Bool) (m1 m2 d1 d2 y1 y2 y3 y4 : Char)
    (hm1 : isDigit m1 = true) (hm2 : isDigit m2 = true) (hd1 : isDigit d1 = true)
    (hd2 : isDigit d2 = true) (hy1 : isDigit y1 = true) (hy2 : isDigit y2 = true)
    (hy3 : isDigit y3 = true) (hy4 : isDigit y4 = true) :
    parseFormat now [m1, m2, '/', d1, d2, '/', y1, y2, y3, y4] MM_DD_YYYY strict
      = ⟨civilOfFields (digitsToNat [y1, y2, y3, y4]) ((digitsToNat [m1, m2] : Int) - 1)
          (digitsToNat [d1, d2]), 0, 0⟩ := by
  have hlen : jsLength [m1, m2, '/', d1, d2, '/', y1, y2, y3, y4] = 10 := by
    rw [jsLength_cons_digit hm1, jsLength_cons_digit hm2, jsLength_cons_slash,
      jsLength_cons_digit hd1, jsLength_cons_digit hd2, jsLength_cons_slash,
      jsLength_cons_digit hy1, jsLength_cons_digit hy2, jsLength_cons_digit hy3,
      jsLength_cons_digit hy4, jsLength]
  have hfold : List.foldl (parseTok strict)
      ⟨[m1, m2, '/', d1, d2, '/', y1, y2, y3, y4], none, none, none, 0, 0, true, false⟩
      MM_DD_YYYY
      = ⟨[], some (digitsToNat [y1, y2, y3, y4] : Int), some ((digitsToNat [m1, m2] : Int) - 1),
          some (digitsToNat [d1, d2] : Int), 10, 0, false, false⟩ := by
    simp only [MM_DD_YYYY, List.foldl, slash_eq]
    rw [parseTok_MM strict m1 m2 _ _ _ _ _ _ _ _ hm1 hm2, parseTok_lit_head,
      parseTok_DD strict d1 d2 _ _ _ _ _ _ _ _ hd1 hd2, parseTok_lit_head,
      parseTok_YYYY strict y1 y2 y3 y4 _ _ _ _ _ _ _ _ hy1 hy2 hy3 hy4]
  simp only [parseFormat, hfold, hlen]
  cases strict <;> simp

theorem digitChar_isDigit (n : Nat) (h : n < 10) :
    isDigit (Nat.digitChar n) = true ∧ ((Nat.digitChar n).toNat : Int) - 48 = n := by
  interval_cases n <;> decide

/-- The decimal text of a number of four digits. -/
theorem toDigits_four (n : Nat) (h1 : 1000 ≤ n) (h2 : n ≤ 9999) :
    Nat.toDigits 10 n = [Nat.digitChar (n / 1000), Nat.digitChar (n / 100 % 10),
      Nat.digitChar (n / 10 % 10), Nat.digitChar (n % 10)] := by
  have hf : n + 1 = (n - 3) + 1 + 1 + 1 + 1 := by omega
  have c1 : ¬ n / 10 = 0 := by omega
  have c2 : ¬ n / 10 / 10 = 0 := by omega
  have c3 : ¬ n / 10 / 10 / 10 = 0 := by omega
  have c4 : n / 10 / 10 / 10 / 10 = 0 := by omega
  have e2 : n / 10 / 10 = n / 100 := by omega
  have e3 : n / 10 / 10 / 10 = n / 1000 := by omega
  have e4 : n / 1000 % 10 = n / 1000 := by omega
  rw [Nat.toDigits, hf]
  simp only [Nat.toDigitsCore, c1, c2, c3, c4, if_false, if_true]
  rw [e3, e2, e4]

theorem toString_four (y : Int) (h1 : 1000 ≤ y) (h2 : y ≤ 9999) :
    ∃ a b c d : Char, (toString y).toList = [a, b, c, d]
      ∧ toString y.natAbs = String.mk [a, b, c, d]
      ∧ isDigit a = true ∧ isDigit b = true ∧ isDigit c = true ∧ isDigit d = true
      ∧ (digitsToNat [a, b, c, d] : Int) = y := by
  obtain ⟨n, rfl⟩ : ∃ n : Nat, y = n := ⟨y.toNat, by omega⟩
  have hn1 : 1000 ≤ n := by omega
  have hn2 : n ≤ 9999 := by omega
  have hs : toString (n : Int) = String.mk (Nat.toDigits 10 n) := rfl
  have hs2 : toString (n : Int).natAbs = String.mk (Nat.toDigits 10 n) := rfl
  have ha := digitChar_isDigit (n / 1000) (by omega)
  have hb := digitChar_isDigit (n / 100 % 10) (by omega)
  have hc := digitChar_isDigit (n / 10 % 10) (by omega)
  have hd := digitChar_isDigit (n % 10) (by omega)
  refine ⟨_, _, _, _, ?_, ?_, ha.1, hb.1, hc.1, hd.1, ?_⟩
  · rw [hs, toDigits_four n hn1 hn2]; rfl
  · rw [hs2, toDigits_four n hn1 hn2]
  · have e : ∀ c : Char, 48 ≤ c.toNat → ((c.toNat - 48 : Nat) : Int) = (c.toNat : Int) - 48 := by
      intro c h; omega
    simp only [digitsToNat, List.foldl]
    have ha' := isDigit_iff.1 ha.1
    have hb' := isDigit_iff.1 hb.1
    have hc' := isDigit_iff.1 hc.1
    have hd' := isDigit_iff.1 hd.1
    have := ha.2; have := hb.2; have := hc.2; have := hd.2
    push_cast
    rw [e _ ha'.1, e _ hb'.1, e _ hc'.1, e _ hd'.1]
    omega

theorem zeroFill_four (y : Int) (h1 : 1000 ≤ y) (h2 : y ≤ 9999) :
    zeroFill y 4 = toString y := by
  obtain ⟨a, b, c, d, hl, hn, -⟩ := toString_four y h1 h2
  have hy : 0 ≤ y := by omega
  have hs : toString y = String.mk [a, b, c, d] := by
    apply String.ext
    exact hl
  simp only [zeroFill, hn, hy, if_true, hs]
  rfl

/-- The first of a month of a four-digit year, parsed from the text the range
functions build. -/
theorem momentWithFormat_first (now : Civil) (y : Int) (h1 : 1000 ≤ y) (h2 : y ≤ 9999)
    (m1 m2 : Char) (hm1 : isDigit m1 = true) (hm2 : isDigit m2 = true)
    (hm : 1 ≤ digitsToNat [m1, m2] ∧ digitsToNat [m1, m2] ≤ 12) :
    momentWithFormat now (.str (String.mk [m1, m2, '/', '0', '1', '/'] ++ toString y))
        MM_DD_YYYY false
      = some ⟨y, (digitsToNat [m1, m2] : Int) - 1, 1⟩ := by
  obtain ⟨a, b, c, d, hl, -, ha, hb, hc, hd, hv⟩ := toString_four y h1 h2
  have htext : (String.mk [m1, m2, '/', '0', '1', '/'] ++ toString y).toList
      = [m1, m2, '/', '0', '1', '/', a, b, c, d] := by
    simp only [String.toList, String.data_append] at hl ⊢
    rw [hl]; rfl
  simp only [momentWithFormat, htext]
  rw [parseFormat_mdy now false m1 m2 '0' '1' a b c d hm1 hm2 (by decide) (by decide) ha hb hc hd,
    hv]
  have h01 : digitsToNat ['0', '1'] = 1 := by decide
  simp only [civilOfFields, h01]
  have hdim : (1 : Int) ≤ daysInMonth y ((digitsToNat [m1, m2] : Int) - 1) := by
    simp only [daysInMonth]
    split
    · split <;> omega
    · omega
  rw [if_neg]
  · rfl
  · have hm1' := hm.1
    have hm2' := hm.2
    rintro (h | h | h | h)
    · omega
    · omega
    · simp at h
    · simp only [Nat.cast_one] at h; omega

/-- One year after the first of a month, minus one day. -/
theorem addMonths_addDays_first (y m : Int) (h0 : 0 ≤ m) (h11 : m ≤ 11) :
    Moment.addDays (Moment.addMonths (some ⟨y, m, 1⟩) 12) (-1) = some (prevDay ⟨y + 1, m, 1⟩) := by
  have hdim : (1 : Int) ≤ daysInMonth y (m + 12) := by
    simp only [daysInMonth]
    split
    · split <;> omega
    · omega
  have e1 : (m + 12) / 12 = 1 := by omega
  have e2 : (m + 12) % 12 = m := by omega
  have e3 : m / 12 = 0 := by omega
  have e4 : m % 12 = m := by omega
  simp only [Moment.addMonths, Moment.addDays, Option.map_some', min_eq_left hdim, makeDay, e1,
    e2, sub_self, addDays, le_refl, if_true, Int.toNat_zero, plusDays, e3, e4, add_zero]
  rfl

theorem format_MM_DD_YYYY (c : Civil) :
    Moment.format (some c) MM_DD_YYYY
      = zeroFill (c.month + 1) 2 ++ "/" ++ zeroFill c.day 2 ++ "/" ++ zeroFill c.year 4 := by
  simp [Moment.format, MM_DD_YYYY, formatTok, String.join, String.append_assoc]

theorem parseInt_toString_four (y : Int) (h1 : 1000 ≤ y) (h2 : y ≤ 9999) :
    parseInt (toString y) = some y := by
  obtain ⟨a, b, c, d, hl, -, ha, hb, hc, hd, hv⟩ := toString_four y h1 h2
  have hna : a ≠ '-' ∧ a ≠ '+' := by
    constructor <;> (rintro rfl; revert ha; decide)
  simp only [String.toList] at hl
  simp [parseInt, hl, List.dropWhile, isDigit_not_isSpace ha, List.takeWhile, ha, hb, hc, hd,
    hna.1, hna.2, hv]

theorem toString_four_injective (x y : Int) (hx1 : 1000 ≤ x) (hx2 : x ≤ 9999)
    (hy1 : 1000 ≤ y) (hy2 : y ≤ 9999) (h : toString x = toString y) : x = y := by
  have hx := parseInt_toString_four x hx1 hx2
  have hy := parseInt_toString_four y hy1 hy2
  rw [h, hy] at hx
  exact (Option.some.inj hx).symm

theorem july_text (s : String) : "07/01/" ++ s = String.mk ['0', '7', '/', '0', '1', '/'] ++ s := rfl
theorem january_text (s : String) :
    "01/01/" ++ s = String.mk ['0', '1', '/', '0', '1', '/'] ++ s := rfl

/-- The range the fiscal function builds from the number it puts in the text. -/
theorem fiscalRange_of_year (now : Civil) (n : Int) (h1 : 1000 ≤ n) (h2 : n ≤ 9998) :
    [Moment.format (momentWithFormat now (.str ("07/01/" ++ toString n)) MM_DD_YYYY false)
        MM_DD_YYYY,
      Moment.format (Moment.addDays (Moment.addMonths (momentWithFormat now
        (.mom (momentWithFormat now (.str ("07/01/" ++ toString n)) MM_DD_YYYY false)) [] false)
        12) (-1)) MM_DD_YYYY]
      = ["07/01/" ++ toString n, "06/30/" ++ toString (n + 1)] := by
  rw [july_text, momentWithFormat_first now n h1 (by omega) '0' '7' (by decide) (by decide)
    (by decide)]
  have h07 : ((digitsToNat ['0', '7'] : Nat) : Int) - 1 = 6 := by decide
  rw [h07]
  simp only [momentWithFormat]
  rw [addMonths_addDays_first n 6 (by decide) (by decide)]
  have hp : prevDay ⟨n + 1, 6, 1⟩ = ⟨n + 1, 5, 30⟩ := by
    simp [prevDay, daysInMonth]
  rw [hp, format_MM_DD_YYYY, format_MM_DD_YYYY]
  simp only [zeroFill_four n h1 (by omega), zeroFill_four (n + 1) (by omega) (by omega)]
  rfl

/-- The range the calendar function builds from the number it puts in the
text. -/
theorem calendarRange_of_year (now : Civil) (n : Int) (h1 : 1000 ≤ n) (h2 : n ≤ 9999) :
    [Moment.format (momentWithFormat now (.str ("01/01/" ++ toString n)) MM_DD_YYYY false)
        MM_DD_YYYY,
      Moment.format (Moment.addDays (Moment.addMonths (momentWithFormat now
        (.mom (momentWithFormat now (.str ("01/01/" ++ toString n)) MM_DD_YYYY false)) [] false)
        12) (-1)) MM_DD_YYYY]
      = ["01/01/" ++ toString n, "12/31/" ++ toString n] := by
  rw [january_text, momentWithFormat_first now n h1 h2 '0' '1' (by decide) (by decide)
    (by decide)]
  have h01 : ((digitsToNat ['0', '1'] : Nat) : Int) - 1 = 0 := by decide
  rw [h01]
  simp only [momentWithFormat]
  rw [addMonths_addDays_first n 0 (by decide) (by decide)]
  have hp : prevDay ⟨n + 1, 0, 1⟩ = ⟨n, 11, 31⟩ := by
    simp [prevDay]
  rw [hp, format_MM_DD_YYYY, format_MM_DD_YYYY]
  simp only [zeroFill_four n h1 h2]
  rfl

/-- Claim C3: for an integer year `y` of `1001..9999`, `fiscalYearToDateRange(y)`
is `["07/01/(y-1)", "06/30/y"]`, and the decimal string of `y` gives the same
list as the number `y`. -/
theorem fiscalYearToDateRange_eq (now : Civil) (y : Int) (h1 : 1001 ≤ y) (h2 : y ≤ 9999) :
    fiscalYearToDateRange now (.num y) = ["07/01/" ++ toString (y - 1), "06/30/" ++ toString y]
      ∧ fiscalYearToDateRange now (.str (toString y)) = fiscalYearToDateRange now (.num y) := by
  have hnum : fiscalYearToDateRange now (.num y)
      = ["07/01/" ++ toString (y - 1), "06/30/" ++ toString y] := by
    have h := fiscalRange_of_year now (y - 1) (by omega) (by omega)
    rw [sub_add_cancel] at h
    exact h
  refine ⟨hnum, ?_⟩
  rw [hnum]
  have h := fiscalRange_of_year now (y - 1) (by omega) (by omega)
  rw [sub_add_cancel] at h
  simp only [fiscalYearToDateRange, parseInt_toString_four y (by omega) h2, Option.map_some',
    JSNum.toText]
  exact h

/-- `fiscalYearToDateRange(2024)` is `["07/01/2023", "06/30/2024"]`, also for
the string `"2024"`. -/
theorem fiscalYearToDateRange_witness :
    fiscalYearToDateRange ⟨2025, 10, 6⟩ (.num 2024) = ["07/01/2023", "06/30/2024"]
      ∧ fiscalYearToDateRange ⟨2025, 10, 6⟩ (.str "2024")
          = fiscalYearToDateRange ⟨2025, 10, 6⟩ (.num 2024) :=
  fiscalYearToDateRange_eq ⟨2025, 10, 6⟩ 2024 (by decide) (by decide)

/-- For a string the calendar function does not decrement the year. -/
theorem calendarRange_of_string (now : Civil) (y : Int) (h1 : 1000 ≤ y) (h2 : y ≤ 9999) :
    calendarYearToDateRange now (.str (toString y))
      = ["01/01/" ++ toString y, "12/31/" ++ toString y] := by
  simp only [calendarYearToDateRange, parseInt_toString_four y h1 h2, JSNum.toText]
  exact calendarRange_of_year now y h1 h2

/-- Claim C4: for a year of four digits given as a decimal string `s`,
`calendarYearToDateRange(s)` is `["01/01/s", "12/31/s"]`, leap year or not. -/
theorem calendarYearToDateRange_string (now : Civil) (y : Int) (h1 : 1000 ≤ y) (h2 : y ≤ 9999) :
    calendarYearToDateRange now (.str (toString y))
      = ["01/01/" ++ toString y, "12/31/" ++ toString y] :=
  calendarRange_of_string now y h1 h2

/-- `calendarYearToDateRange("2024")` is `["01/01/2024", "12/31/2024"]`. -/
theorem calendarYearToDateRange_string_witness :
    calendarYearToDateRange ⟨2025, 10, 6⟩ (.str "2024") = ["01/01/2024", "12/31/2024"] :=
  calendarYearToDateRange_string ⟨2025, 10, 6⟩ 2024 (by decide) (by decide)

/-- Claim C5: for an integer year `y` of `1001..9999` passed as a number,
`calendarYearToDateRange(y)` is the range of the year before,
`["01/01/(y-1)", "12/31/(y-1)"]`; it equals the result for the decimal string
of `y-1` and differs from the result for the decimal string of `y`. -/
theorem calendarYearToDateRange_number (now : Civil) (y : Int) (h1 : 1001 ≤ y) (h2 : y ≤ 9999) :
    calendarYearToDateRange now (.num y)
        = ["01/01/" ++ toString (y - 1), "12/31/" ++ toString (y - 1)]
      ∧ calendarYearToDateRange now (.num y)
          = calendarYearToDateRange now (.str (toString (y - 1)))
      ∧ calendarYearToDateRange now (.num y)
          ≠ calendarYearToDateRange now (.str (toString y)) := by
  have hnum : calendarYearToDateRange now (.num y)
      = ["01/01/" ++ toString (y - 1), "12/31/" ++ toString (y - 1)] :=
    calendarRange_of_year now (y - 1) (by omega) (by omega)
  refine ⟨hnum, ?_, ?_⟩
  · rw [hnum, calendarRange_of_string now (y - 1) (by omega) (by omega)]
  · rw [hnum, calendarRange_of_string now y (by omega) h2]
    intro h
    have h' : "01/01/" ++ toString (y - 1) = "01/01/" ++ toString y := by
      injection h
    have h'' : toString (y - 1) = toString y := by
      have := congrArg String.data h'
      simp only [String.data_append, List.append_cancel_left_eq] at this
      exact String.ext this
    have := toString_four_injective (y - 1) y (by omega) (by omega) (by omega) h2 h''
    omega

/-- `calendarYearToDateRange(2024)` is the range of 2023. -/
theorem calendarYearToDateRange_number_witness :
    calendarYearToDateRange ⟨2025, 10, 6⟩ (.num 2024) = ["01/01/2023", "12/31/2023"]
      ∧ calendarYearToDateRange ⟨2025, 10, 6⟩ (.num 2024)
          = calendarYearToDateRange ⟨2025, 10, 6⟩ (.str "2023")
      ∧ calendarYearToDateRange ⟨2025, 10, 6⟩ (.num 2024)
          ≠ calendarYearToDateRange ⟨2025, 10, 6⟩ (.str "2024") :=
  calendarYearToDateRange_number ⟨2025, 10, 6⟩ 2024 (by decide) (by decide)

theorem takeRun_spec (p : Char → Bool) : ∀ (hi : Nat) (s : List Char),
    (takeRun p hi s).length ≤ hi ∧ (∀ c ∈ takeRun p hi s, p c = true)
      ∧ s = takeRun p hi s ++ s.drop (takeRun p hi s).length := by
  intro hi
  induction hi with
  | zero => intro s; simp [takeRun]
  | succ hi ih =>
    intro s
    cases s with
    | nil => simp [takeRun]
    | cons c cs =>
      by_cases hc : p c = true
      · obtain ⟨h1, h2, h3⟩ := ih cs
        simp only [takeRun, hc, if_true, List.length_cons, List.mem_cons, List.drop_succ_cons,
          List.cons_append]
        refine ⟨by omega, ?_, by rw [← h3]⟩
        rintro x (rfl | hx)
        · exact hc
        · exact h2 x hx
      · simp [takeRun, hc]

theorem searchDigits_inv (lo hi : Nat) : ∀ (s ds rest : List Char),
    searchDigits lo hi s = some (ds, rest) →
      ∃ sk, s = sk ++ ds ++ rest ∧ lo ≤ ds.length ∧ ds.length ≤ hi
        ∧ ∀ c ∈ ds, isDigit c = true := by
  intro s
  induction s with
  | nil => intro ds rest h; simp [searchDigits] at h
  | cons c cs ih =>
    intro ds rest h
    simp only [searchDigits] at h
    split at h
    · rename_i hrun
      obtain ⟨h1, h2, h3⟩ := takeRun_spec isDigit hi (c :: cs)
      simp only [Option.some.injEq, Prod.mk.injEq] at h
      obtain ⟨rfl, rfl⟩ := h
      exact ⟨[], by simpa using h3, hrun.1, h1, h2⟩
    · obtain ⟨sk, hs, hr⟩ := ih ds rest h
      exact ⟨c :: sk, by simp [hs], hr⟩

theorem searchLit_inv (lit : List Char) : ∀ (s rest : List Char),
    searchLit lit s = some rest → ∃ sk, s = sk ++ lit ++ rest := by
  intro s
  induction s with
  | nil =>
    intro rest h
    simp only [searchLit] at h
    split at h
    · rename_i hl
      cases h
      exact ⟨[], by simp [hl]⟩
    · simp at h
  | cons c cs ih =>
    intro rest h
    simp only [searchLit] at h
    split at h
    · rename_i hp
      cases h
      refine ⟨[], ?_⟩
      have := List.isPrefixOf_iff_prefix.1 hp
      obtain ⟨t, ht⟩ := this
      rw [← ht]
      simp
    · obtain ⟨sk, hs⟩ := ih rest h
      exact ⟨c :: sk, by simp [hs]⟩

theorem searchWord_inv : ∀ (s w rest : List Char),
    searchWord s = some (w, rest) → ∃ sk, s = sk ++ w ++ rest := by
  intro s
  induction s with
  | nil => intro w rest h; simp [searchWord] at h
  | cons c cs ih =>
    intro w rest h
    simp only [searchWord] at h
    split at h
    · simp only [Option.some.injEq, Prod.mk.injEq] at h
      obtain ⟨rfl, rfl⟩ := h
      exact ⟨[], by simp⟩
    · obtain ⟨sk, hs⟩ := ih w rest h
      exact ⟨c :: sk, by simp [hs]⟩

/-- One strict round of the token loop: the count of unused tokens and the
flag of an invalid month never go back, and a round that leaves both as they
were has read a word the token accepts. -/
theorem parseTok_true_inv (st : ParseState) (tok : Tok) :
    st.unusedTokens ≤ (parseTok true st tok).unusedTokens
      ∧ (st.invalidMonth = true → (parseTok true st tok).invalidMonth = true)
      ∧ ((parseTok true st tok).unusedTokens = st.unusedTokens →
          (parseTok true st tok).invalidMonth = false →
          ∃ sk w, st.input = sk ++ w ++ (parseTok true st tok).input
            ∧ (parseTok true st tok).parsedLen = st.parsedLen + w.length ∧ TokText tok w) := by
  cases tok with
  | MM =>
    simp only [parseTok, if_true]
    cases h : searchDigits 2 2 st.input with
    | none => simp
    | some p =>
      obtain ⟨ds, rest⟩ := p
      obtain ⟨sk, hs, h1, h2, h3⟩ := searchDigits_inv 2 2 _ _ _ h
      simp only [le_refl, imp_self, true_and, forall_const]
      intro _
      exact ⟨sk, ds, hs, rfl, by omega, h3⟩
  | DD =>
    simp only [parseTok, if_true]
    cases h : searchDigits 2 2 st.input with
    | none => simp
    | some p =>
      obtain ⟨ds, rest⟩ := p
      obtain ⟨sk, hs, h1, h2, h3⟩ := searchDigits_inv 2 2 _ _ _ h
      simp only [le_refl, imp_self, true_and, forall_const]
      intro _
      exact ⟨sk, ds, hs, rfl, by omega, h3⟩
  | YYYY =>
    simp only [parseTok, if_true]
    cases h : searchDigits 4 4 st.input with
    | none => simp
    | some p =>
      obtain ⟨ds, rest⟩ := p
      obtain ⟨sk, hs, h1, h2, h3⟩ := searchDigits_inv 4 4 _ _ _ h
      simp only [le_refl, imp_self, true_and, forall_const]
      intro _
      exact ⟨sk, ds, hs, rfl, by omega, h3⟩
  | MMM =>
    simp only [parseTok]
    cases h : searchWord st.input with
    | none => simp
    | some p =>
      obtain ⟨w, rest⟩ := p
      obtain ⟨sk, hs⟩ := searchWord_inv _ _ _ h
      cases hm : monthsParse w true with
      | none => simp [hm]
      | some i =>
        simp only [hm, le_refl, imp_self, true_and, forall_const]
        intro _
        exact ⟨sk, w, hs, rfl, by show (monthsParse w true).isSome = true; rw [hm]; rfl⟩
  | lit text =>
    simp only [parseTok, if_true]
    cases h : searchLit text.toList st.input with
    | none => simp
    | some rest =>
      obtain ⟨sk, hs⟩ := searchLit_inv _ _ _ h
      simp only [le_refl, imp_self, true_and, forall_const]
      intro _
      exact ⟨sk, text.toList, hs, rfl, rfl⟩

theorem foldl_parseTok_mono : ∀ (f : Format) (st : ParseState),
    st.unusedTokens ≤ (f.foldl (parseTok true) st).unusedTokens
      ∧ (st.invalidMonth = true → (f.foldl (parseTok true) st).invalidMonth = true) := by
  intro f
  induction f with
  | nil => intro st; simp
  | cons tok f ih =>
    intro st
    obtain ⟨h1, h2, -⟩ := parseTok_true_inv st tok
    obtain ⟨h3, h4⟩ := ih (parseTok true st tok)
    simp only [List.foldl]
    exact ⟨le_trans h1 h3, fun h => h4 (h2 h)⟩

theorem foldl_parseTok_readBy : ∀ (f : Format) (st : ParseState),
    (f.foldl (parseTok true) st).unusedTokens = st.unusedTokens →
    (f.foldl (parseTok true) st).invalidMonth = false →
    ∃ n, ReadBy f st.input (f.foldl (parseTok true) st).input n
      ∧ (f.foldl (parseTok true) st).parsedLen = st.parsedLen + n := by
  intro f
  induction f with
  | nil => intro st _ _; exact ⟨0, ⟨rfl, rfl⟩, rfl⟩
  | cons tok f ih =>
    intro st hu hi
    simp only [List.foldl] at hu hi ⊢
    obtain ⟨h1, h2, h3⟩ := parseTok_true_inv st tok
    obtain ⟨m1, m2⟩ := foldl_parseTok_mono f (parseTok true st tok)
    have hu1 : (parseTok true st tok).unusedTokens = st.unusedTokens := by omega
    have hi1 : (parseTok true st tok).invalidMonth = false := by
      cases hb : (parseTok true st tok).invalidMonth with
      | false => rfl
      | true => rw [m2 hb] at hi; cases hi
    obtain ⟨sk, w, hs, hp, ht⟩ := h3 hu1 hi1
    obtain ⟨k, hr, hk⟩ := ih (parseTok true st tok) (by omega) hi
    exact ⟨w.length + k, ⟨sk, w, _, k, hs, ht, hr, rfl⟩, by omega⟩

theorem length_le_jsLength : ∀ s : List Char, s.length ≤ jsLength s := by
  intro s
  induction s with
  | nil => simp [jsLength]
  | cons c cs ih =>
    simp only [List.length_cons, jsLength]
    split <;> omega

theorem readBy_length : ∀ (f : Format) (s rest : List Char) (n : Nat),
    ReadBy f s rest n → n + rest.length ≤ s.length := by
  intro f
  induction f with
  | nil =>
    intro s rest n h
    obtain ⟨rfl, rfl⟩ := h
    simp
  | cons tok f ih =>
    intro s rest n h
    obtain ⟨sk, w, mid, k, rfl, -, hr, rfl⟩ := h
    have := ih mid rest k hr
    simp only [List.length_append]
    omega

theorem readBy_exact : ∀ (f : Format) (s rest : List Char) (n : Nat),
    ReadBy f s rest n → s.length ≤ n → ExactRead f s := by
  intro f
  induction f with
  | nil =>
    intro s rest n h hn
    obtain ⟨rfl, rfl⟩ := h
    exact List.length_eq_zero.1 (by omega)
  | cons tok f ih =>
    intro s rest n h hn
    obtain ⟨sk, w, mid, k, rfl, ht, hr, rfl⟩ := h
    have hl := readBy_length f mid rest k hr
    simp only [List.length_append] at hn
    have hsk : sk = [] := List.length_eq_zero.1 (by omega)
    subst hsk
    exact ⟨w, mid, by simp, ht, ih mid rest k hr (by omega)⟩

/-- A text that a format accepts strictly is read by its tokens from the first
character to the last. -/
theorem exactRead_of_strict (now : Civil) (text : List Char) (f : Format)
    (h : (parseFormat now text f true).date.isSome = true) : ExactRead f text := by
  simp only [parseFormat] at h
  split at h
  · rename_i hok
    simp only [Bool.not_true, Bool.false_or, Bool.and_eq_true, Bool.not_eq_true',
      beq_iff_eq] at hok
    obtain ⟨⟨-, hinv⟩, hleft, hun⟩ := hok
    obtain ⟨n, hr, hn⟩ := foldl_parseTok_readBy f
      ⟨text, none, none, none, 0, 0, true, false⟩ hun hinv
    have := length_le_jsLength text
    simp only [Nat.zero_add] at hn
    rw [hn] at hleft
    exact readBy_exact f text _ n hr (by omega)
  · simp at h

theorem two_digits {w : List Char} (h : w.length = 2 ∧ ∀ c ∈ w, isDigit c = true) :
    ∃ a b, w = [a, b] ∧ isDigit a = true ∧ isDigit b = true := by
  obtain ⟨hl, hd⟩ := h
  match w, hl, hd with
  | [a, b], _, hd => exact ⟨a, b, rfl, hd a (by simp), hd b (by simp)⟩

theorem four_digits {w : List Char} (h : w.length = 4 ∧ ∀ c ∈ w, isDigit c = true) :
    ∃ a b c d, w = [a, b, c, d] ∧ isDigit a = true ∧ isDigit b = true ∧ isDigit c = true
      ∧ isDigit d = true := by
  obtain ⟨hl, hd⟩ := h
  match w, hl, hd with
  | [a, b, c, d], _, hd =>
    exact ⟨a, b, c, d, rfl, hd a (by simp), hd b (by simp), hd c (by simp), hd d (by simp)⟩

theorem exactRead_mdy {text : List Char} (h : ExactRead MM_DD_YYYY text) :
    ∃ m1 m2 d1 d2 y1 y2 y3 y4, text = [m1, m2, '/', d1, d2, '/', y1, y2, y3, y4]
      ∧ isDigit m1 = true ∧ isDigit m2 = true ∧ isDigit d1 = true ∧ isDigit d2 = true
      ∧ isDigit y1 = true ∧ isDigit y2 = true ∧ isDigit y3 = true ∧ isDigit y4 = true := by
  obtain ⟨w1, r1, rfl, t1, w2, r2, rfl, t2, w3, r3, rfl, t3, w4, r4, rfl, t4, w5, r5, rfl, t5, h6⟩ := h
  obtain ⟨m1, m2, rfl, hm1, hm2⟩ := two_digits t1
  obtain ⟨d1, d2, rfl, hd1, hd2⟩ := two_digits t3
  obtain ⟨y1, y2, y3, y4, rfl, hy1, hy2, hy3, hy4⟩ := four_digits t5
  have e2 : w2 = ['/'] := t2
  have e4 : w4 = ['/'] := t4
  have e6 : r5 = [] := h6
  subst e2 e4 e6
  exact ⟨m1, m2, d1, d2, y1, y2, y3, y4, rfl, hm1, hm2, hd1, hd2, hy1, hy2, hy3, hy4⟩

theorem exactRead_ymd {text : List Char} (h : ExactRead YYYY_MM_DD text) :
    ∃ y1 y2 y3 y4 m1 m2 d1 d2, text = [y1, y2, y3, y4, '-', m1, m2, '-', d1, d2]
      ∧ isDigit y1 = true ∧ isDigit y2 = true ∧ isDigit y3 = true ∧ isDigit y4 = true
      ∧ isDigit m1 = true ∧ isDigit m2 = true ∧ isDigit d1 = true ∧ isDigit d2 = true := by
  obtain ⟨w1, r1, rfl, t1, w2, r2, rfl, t2, w3, r3, rfl, t3, w4, r4, rfl, t4, w5, r5, rfl, t5, h6⟩ := h
  obtain ⟨y1, y2, y3, y4, rfl, hy1, hy2, hy3, hy4⟩ := four_digits t1
  obtain ⟨m1, m2, rfl, hm1, hm2⟩ := two_digits t3
  obtain ⟨d1, d2, rfl, hd1, hd2⟩ := two_digits t5
  have e2 : w2 = ['-'] := t2
  have e4 : w4 = ['-'] := t4
  have e6 : r5 = [] := h6
  subst e2 e4 e6
  exact ⟨y1, y2, y3, y4, m1, m2, d1, d2, rfl, hy1, hy2, hy3, hy4, hm1, hm2, hd1, hd2⟩

theorem exactRead_ymon {text : List Char} (h : ExactRead YYYY_MMM text) :
    ∃ y1 y2 y3 y4 w, text = y1 :: y2 :: y3 :: y4 :: '-' :: w
      ∧ isDigit y1 = true ∧ isDigit y2 = true ∧ isDigit y3 = true ∧ isDigit y4 = true
      ∧ (monthsParse w true).isSome = true := by
  obtain ⟨w1, r1, rfl, t1, w2, r2, rfl, t2, w3, r3, rfl, t3, h4⟩ := h
  obtain ⟨y1, y2, y3, y4, rfl, hy1, hy2, hy3, hy4⟩ := four_digits t1
  have e2 : w2 = ['-'] := t2
  have e4 : r3 = [] := h4
  subst e2 e4
  exact ⟨y1, y2, y3, y4, w3, by simp, hy1, hy2, hy3, hy4, t3⟩

theorem isAsciiLetter_of_toUpper (c : Char) (h : 65 ≤ c.toUpper.toNat ∧ c.toUpper.toNat ≤ 90) :
    isAsciiLetter c = true := by
  simp only [isAsciiLetter, Bool.or_eq_true, Bool.and_eq_true, decide_eq_true_eq]
  by_cases hc : c.toNat ≥ 97 ∧ c.toNat ≤ 122
  · right; exact hc
  · left
    have e : c.toUpper = c := by
      unfold Char.toUpper
      simp only [hc, if_false]
    rw [e] at h
    exact h

/-- The upper-case letters of the short month names. -/
theorem monthsShort_upper : ∀ name ∈ monthsShort, ∃ a b c : Char,
    name.toList.map Char.toUpper = [a, b, c] ∧ (65 ≤ a.toNat ∧ a.toNat ≤ 90)
      ∧ (65 ≤ b.toNat ∧ b.toNat ≤ 90) ∧ (65 ≤ c.toNat ∧ c.toNat ≤ 90) := by
  intro name h
  simp only [monthsShort, List.mem_cons, List.mem_singleton, List.not_mem_nil, or_false] at h
  rcases h with rfl | rfl | rfl | rfl | rfl | rfl | rfl | rfl | rfl | rfl | rfl | rfl <;>
    exact ⟨_, _, _, rfl, by decide, by decide, by decide⟩

/-- A word the strict token `MMM` accepts is three ASCII letters, and the
lenient token reads the same month from it. -/
theorem monthsParse_true_letters (w : List Char) (h : (monthsParse w true).isSome = true) :
    ∃ a b c, w = [a, b, c] ∧ isAsciiLetter a = true ∧ isAsciiLetter b = true
      ∧ isAsciiLetter c = true ∧ monthsParse [a, b, c] false = monthsParse [a, b, c] true := by
  simp only [monthsParse, List.findIdx?_isSome, List.any_eq_true, if_true] at h
  obtain ⟨name, hmem, heq⟩ := h
  obtain ⟨u1, u2, u3, hu, h1, h2, h3⟩ := monthsShort_upper name hmem
  simp only [eqIgnoreCase, beq_iff_eq, hu] at heq
  match w, heq with
  | [a, b, c], heq =>
    simp only [List.map_cons, List.map_nil, List.cons.injEq, and_true] at heq
    obtain ⟨e1, e2, e3⟩ := heq
    refine ⟨a, b, c, rfl, isAsciiLetter_of_toUpper a (e1 ▸ h1), isAsciiLetter_of_toUpper b (e2 ▸ h2),
      isAsciiLetter_of_toUpper c (e3 ▸ h3), ?_⟩
    simp only [monthsParse, monthsShort]
    rfl

theorem isAsciiLetter_iff {c : Char} : isAsciiLetter c = true ↔
    (65 ≤ c.toNat ∧ c.toNat ≤ 90) ∨ (97 ≤ c.toNat ∧ c.toNat ≤ 122) := by
  simp [isAsciiLetter]

theorem letter_not_digit {c : Char} (h : isAsciiLetter c = true) : isDigit c = false := by
  rw [isAsciiLetter_iff] at h
  simp only [isDigit, Bool.and_eq_false_iff, decide_eq_false_iff_not]
  omega

theorem letter_isWordLetter {c : Char} (h : isAsciiLetter c = true) : isWordLetter c = true := by
  rw [isAsciiLetter_iff] at h
  simp only [isWordLetter, Bool.or_eq_true, Bool.and_eq_true, decide_eq_true_eq, beq_iff_eq]
  omega

theorem jsLength_cons_letter {c : Char} (h : isAsciiLetter c = true) (cs : List Char) :
    jsLength (c :: cs) = jsLength cs + 1 := by
  rw [isAsciiLetter_iff] at h
  rw [jsLength, if_pos (by omega), Nat.add_comm]

theorem searchWord_letters (a b c : Char) (ha : isAsciiLetter a = true)
    (hb : isAsciiLetter b = true) (hc : isAsciiLetter c = true) :
    searchWord [a, b, c] = some ([a, b, c], []) := by
  simp [searchWord, wordAlt1, takeRun, letter_not_digit ha, letter_isWordLetter ha,
    letter_isWordLetter hb, letter_isWordLetter hc, Option.orElse]

theorem parseTok_MMM (strict : Bool) (a b c : Char) (y m d : Option Int)
    (n u : Nat) (e i : Bool) (k : Nat) (ha : isAsciiLetter a = true)
    (hb : isAsciiLetter b = true) (hc : isAsciiLetter c = true)
    (hk : monthsParse [a, b, c] strict = some k) :
    parseTok strict ⟨[a, b, c], y, m, d, n, u, e, i⟩ .MMM
      = ⟨[], y, some (k : Int), d, n + 3, u, false, i⟩ := by
  simp only [parseTok, searchWord_letters a b c ha hb hc, hk, List.length_cons, List.length_nil]

theorem parseFormat_ymd (now : Civil) (strict : Bool) (y1 y2 y3 y4 m1 m2 d1 d2 : Char)
    (hy1 : isDigit y1 = true) (hy2 : isDigit y2 = true) (hy3 : isDigit y3 = true)
    (hy4 : isDigit y4 = true) (hm1 : isDigit m1 = true) (hm2 : isDigit m2 = true)
    (hd1 : isDigit d1 = true) (hd2 : isDigit d2 = true) :
    parseFormat now [y1, y2, y3, y4, '-', m1, m2, '-', d1, d2] YYYY_MM_DD strict
      = ⟨civilOfFields (digitsToNat [y1, y2, y3, y4]) ((digitsToNat [m1, m2] : Int) - 1)
          (digitsToNat [d1, d2]), 0, 0⟩ := by
  have hlen : jsLength [y1, y2, y3, y4, '-', m1, m2, '-', d1, d2] = 10 := by
    rw [jsLength_cons_digit hy1, jsLength_cons_digit hy2, jsLength_cons_digit hy3,
      jsLength_cons_digit hy4, jsLength_cons_dash, jsLength_cons_digit hm1,
      jsLength_cons_digit hm2, jsLength_cons_dash, jsLength_cons_digit hd1,
      jsLength_cons_digit hd2, jsLength]
  have hfold : List.foldl (parseTok strict)
      ⟨[y1, y2, y3, y4, '-', m1, m2, '-', d1, d2], none, none, none, 0, 0, true, false⟩
      YYYY_MM_DD
      = ⟨[], some (digitsToNat [y1, y2, y3, y4] : Int), some ((digitsToNat [m1, m2] : Int) - 1),
          some (digitsToNat [d1, d2] : Int), 10, 0, false, false⟩ := by
    simp only [YYYY_MM_DD, List.foldl, dash_eq]
    rw [parseTok_YYYY strict y1 y2 y3 y4 _ _ _ _ _ _ _ _ hy1 hy2 hy3 hy4, parseTok_lit_head,
      parseTok_MM strict m1 m2 _ _ _ _ _ _ _ _ hm1 hm2, parseTok_lit_head,
      parseTok_DD strict d1 d2 _ _ _ _ _ _ _ _ hd1 hd2]
  simp only [parseFormat, hfold, hlen]
  cases strict <;> simp

theorem monthsParse_lt (w : List Char) (strict : Bool) (k : Nat)
    (h : monthsParse w strict = some k) : k < 12 := by
  simp only [monthsParse] at h
  have := List.findIdx?_eq_some_iff_findIdx_eq.1 h
  have hl : monthsShort.length = 12 := rfl
  omega

theorem parseFormat_ymon (now : Civil) (strict : Bool) (y1 y2 y3 y4 a b c : Char) (k : Nat)
    (hy1 : isDigit y1 = true) (hy2 : isDigit y2 = true) (hy3 : isDigit y3 = true)
    (hy4 : isDigit y4 = true) (ha : isAsciiLetter a = true) (hb : isAsciiLetter b = true)
    (hc : isAsciiLetter c = true) (hk : monthsParse [a, b, c] strict = some k) :
    parseFormat now [y1, y2, y3, y4, '-', a, b, c] YYYY_MMM strict
      = ⟨some ⟨digitsToNat [y1, y2, y3, y4], k, 1⟩, 0, 0⟩ := by
  have hlen : jsLength [y1, y2, y3, y4, '-', a, b, c] = 8 := by
    rw [jsLength_cons_digit hy1, jsLength_cons_digit hy2, jsLength_cons_digit hy3,
      jsLength_cons_digit hy4, jsLength_cons_dash, jsLength_cons_letter ha,
      jsLength_cons_letter hb, jsLength_cons_letter hc, jsLength]
  have hfold : List.foldl (parseTok strict)
      ⟨[y1, y2, y3, y4, '-', a, b, c], none, none, none, 0, 0, true, false⟩ YYYY_MMM
      = ⟨[], some (digitsToNat [y1, y2, y3, y4] : Int), some (k : Int), none, 8, 0, false,
          false⟩ := by
    simp only [YYYY_MMM, List.foldl, dash_eq]
    rw [parseTok_YYYY strict y1 y2 y3 y4 _ _ _ _ _ _ _ _ hy1 hy2 hy3 hy4, parseTok_lit_head,
      parseTok_MMM strict a b c _ _ _ _ _ _ _ k ha hb hc hk]
  have hk12 := monthsParse_lt _ _ _ hk
  have hdim : (1 : Int) ≤ daysInMonth (digitsToNat [y1, y2, y3, y4]) k := by
    simp only [daysInMonth]
    split
    · split <;> omega
    · omega
  have hciv : civilOfFields (digitsToNat [y1, y2, y3, y4]) k 1
      = some ⟨digitsToNat [y1, y2, y3, y4], k, 1⟩ := by
    rw [civilOfFields, if_neg]
    rintro (h | h | h | h) <;> omega
  simp only [parseFormat, hfold, hlen]
  cases strict <;> simp [hciv]

theorem searchDigits_skip (lo hi : Nat) (c : Char) (cs : List Char) (h : isDigit c = false) :
    searchDigits lo hi (c :: cs) = searchDigits lo hi cs := by
  cases hi <;> simp [searchDigits, takeRun, h]

theorem searchDigits_nil (lo hi : Nat) : searchDigits lo hi [] = none := rfl

theorem searchDigits_one_four_two (a b c : Char) (rest : List Char) (ha : isDigit a = true)
    (hb : isDigit b = true) (hc : isDigit c = false) :
    searchDigits 1 4 (a :: b :: c :: rest) = some ([a, b], c :: rest) := by
  simp [searchDigits, takeRun, ha, hb, hc]

theorem searchDigits_one_four_end (a b : Char) (ha : isDigit a = true) (hb : isDigit b = true) :
    searchDigits 1 4 [a, b] = some ([a, b], []) := by
  simp [searchDigits, takeRun, ha, hb]

theorem searchLit_skip (x c : Char) (cs : List Char) (h : c ≠ x) :
    searchLit [x] (c :: cs) = searchLit [x] cs := by
  have : ¬ (x = c) := fun e => h e.symm
  simp [searchLit, List.isPrefixOf, this]

theorem searchLit_nil (x : Char) : searchLit [x] [] = none := by
  simp [searchLit]

theorem digit_ne_slash {c : Char} (h : isDigit c = true) : c ≠ '/' := by
  rintro rfl; revert h; decide

theorem digit_ne_dash {c : Char} (h : isDigit c = true) : c ≠ '-' := by
  rintro rfl; revert h; decide

theorem letter_ne_slash {c : Char} (h : isAsciiLetter c = true) : c ≠ '/' := by
  rintro rfl; revert h; decide

theorem letter_ne_dash {c : Char} (h : isAsciiLetter c = true) : c ≠ '-' := by
  rintro rfl; revert h; decide

theorem parseTok_MM_some (inp ds rest : List Char) (y m d : Option Int)
    (n u : Nat) (e i : Bool) (h : searchDigits 1 2 inp = some (ds, rest)) :
    parseTok false ⟨inp, y, m, d, n, u, e, i⟩ .MM
      = ⟨rest, y, some ((digitsToNat ds : Int) - 1), d, n + ds.length, u, false, i⟩ := by
  simp only [parseTok, Bool.false_eq_true, if_false, h]

theorem parseTok_DD_some (inp ds rest : List Char) (y m d : Option Int)
    (n u : Nat) (e i : Bool) (h : searchDigits 1 2 inp = some (ds, rest)) :
    parseTok false ⟨inp, y, m, d, n, u, e, i⟩ .DD
      = ⟨rest, y, m, some (digitsToNat ds : Int), n + ds.length, u, false, i⟩ := by
  simp only [parseTok, Bool.false_eq_true, if_false, h]

theorem parseTok_YYYY_some (inp ds rest : List Char) (y m d : Option Int)
    (n u : Nat) (e i : Bool) (h : searchDigits 1 4 inp = some (ds, rest)) :
    parseTok false ⟨inp, y, m, d, n, u, e, i⟩ .YYYY
      = ⟨rest, some (parseYearToken ds), m, d, n + ds.length, u, false, i⟩ := by
  simp only [parseTok, Bool.false_eq_true, if_false, h]

theorem parseTok_MM_none (inp : List Char) (y m d : Option Int)
    (n u : Nat) (e i : Bool) (h : searchDigits 1 2 inp = none) :
    parseTok false ⟨inp, y, m, d, n, u, e, i⟩ .MM = ⟨inp, y, m, d, n, u + 1, e, i⟩ := by
  simp only [parseTok, Bool.false_eq_true, if_false, h]

theorem parseTok_DD_none (inp : List Char) (y m d : Option Int)
    (n u : Nat) (e i : Bool) (h : searchDigits 1 2 inp = none) :
    parseTok false ⟨inp, y, m, d, n, u, e, i⟩ .DD = ⟨inp, y, m, d, n, u + 1, e, i⟩ := by
  simp only [parseTok, Bool.false_eq_true, if_false, h]

theorem parseTok_YYYY_none (inp : List Char) (y m d : Option Int)
    (n u : Nat) (e i : Bool) (h : searchDigits 1 4 inp = none) :
    parseTok false ⟨inp, y, m, d, n, u, e, i⟩ .YYYY = ⟨inp, y, m, d, n, u + 1, e, i⟩ := by
  simp only [parseTok, Bool.false_eq_true, if_false, h]

theorem parseTok_lit_none (x : Char) (inp : List Char) (y m d : Option Int)
    (n u : Nat) (e i : Bool) (h : searchLit [x] inp = none) :
    parseTok false ⟨inp, y, m, d, n, u, e, i⟩ (.lit (String.mk [x]))
      = ⟨inp, y, m, d, n, u, e, i⟩ := by
  simp only [parseTok, String.toList, h, Bool.false_eq_true, if_false]

theorem parseTok_MMM_none (strict : Bool) (inp : List Char) (y m d : Option Int)
    (n u : Nat) (e i : Bool) (h : searchWord inp = none) :
    parseTok strict ⟨inp, y, m, d, n, u, e, i⟩ .MMM = ⟨inp, y, m, d, n, u + 1, e, i⟩ := by
  simp only [parseTok, h]

theorem searchLit_not_mem (x : Char) : ∀ s : List Char, x ∉ s → searchLit [x] s = none := by
  intro s
  induction s with
  | nil => intro _; exact searchLit_nil x
  | cons c cs ih =>
    intro h
    simp only [List.mem_cons, not_or] at h
    rw [searchLit_skip x c cs (fun e => h.1 e.symm)]
    exact ih h.2

theorem digit_not_letter {c : Char} (h : isDigit c = true) : isWordLetter c = false := by
  rw [isDigit_iff] at h
  simp only [isWordLetter, Bool.or_eq_false_iff, Bool.and_eq_false_iff, decide_eq_false_iff_not,
    beq_eq_false_iff_ne, ne_eq]
  omega

theorem digit_not_arabicOrSlash {c : Char} (h : isDigit c = true) : isArabicOrSlash c = false := by
  rw [isDigit_iff] at h
  simp only [isArabicOrSlash, isArabic, Bool.or_eq_false_iff, Bool.and_eq_false_iff,
    decide_eq_false_iff_not, beq_eq_false_iff_ne, ne_eq]
  omega

theorem searchWord_ymon (y1 y2 y3 y4 a b c : Char)
    (hy1 : isDigit y1 = true) (hy2 : isDigit y2 = true) (hy3 : isDigit y3 = true)
    (hy4 : isDigit y4 = true) (ha : isAsciiLetter a = true) (hb : isAsciiLetter b = true)
    (hc : isAsciiLetter c = true) :
    searchWord [y1, y2, y3, y4, '-', a, b, c] = some ([a, b, c], []) := by
  have hd1 : isWordLetter '-' = false := by decide
  have hd2 : isArabicOrSlash '-' = false := by decide
  have hd3 : isDigit '-' = false := by decide
  have e1 : wordAlt1 [y1, y2, y3, y4, '-', a, b, c] = none := by
    simp [wordAlt1, takeRun, hy1, hy2, hy3, hy4, hd1, hd3]
  have e2 : wordAlt1 [y2, y3, y4, '-', a, b, c] = none := by
    simp [wordAlt1, takeRun, hy2, hy3, hy4, hd1, hd3]
  have e3 : wordAlt1 [y3, y4, '-', a, b, c] = none := by
    simp [wordAlt1, takeRun, hy3, hy4, hd1, hd3]
  have e4 : wordAlt1 [y4, '-', a, b, c] = none := by
    simp [wordAlt1, takeRun, hy4, hd1, hd3]
  have e5 : wordAlt1 ['-', a, b, c] = none := by
    simp [wordAlt1, takeRun, hd1, hd3]
  have f : ∀ (x : Char) (rest : List Char), isArabicOrSlash x = false →
      wordAlt2 (x :: rest) = none := by
    intro x rest hx
    simp [wordAlt2, takeRun, hx, wordAlt2From]
  rw [searchWord, e1, f _ _ (digit_not_arabicOrSlash hy1)]
  simp only [Option.orElse]
  rw [searchWord, e2, f _ _ (digit_not_arabicOrSlash hy2)]
  simp only [Option.orElse]
  rw [searchWord, e3, f _ _ (digit_not_arabicOrSlash hy3)]
  simp only [Option.orElse]
  rw [searchWord, e4, f _ _ (digit_not_arabicOrSlash hy4)]
  simp only [Option.orElse]
  rw [searchWord, e5, f _ _ hd2]
  simp only [Option.orElse]
  exact searchWord_letters a b c ha hb hc

theorem takeRun_nil_of_head (p : Char → Bool) (hi : Nat) (c : Char) (cs : List Char)
    (h : p c = false) : takeRun p hi (c :: cs) = [] := by
  cases hi <;> simp [takeRun, h]

theorem takeRun_eq_nil (p : Char → Bool) (hi : Nat) (s : List Char)
    (h : ∀ c ∈ s, p c = false) : takeRun p hi s = [] := by
  cases s with
  | nil => cases hi <;> rfl
  | cons c cs => exact takeRun_nil_of_head p hi c cs (h c (List.mem_cons_self _ _))

theorem wordAlt2From_none (s : List Char) (h : ∀ c ∈ s, isArabic c = false) :
    ∀ k, wordAlt2From s k = none := by
  intro k
  induction k with
  | zero => rfl
  | succ k ih =>
    have hdrop : ∀ c ∈ (s.drop (k + 1)).drop ((s.drop (k + 1)).takeWhile isSpace).length,
        isArabic c = false :=
      fun c hc => h c (List.mem_of_mem_drop (List.mem_of_mem_drop hc))
    have hg : arabicGroups (s.drop (k + 1)) = none := by
      simp only [arabicGroups, arabicGroup, takeRun_eq_nil isArabic 256 _ hdrop, List.length_nil,
        lt_self_iff_false, if_false]
    simp only [wordAlt2From, hg, ih]

/-- A text without letters holds no word for the token `MMM`. -/
theorem searchWord_none : ∀ s : List Char,
    (∀ c ∈ s, isWordLetter c = false ∧ isArabic c = false) → searchWord s = none := by
  intro s
  induction s with
  | nil => intro _; rfl
  | cons c cs ih =>
    intro h
    have h1 : wordAlt1 (c :: cs) = none := by
      have hdrop : ∀ x ∈ (c :: cs).drop (takeRun isDigit 256 (c :: cs)).length,
          isWordLetter x = false := fun x hx => (h x (List.mem_of_mem_drop hx)).1
      simp only [wordAlt1, takeRun_eq_nil isWordLetter 256 _ hdrop, List.length_nil,
        lt_self_iff_false, if_false]
    have h2 : wordAlt2 (c :: cs) = none := wordAlt2From_none _ (fun x hx => (h x hx).2) _
    rw [searchWord, h1, h2]
    simp only [Option.orElse]
    exact ih (fun x hx => h x (List.mem_cons_of_mem _ hx))

/-- One round of the token loop reads forward and never gives a token back. -/
theorem parseTok_mono (strict : Bool) (st : ParseState) (tok : Tok) :
    st.unusedTokens ≤ (parseTok strict st tok).unusedTokens
      ∧ ∀ c ∈ (parseTok strict st tok).input, c ∈ st.input := by
  have hd : ∀ (lo hi : Nat) (ds rest : List Char), searchDigits lo hi st.input = some (ds, rest) →
      ∀ c ∈ rest, c ∈ st.input := by
    intro lo hi ds rest h c hc
    obtain ⟨sk, hs, -⟩ := searchDigits_inv lo hi _ _ _ h
    rw [hs]; simp [hc]
  cases tok with
  | MM =>
    simp only [parseTok]
    cases h : searchDigits (if strict = true then 2 else 1) 2 st.input with
    | none => simp
    | some p => exact ⟨le_refl _, hd _ _ p.1 p.2 h⟩
  | DD =>
    simp only [parseTok]
    cases h : searchDigits (if strict = true then 2 else 1) 2 st.input with
    | none => simp
    | some p => exact ⟨le_refl _, hd _ _ p.1 p.2 h⟩
  | YYYY =>
    simp only [parseTok]
    cases h : searchDigits (if strict = true then 4 else 1) 4 st.input with
    | none => simp
    | some p => exact ⟨le_refl _, hd _ _ p.1 p.2 h⟩
  | MMM =>
    simp only [parseTok]
    cases h : searchWord st.input with
    | none => simp
    | some p =>
      obtain ⟨w, rest⟩ := p
      obtain ⟨sk, hs⟩ := searchWord_inv _ _ _ h
      have hsub : ∀ c ∈ rest, c ∈ st.input := by
        intro c hc; rw [hs]; simp [hc]
      cases hm : monthsParse w strict with
      | none => simp only [hm]; exact ⟨le_refl _, hsub⟩
      | some i => simp only [hm]; exact ⟨le_refl _, hsub⟩
  | lit text =>
    simp only [parseTok]
    cases h : searchLit text.toList st.input with
    | none => cases strict <;> simp
    | some rest =>
      obtain ⟨sk, hs⟩ := searchLit_inv _ _ _ h
      refine ⟨le_refl _, ?_⟩
      intro c hc; rw [hs]; simp only [List.mem_append]; exact Or.inr hc

theorem foldl_parseTok_unused_mono (strict : Bool) : ∀ (f : Format) (st : ParseState),
    st.unusedTokens ≤ (f.foldl (parseTok strict) st).unusedTokens := by
  intro f
  induction f with
  | nil => intro st; exact le_refl _
  | cons tok f ih =>
    intro st
    exact le_trans (parseTok_mono strict st tok).1 (ih _)

/-- A format with the token `MMM` leaves a token unused on a text without
letters. -/
theorem foldl_parseTok_MMM_unused (strict : Bool) : ∀ (f : Format) (st : ParseState),
    Tok.MMM ∈ f → (∀ c ∈ st.input, isWordLetter c = false ∧ isArabic c = false) →
      st.unusedTokens + 1 ≤ (f.foldl (parseTok strict) st).unusedTokens := by
  intro f
  induction f with
  | nil => intro st h; simp at h
  | cons tok f ih =>
    intro st hmem hno
    simp only [List.foldl]
    by_cases ht : tok = Tok.MMM
    · subst ht
      have h1 : (parseTok strict st Tok.MMM).unusedTokens = st.unusedTokens + 1 := by
        simp only [parseTok, searchWord_none _ hno]
      have := foldl_parseTok_unused_mono strict f (parseTok strict st Tok.MMM)
      omega
    · have hmem' : Tok.MMM ∈ f := by
        rcases List.mem_cons.1 hmem with h | h
        · exact absurd h.symm ht
        · exact h
      have h1 := parseTok_mono strict st tok
      have := ih (parseTok strict st tok) hmem' (fun c hc => hno c (h1.2 c hc))
      omega

theorem parseFormat_unusedTokens (now : Civil) (text : List Char) (f : Format) (strict : Bool) :
    (parseFormat now text f strict).unusedTokens
      = (f.foldl (parseTok strict) ⟨text, none, none, none, 0, 0, true, false⟩).unusedTokens := rfl

theorem parseFormat_charsLeftOver (now : Civil) (text : List Char) (f : Format) (strict : Bool) :
    (parseFormat now text f strict).charsLeftOver
      = jsLength text
        - (f.foldl (parseTok strict) ⟨text, none, none, none, 0, 0, true, false⟩).parsedLen := rfl

/-- The year-month-day format leaves four characters of a month/day/year text
unread. -/
theorem parseFormat_ymd_on_mdy (now : Civil) (m1 m2 d1 d2 y1 y2 y3 y4 : Char)
    (hm1 : isDigit m1 = true) (hm2 : isDigit m2 = true) (hd1 : isDigit d1 = true)
    (hd2 : isDigit d2 = true) (hy1 : isDigit y1 = true) (hy2 : isDigit y2 = true)
    (hy3 : isDigit y3 = true) (hy4 : isDigit y4 = true) :
    (parseFormat now [m1, m2, '/', d1, d2, '/', y1, y2, y3, y4] YYYY_MM_DD false).charsLeftOver
      = 4 := by
  have hlen : jsLength [m1, m2, '/', d1, d2, '/', y1, y2, y3, y4] = 10 := by
    rw [jsLength_cons_digit hm1, jsLength_cons_digit hm2, jsLength_cons_slash,
      jsLength_cons_digit hd1, jsLength_cons_digit hd2, jsLength_cons_slash,
      jsLength_cons_digit hy1, jsLength_cons_digit hy2, jsLength_cons_digit hy3,
      jsLength_cons_digit hy4, jsLength]
  have s1 : searchDigits 1 4 [m1, m2, '/', d1, d2, '/', y1, y2, y3, y4]
      = some ([m1, m2], ['/', d1, d2, '/', y1, y2, y3, y4]) :=
    searchDigits_one_four_two m1 m2 '/' _ hm1 hm2 not_isDigit_slash
  have s2 : searchLit ['-'] ['/', d1, d2, '/', y1, y2, y3, y4] = none := by
    apply searchLit_not_mem
    simp only [List.mem_cons, List.mem_singleton, List.not_mem_nil, or_false, not_or]
    exact ⟨by decide, (digit_ne_dash hd1).symm, (digit_ne_dash hd2).symm, by decide,
      (digit_ne_dash hy1).symm, (digit_ne_dash hy2).symm, (digit_ne_dash hy3).symm,
      (digit_ne_dash hy4).symm⟩
  have s3 : searchDigits 1 2 ['/', d1, d2, '/', y1, y2, y3, y4]
      = some ([d1, d2], ['/', y1, y2, y3, y4]) := by
    rw [searchDigits_skip _ _ _ _ not_isDigit_slash]
    exact searchDigits_two 1 (by decide) d1 d2 _ hd1 hd2
  have s4 : searchLit ['-'] ['/', y1, y2, y3, y4] = none := by
    apply searchLit_not_mem
    simp only [List.mem_cons, List.mem_singleton, List.not_mem_nil, or_false, not_or]
    exact ⟨by decide, (digit_ne_dash hy1).symm, (digit_ne_dash hy2).symm,
      (digit_ne_dash hy3).symm, (digit_ne_dash hy4).symm⟩
  have s5 : searchDigits 1 2 ['/', y1, y2, y3, y4] = some ([y1, y2], [y3, y4]) := by
    rw [searchDigits_skip _ _ _ _ not_isDigit_slash]
    exact searchDigits_two 1 (by decide) y1 y2 _ hy1 hy2
  rw [parseFormat_charsLeftOver, hlen]
  simp only [YYYY_MM_DD, List.foldl, dash_eq]
  rw [parseTok_YYYY_some _ _ _ _ _ _ _ _ _ _ s1, parseTok_lit_none _ _ _ _ _ _ _ _ _ s2,
    parseTok_MM_some _ _ _ _ _ _ _ _ _ _ s3, parseTok_lit_none _ _ _ _ _ _ _ _ _ s4,
    parseTok_DD_some _ _ _ _ _ _ _ _ _ _ s5]
  rfl

/-- The month/day/year format leaves four characters of a year-month-day text
unread. -/
theorem parseFormat_mdy_on_ymd (now : Civil) (y1 y2 y3 y4 m1 m2 d1 d2 : Char)
    (hy1 : isDigit y1 = true) (hy2 : isDigit y2 = true) (hy3 : isDigit y3 = true)
    (hy4 : isDigit y4 = true) (hm1 : isDigit m1 = true) (hm2 : isDigit m2 = true)
    (hd1 : isDigit d1 = true) (hd2 : isDigit d2 = true) :
    (parseFormat now [y1, y2, y3, y4, '-', m1, m2, '-', d1, d2] MM_DD_YYYY false).charsLeftOver
      = 4 := by
  have hlen : jsLength [y1, y2, y3, y4, '-', m1, m2, '-', d1, d2] = 10 := by
    rw [jsLength_cons_digit hy1, jsLength_cons_digit hy2, jsLength_cons_digit hy3,
      jsLength_cons_digit hy4, jsLength_cons_dash, jsLength_cons_digit hm1,
      jsLength_cons_digit hm2, jsLength_cons_dash, jsLength_cons_digit hd1,
      jsLength_cons_digit hd2, jsLength]
  have s1 : searchDigits 1 2 [y1, y2, y3, y4, '-', m1, m2, '-', d1, d2]
      = some ([y1, y2], [y3, y4, '-', m1, m2, '-', d1, d2]) :=
    searchDigits_two 1 (by decide) y1 y2 _ hy1 hy2
  have s2 : searchLit ['/'] [y3, y4, '-', m1, m2, '-', d1, d2] = none := by
    apply searchLit_not_mem
    simp only [List.mem_cons, List.mem_singleton, List.not_mem_nil, or_false, not_or]
    exact ⟨(digit_ne_slash hy3).symm, (digit_ne_slash hy4).symm, by decide,
      (digit_ne_slash hm1).symm, (digit_ne_slash hm2).symm, by decide,
      (digit_ne_slash hd1).symm, (digit_ne_slash hd2).symm⟩
  have s3 : searchDigits 1 2 [y3, y4, '-', m1, m2, '-', d1, d2]
      = some ([y3, y4], ['-', m1, m2, '-', d1, d2]) :=
    searchDigits_two 1 (by decide) y3 y4 _ hy3 hy4
  have s4 : searchLit ['/'] ['-', m1, m2, '-', d1, d2] = none := by
    apply searchLit_not_mem
    simp only [List.mem_cons, List.mem_singleton, List.not_mem_nil, or_false, not_or]
    exact ⟨by decide, (digit_ne_slash hm1).symm, (digit_ne_slash hm2).symm, by decide,
      (digit_ne_slash hd1).symm, (digit_ne_slash hd2).symm⟩
  have s5 : searchDigits 1 4 ['-', m1, m2, '-', d1, d2] = some ([m1, m2], ['-', d1, d2]) := by
    rw [searchDigits_skip _ _ _ _ not_isDigit_dash]
    exact searchDigits_one_four_two m1 m2 '-' _ hm1 hm2 not_isDigit_dash
  rw [parseFormat_charsLeftOver, hlen]
  simp only [MM_DD_YYYY, List.foldl, slash_eq]
  rw [parseTok_MM_some _ _ _ _ _ _ _ _ _ _ s1, parseTok_lit_none _ _ _ _ _ _ _ _ _ s2,
    parseTok_DD_some _ _ _ _ _ _ _ _ _ _ s3, parseTok_lit_none _ _ _ _ _ _ _ _ _ s4,
    parseTok_YYYY_some _ _ _ _ _ _ _ _ _ _ s5]
  rfl

theorem parseTok_MMM_some (strict : Bool) (inp w rest : List Char) (y m d : Option Int)
    (n u : Nat) (e i : Bool) (k : Nat) (h : searchWord inp = some (w, rest))
    (hk : monthsParse w strict = some k) :
    parseTok strict ⟨inp, y, m, d, n, u, e, i⟩ .MMM
      = ⟨rest, y, some (k : Int), d, n + w.length, u, false, i⟩ := by
  simp only [parseTok, h, hk]

theorem space_eq : (" " : String) = String.mk [' '] := rfl

theorem searchDigits_letters (lo hi : Nat) (a b c : Char) (ha : isAsciiLetter a = true)
    (hb : isAsciiLetter b = true) (hc : isAsciiLetter c = true) :
    searchDigits lo hi [a, b, c] = none := by
  rw [searchDigits_skip _ _ _ _ (letter_not_digit ha),
    searchDigits_skip _ _ _ _ (letter_not_digit hb),
    searchDigits_skip _ _ _ _ (letter_not_digit hc)]
  rfl

/-- Every known format but year-month-abbreviation leaves characters unread
or tokens unused on a year-month-abbreviation text. -/
theorem score_pos_on_ymon (now : Civil) (y1 y2 y3 y4 a b c : Char) (k : Nat)
    (hy1 : isDigit y1 = true) (hy2 : isDigit y2 = true) (hy3 : isDigit y3 = true)
    (hy4 : isDigit y4 = true) (ha : isAsciiLetter a = true) (hb : isAsciiLetter b = true)
    (hc : isAsciiLetter c = true) (hk : monthsParse [a, b, c] false = some k)
    (g : Format) (hg : g ∈ knownFormats) (hne : g ≠ YYYY_MMM) :
    0 < (parseFormat now [y1, y2, y3, y4, '-', a, b, c] g false).charsLeftOver
        + (parseFormat now [y1, y2, y3, y4, '-', a, b, c] g false).unusedTokens * 10 := by
  have hlen : jsLength [y1, y2, y3, y4, '-', a, b, c] = 8 := by
    rw [jsLength_cons_digit hy1, jsLength_cons_digit hy2, jsLength_cons_digit hy3,
      jsLength_cons_digit hy4, jsLength_cons_dash, jsLength_cons_letter ha,
      jsLength_cons_letter hb, jsLength_cons_letter hc, jsLength]
  have hw := searchWord_ymon y1 y2 y3 y4 a b c hy1 hy2 hy3 hy4 ha hb hc
  have hno : searchDigits 1 2 [a, b, c] = none ∧ searchDigits 1 4 [a, b, c] = none :=
    ⟨searchDigits_letters 1 2 a b c ha hb hc, searchDigits_letters 1 4 a b c ha hb hc⟩
  simp only [knownFormats, List.mem_cons, List.mem_singleton, List.not_mem_nil, or_false] at hg
  rcases hg with rfl | rfl | rfl | rfl | rfl
  · -- month/day/year: the token `YYYY` finds no digit after the dash
    have s1 : searchDigits 1 2 [y1, y2, y3, y4, '-', a, b, c]
        = some ([y1, y2], [y3, y4, '-', a, b, c]) :=
      searchDigits_two 1 (by decide) y1 y2 _ hy1 hy2
    have s2 : searchLit ['/'] [y3, y4, '-', a, b, c] = none := by
      apply searchLit_not_mem
      simp only [List.mem_cons, List.mem_singleton, List.not_mem_nil, or_false, not_or]
      exact ⟨(digit_ne_slash hy3).symm, (digit_ne_slash hy4).symm, by decide,
        (letter_ne_slash ha).symm, (letter_ne_slash hb).symm, (letter_ne_slash hc).symm⟩
    have s3 : searchDigits 1 2 [y3, y4, '-', a, b, c] = some ([y3, y4], ['-', a, b, c]) :=
      searchDigits_two 1 (by decide) y3 y4 _ hy3 hy4
    have s4 : searchLit ['/'] ['-', a, b, c] = none := by
      apply searchLit_not_mem
      simp only [List.mem_cons, List.mem_singleton, List.not_mem_nil, or_false, not_or]
      exact ⟨by decide, (letter_ne_slash ha).symm, (letter_ne_slash hb).symm,
        (letter_ne_slash hc).symm⟩
    have s5 : searchDigits 1 4 ['-', a, b, c] = none := by
      rw [searchDigits_skip _ _ _ _ not_isDigit_dash]
      exact hno.2
    have hu : (parseFormat now [y1, y2, y3, y4, '-', a, b, c] MM_DD_YYYY false).unusedTokens
        = 1 := by
      rw [parseFormat_unusedTokens]
      simp only [MM_DD_YYYY, List.foldl, slash_eq]
      rw [parseTok_MM_some _ _ _ _ _ _ _ _ _ _ s1, parseTok_lit_none _ _ _ _ _ _ _ _ _ s2,
        parseTok_DD_some _ _ _ _ _ _ _ _ _ _ s3, parseTok_lit_none _ _ _ _ _ _ _ _ _ s4,
        parseTok_YYYY_none _ _ _ _ _ _ _ _ s5]
    omega
  · -- year-month-day: the token `MM` finds no digit among the letters
    have s1 : searchDigits 1 4 [y1, y2, y3, y4, '-', a, b, c]
        = some ([y1, y2, y3, y4], ['-', a, b, c]) :=
      searchDigits_four 1 (by decide) y1 y2 y3 y4 _ hy1 hy2 hy3 hy4
    have hu : 1 ≤ (parseFormat now [y1, y2, y3, y4, '-', a, b, c] YYYY_MM_DD false).unusedTokens := by
      rw [parseFormat_unusedTokens]
      simp only [YYYY_MM_DD, List.foldl, dash_eq]
      rw [parseTok_YYYY_some _ _ _ _ _ _ _ _ _ _ s1, parseTok_lit_head,
        parseTok_MM_none _ _ _ _ _ _ _ _ hno.1]
      exact le_trans (by simp) (foldl_parseTok_unused_mono false [Tok.lit (String.mk ['-']), Tok.DD]
        _)
    omega
  · exact absurd rfl hne
  · -- the month alone reads three of the eight characters
    have hl : (parseFormat now [y1, y2, y3, y4, '-', a, b, c] MMM false).charsLeftOver = 5 := by
      rw [parseFormat_charsLeftOver, hlen]
      simp only [MMM, List.foldl]
      rw [parseTok_MMM_some false _ _ _ _ _ _ _ _ _ _ k hw hk]
      rfl
    omega
  · -- month and day: no digit is left for the token `DD`
    have s2 : searchLit [' '] [] = none := searchLit_nil ' '
    have hu : (parseFormat now [y1, y2, y3, y4, '-', a, b, c] MMM_DD false).unusedTokens = 1 := by
      rw [parseFormat_unusedTokens]
      simp only [MMM_DD, List.foldl, space_eq]
      rw [parseTok_MMM_some false _ _ _ _ _ _ _ _ _ _ k hw hk,
        parseTok_lit_none _ _ _ _ _ _ _ _ _ s2,
        parseTok_DD_none _ _ _ _ _ _ _ _ (searchDigits_nil 1 2)]
    omega

theorem digit_no_word {c : Char} (h : isDigit c = true) :
    isWordLetter c = false ∧ isArabic c = false := by
  refine ⟨digit_not_letter h, ?_⟩
  rw [isDigit_iff] at h
  simp only [isArabic, Bool.and_eq_false_iff, decide_eq_false_iff_not]
  omega

theorem MMM_unused_pos (now : Civil) (text : List Char) (g : Format) (hg : Tok.MMM ∈ g)
    (hno : ∀ c ∈ text, isWordLetter c = false ∧ isArabic c = false) :
    0 < (parseFormat now text g false).charsLeftOver
        + (parseFormat now text g false).unusedTokens * 10 := by
  have := foldl_parseTok_MMM_unused false g ⟨text, none, none, none, 0, 0, true, false⟩ hg hno
  rw [parseFormat_unusedTokens]
  omega

/-- Every known format but month/day/year leaves characters unread or tokens
unused on a month/day/year text. -/
theorem score_pos_on_mdy (now : Civil) (m1 m2 d1 d2 y1 y2 y3 y4 : Char)
    (hm1 : isDigit m1 = true) (hm2 : isDigit m2 = true) (hd1 : isDigit d1 = true)
    (hd2 : isDigit d2 = true) (hy1 : isDigit y1 = true) (hy2 : isDigit y2 = true)
    (hy3 : isDigit y3 = true) (hy4 : isDigit y4 = true)
    (g : Format) (hg : g ∈ knownFormats) (hne : g ≠ MM_DD_YYYY) :
    0 < (parseFormat now [m1, m2, '/', d1, d2, '/', y1, y2, y3, y4] g false).charsLeftOver
        + (parseFormat now [m1, m2, '/', d1, d2, '/', y1, y2, y3, y4] g false).unusedTokens * 10 := by
  have hno : ∀ c ∈ [m1, m2, '/', d1, d2, '/', y1, y2, y3, y4],
      isWordLetter c = false ∧ isArabic c = false := by
    have hs : isWordLetter '/' = false ∧ isArabic '/' = false := by decide
    intro c hc
    simp only [List.mem_cons, List.mem_singleton, List.not_mem_nil, or_false] at hc
    rcases hc with rfl | rfl | rfl | rfl | rfl | rfl | rfl | rfl | rfl | rfl
    · exact digit_no_word hm1
    · exact digit_no_word hm2
    · exact hs
    · exact digit_no_word hd1
    · exact digit_no_word hd2
    · exact hs
    · exact digit_no_word hy1
    · exact digit_no_word hy2
    · exact digit_no_word hy3
    · exact digit_no_word hy4
  simp only [knownFormats, List.mem_cons, List.mem_singleton, List.not_mem_nil, or_false] at hg
  rcases hg with rfl | rfl | rfl | rfl | rfl
  · exact absurd rfl hne
  · rw [parseFormat_ymd_on_mdy now m1 m2 d1 d2 y1 y2 y3 y4 hm1 hm2 hd1 hd2 hy1 hy2 hy3 hy4]
    omega
  · exact MMM_unused_pos now _ _ (by decide) hno
  · exact MMM_unused_pos now _ _ (by decide) hno
  · exact MMM_unused_pos now _ _ (by decide) hno

/-- Every known format but year-month-day leaves characters unread or tokens
unused on a year-month-day text. -/
theorem score_pos_on_ymd (now : Civil) (y1 y2 y3 y4 m1 m2 d1 d2 : Char)
    (hy1 : isDigit y1 = true) (hy2 : isDigit y2 = true) (hy3 : isDigit y3 = true)
    (hy4 : isDigit y4 = true) (hm1 : isDigit m1 = true) (hm2 : isDigit m2 = true)
    (hd1 : isDigit d1 = true) (hd2 : isDigit d2 = true)
    (g : Format) (hg : g ∈ knownFormats) (hne : g ≠ YYYY_MM_DD) :
    0 < (parseFormat now [y1, y2, y3, y4, '-', m1, m2, '-', d1, d2] g false).charsLeftOver
        + (parseFormat now [y1, y2, y3, y4, '-', m1, m2, '-', d1, d2] g false).unusedTokens * 10 := by
  have hno : ∀ c ∈ [y1, y2, y3, y4, '-', m1, m2, '-', d1, d2],
      isWordLetter c = false ∧ isArabic c = false := by
    have hs : isWordLetter '-' = false ∧ isArabic '-' = false := by decide
    intro c hc
    simp only [List.mem_cons, List.mem_singleton, List.not_mem_nil, or_false] at hc
    rcases hc with rfl | rfl | rfl | rfl | rfl | rfl | rfl | rfl | rfl | rfl
    · exact digit_no_word hy1
    · exact digit_no_word hy2
    · exact digit_no_word hy3
    · exact digit_no_word hy4
    · exact hs
    · exact digit_no_word hm1
    · exact digit_no_word hm2
    · exact hs
    · exact digit_no_word hd1
    · exact digit_no_word hd2
  simp only [knownFormats, List.mem_cons, List.mem_singleton, List.not_mem_nil, or_false] at hg
  rcases hg with rfl | rfl | rfl | rfl | rfl
  · rw [parseFormat_mdy_on_ymd now y1 y2 y3 y4 m1 m2 d1 d2 hy1 hy2 hy3 hy4 hm1 hm2 hd1 hd2]
    omega
  · exact absurd rfl hne
  · exact MMM_unused_pos now _ _ (by decide) hno
  · exact MMM_unused_pos now _ _ (by decide) hno
  · exact MMM_unused_pos now _ _ (by decide) hno

/-- Once the best parse has score 0 and is valid, no later format replaces
it. -/
theorem foldl_pickBest_keep (now : Civil) (text : List Char) :
    ∀ (fs : List Format) (b : Best), b.score = 0 → b.valid = true →
      fs.foldl (pickBest now text) (some b) = some b := by
  intro fs
  induction fs with
  | nil => intro b _ _; rfl
  | cons f fs ih =>
    intro b hs hv
    have step : pickBest now text (some b) f = some b := by
      simp [pickBest, hv, hs]
    rw [List.foldl, step]
    exact ih b hs hv

/-- The format list gives the date of a format that reads the whole text, when
every other format of the list leaves something unread or reads the same
date. -/
theorem foldl_pickBest_zero (now : Civil) (text : List Char) (d : Civil) :
    ∀ (fs : List Format) (best : Option Best),
      (∀ b, best = some b → 0 < b.score ∨ (b.parsed.date = some d ∧ b.score = 0 ∧ b.valid = true)) →
      (∃ f ∈ fs, parseFormat now text f false = ⟨some d, 0, 0⟩) →
      (∀ g ∈ fs, parseFormat now text g false = ⟨some d, 0, 0⟩
          ∨ 0 < (parseFormat now text g false).charsLeftOver
              + (parseFormat now text g false).unusedTokens * 10) →
      ∃ b, fs.foldl (pickBest now text) best = some b ∧ b.parsed.date = some d := by
  intro fs
  induction fs with
  | nil => intro best _ h _; obtain ⟨f, hf, -⟩ := h; simp at hf
  | cons g fs ih =>
    intro best hbest hex hall
    rw [List.foldl]
    rcases hall g (List.mem_cons_self _ _) with hz | hp
    · -- `g` reads the whole text: the state is good from here on
      have hgood : ∃ b, pickBest now text best g = some b
          ∧ b.parsed.date = some d ∧ b.score = 0 ∧ b.valid = true := by
        cases best with
        | none =>
          refine ⟨⟨parseFormat now text g false, 0, true⟩, ?_, by simp [hz]⟩
          simp [pickBest, hz]
        | some b0 =>
          rcases hbest b0 rfl with h0 | ⟨h1, h2, h3⟩
          · cases hv : b0.valid with
            | false =>
              refine ⟨⟨parseFormat now text g false, 0, true⟩, ?_, by simp [hz]⟩
              simp [pickBest, hv, hz]
            | true =>
              refine ⟨⟨parseFormat now text g false, 0, true⟩, ?_, by simp [hz]⟩
              simp [pickBest, hv, hz, h0]
          · exact ⟨b0, by simp [pickBest, h3, h2], h1, h2, h3⟩
      obtain ⟨b, hb, h1, h2, h3⟩ := hgood
      rw [hb, foldl_pickBest_keep now text fs b h2 h3]
      exact ⟨b, rfl, h1⟩
    · -- `g` leaves something unread: the zero format is further down
      have hz : ¬ parseFormat now text g false = ⟨some d, 0, 0⟩ := by
        intro h; rw [h] at hp; simp at hp
      have hex' : ∃ f ∈ fs, parseFormat now text f false = ⟨some d, 0, 0⟩ := by
        obtain ⟨f, hf, hfz⟩ := hex
        rcases List.mem_cons.1 hf with rfl | hf'
        · exact absurd hfz hz
        · exact ⟨f, hf', hfz⟩
      apply ih _ _ hex' (fun g' hg' => hall g' (List.mem_cons_of_mem _ hg'))
      intro b hb
      cases best with
      | none =>
        simp only [pickBest, Option.some.injEq] at hb
        subst hb
        exact Or.inl hp
      | some b0 =>
        simp only [pickBest] at hb
        split at hb
        · split at hb
          · simp only [Option.some.injEq] at hb
            subst hb
            exact Or.inl hp
          · simp only [Option.some.injEq] at hb
            subst hb
            exact hbest b0 rfl
        · split at hb
          · simp only [Option.some.injEq] at hb
            subst hb
            exact Or.inl hp
          · simp only [Option.some.injEq] at hb
            subst hb
            exact hbest b0 rfl

theorem parseFormats_eq (now : Civil) (text : List Char) (d : Civil) (fs : List Format)
    (hex : ∃ f ∈ fs, parseFormat now text f false = ⟨some d, 0, 0⟩)
    (hall : ∀ g ∈ fs, parseFormat now text g false = ⟨some d, 0, 0⟩
        ∨ 0 < (parseFormat now text g false).charsLeftOver
            + (parseFormat now text g false).unusedTokens * 10) :
    parseFormats now text fs = some d := by
  obtain ⟨b, hb, hd⟩ := foldl_pickBest_zero now text d fs none (by simp) hex hall
  simp only [parseFormats, hb, hd]

theorem civilOfFields_eq_realDate (y m d : Int) : civilOfFields y (m - 1) d = realDate y m d := by
  simp only [civilOfFields, realDate, Civil.WF]
  by_cases h : m - 1 < 0 ∨ 11 < m - 1 ∨ d < 1 ∨ daysInMonth y (m - 1) < d
  · rw [if_pos h, if_neg]
    intro h'
    omega
  · rw [if_neg h, if_pos]
    omega

theorem civilOfFields_WF {y m d : Int} {c : Civil} (h : civilOfFields y m d = some c) :
    c = ⟨y, m, d⟩ ∧ c.WF := by
  simp only [civilOfFields] at h
  split at h
  · cases h
  · rename_i hn
    cases h
    refine ⟨rfl, ?_⟩
    simp only [Civil.WF]
    omega

theorem denotedDate_mdy (m1 m2 d1 d2 y1 y2 y3 y4 : Char)
    (hm1 : isDigit m1 = true) (hm2 : isDigit m2 = true) (hd1 : isDigit d1 = true)
    (hd2 : isDigit d2 = true) (hy1 : isDigit y1 = true) (hy2 : isDigit y2 = true)
    (hy3 : isDigit y3 = true) (hy4 : isDigit y4 = true) :
    denotedDate [m1, m2, '/', d1, d2, '/', y1, y2, y3, y4]
      = civilOfFields (digitsToNat [y1, y2, y3, y4]) ((digitsToNat [m1, m2] : Int) - 1)
          (digitsToNat [d1, d2]) := by
  rw [civilOfFields_eq_realDate]
  simp [denotedDate, hm1, hm2, hd1, hd2, hy1, hy2, hy3, hy4]

theorem denotedDate_ymd (y1 y2 y3 y4 m1 m2 d1 d2 : Char)
    (hy1 : isDigit y1 = true) (hy2 : isDigit y2 = true) (hy3 : isDigit y3 = true)
    (hy4 : isDigit y4 = true) (hm1 : isDigit m1 = true) (hm2 : isDigit m2 = true)
    (hd1 : isDigit d1 = true) (hd2 : isDigit d2 = true) :
    denotedDate [y1, y2, y3, y4, '-', m1, m2, '-', d1, d2]
      = civilOfFields (digitsToNat [y1, y2, y3, y4]) ((digitsToNat [m1, m2] : Int) - 1)
          (digitsToNat [d1, d2]) := by
  rw [civilOfFields_eq_realDate]
  have h3 : y3 ≠ '/' := digit_ne_slash hy3
  simp [denotedDate, hm1, hm2, hd1, hd2, hy1, hy2, hy3, hy4, h3]

theorem denotedDate_ymon (y1 y2 y3 y4 a b c : Char) (k : Nat)
    (hy1 : isDigit y1 = true) (hy2 : isDigit y2 = true) (hy3 : isDigit y3 = true)
    (hy4 : isDigit y4 = true) (hk : monthsParse [a, b, c] true = some k) :
    denotedDate [y1, y2, y3, y4, '-', a, b, c] = some ⟨digitsToNat [y1, y2, y3, y4], k, 1⟩ := by
  simp only [monthsParse, if_true] at hk
  simp only [denotedDate, hy1, hy2, hy3, hy4, hk, List.all_cons, List.all_nil, Bool.and_self,
    and_self, if_true, Option.map_some']

/-- A string `isDate` accepts denotes a real calendar date, and `getMomentDate`
parses it to that date, whatever the order of the formats. -/
theorem getMomentDate_of_isDate (fs : List Format) (now : Civil) (a : String)
    (hfs : ∀ f ∈ fs, f ∈ knownFormats) (h1 : MM_DD_YYYY ∈ fs) (h2 : YYYY_MM_DD ∈ fs)
    (h3 : YYYY_MMM ∈ fs) (ha : isDate now (.str a) = true) :
    ∃ d, denotedDate a.toList = some d ∧ d.WF ∧ getMomentDate fs now (.str a) = some d := by
  simp only [isDate, isValidDate, momentWithFormat, Bool.or_eq_true] at ha
  simp only [getMomentDate, momentWithFormats]
  rcases ha with (ha | ha) | ha
  · obtain ⟨m1, m2, d1, d2, y1, y2, y3, y4, ht, hm1, hm2, hd1, hd2, hy1, hy2, hy3, hy4⟩ :=
      exactRead_mdy (exactRead_of_strict now _ _ ha)
    rw [ht] at ha ⊢
    rw [parseFormat_mdy now true m1 m2 d1 d2 y1 y2 y3 y4 hm1 hm2 hd1 hd2 hy1 hy2 hy3 hy4] at ha
    obtain ⟨d, hd⟩ := Option.isSome_iff_exists.1 ha
    simp only at hd
    refine ⟨d, ?_, (civilOfFields_WF hd).2, ?_⟩
    · rw [denotedDate_mdy m1 m2 d1 d2 y1 y2 y3 y4 hm1 hm2 hd1 hd2 hy1 hy2 hy3 hy4, hd]
    · have hz : parseFormat now [m1, m2, '/', d1, d2, '/', y1, y2, y3, y4] MM_DD_YYYY false
          = ⟨some d, 0, 0⟩ := by
        rw [parseFormat_mdy now false m1 m2 d1 d2 y1 y2 y3 y4 hm1 hm2 hd1 hd2 hy1 hy2 hy3 hy4, hd]
      apply parseFormats_eq now _ d fs ⟨MM_DD_YYYY, h1, hz⟩
      intro g hg
      by_cases hgf : g = MM_DD_YYYY
      · left; rw [hgf]; exact hz
      · right
        exact score_pos_on_mdy now m1 m2 d1 d2 y1 y2 y3 y4 hm1 hm2 hd1 hd2 hy1 hy2 hy3 hy4 g
          (hfs g hg) hgf
  · obtain ⟨y1, y2, y3, y4, m1, m2, d1, d2, ht, hy1, hy2, hy3, hy4, hm1, hm2, hd1, hd2⟩ :=
      exactRead_ymd (exactRead_of_strict now _ _ ha)
    rw [ht] at ha ⊢
    rw [parseFormat_ymd now true y1 y2 y3 y4 m1 m2 d1 d2 hy1 hy2 hy3 hy4 hm1 hm2 hd1 hd2] at ha
    obtain ⟨d, hd⟩ := Option.isSome_iff_exists.1 ha
    simp only at hd
    refine ⟨d, ?_, (civilOfFields_WF hd).2, ?_⟩
    · rw [denotedDate_ymd y1 y2 y3 y4 m1 m2 d1 d2 hy1 hy2 hy3 hy4 hm1 hm2 hd1 hd2, hd]
    · have hz : parseFormat now [y1, y2, y3, y4, '-', m1, m2, '-', d1, d2] YYYY_MM_DD false
          = ⟨some d, 0, 0⟩ := by
        rw [parseFormat_ymd now false y1 y2 y3 y4 m1 m2 d1 d2 hy1 hy2 hy3 hy4 hm1 hm2 hd1 hd2, hd]
      apply parseFormats_eq now _ d fs ⟨YYYY_MM_DD, h2, hz⟩
      intro g hg
      by_cases hgf : g = YYYY_MM_DD
      · left; rw [hgf]; exact hz
      · right
        exact score_pos_on_ymd now y1 y2 y3 y4 m1 m2 d1 d2 hy1 hy2 hy3 hy4 hm1 hm2 hd1 hd2 g
          (hfs g hg) hgf
  · obtain ⟨y1, y2, y3, y4, w, ht, hy1, hy2, hy3, hy4, hw⟩ :=
      exactRead_ymon (exactRead_of_strict now _ _ ha)
    obtain ⟨x, y, z, rfl, hx, hy, hz', hsame⟩ := monthsParse_true_letters w hw
    obtain ⟨k, hk⟩ := Option.isSome_iff_exists.1 hw
    have hk12 := monthsParse_lt _ _ _ hk
    rw [ht]
    refine ⟨⟨digitsToNat [y1, y2, y3, y4], k, 1⟩, ?_, ?_, ?_⟩
    · exact denotedDate_ymon y1 y2 y3 y4 x y z k hy1 hy2 hy3 hy4 hk
    · have hdim : (1 : Int) ≤ daysInMonth (digitsToNat [y1, y2, y3, y4]) k := by
        simp only [daysInMonth]
        split
        · split <;> omega
        · omega
      simp only [Civil.WF]
      omega
    · have hz : parseFormat now [y1, y2, y3, y4, '-', x, y, z] YYYY_MMM false
          = ⟨some ⟨digitsToNat [y1, y2, y3, y4], k, 1⟩, 0, 0⟩ :=
        parseFormat_ymon now false y1 y2 y3 y4 x y z k hy1 hy2 hy3 hy4 hx hy hz'
          (hsame.trans hk)
      apply parseFormats_eq now _ _ fs ⟨YYYY_MMM, h3, hz⟩
      intro g hg
      by_cases hgf : g = YYYY_MMM
      · left; rw [hgf]; exact hz
      · right
        exact score_pos_on_ymon now y1 y2 y3 y4 x y z k hy1 hy2 hy3 hy4 hx hy hz'
          (hsame.trans hk) g (hfs g hg) hgf

theorem isLeapYear_iff (y : Int) :
    isLeapYear y = true ↔ (y % 4 = 0 ∧ y % 100 ≠ 0) ∨ y % 400 = 0 := by
  simp [isLeapYear]

theorem dayFromYear_succ (y : Int) :
    dayFromYear (y + 1) = dayFromYear y + 365 + (if isLeapYear y = true then 1 else 0) := by
  simp only [dayFromYear]
  by_cases h : isLeapYear y = true
  · rw [if_pos h]
    rw [isLeapYear_iff] at h
    omega
  · rw [if_neg h]
    rw [isLeapYear_iff] at h
    omega

theorem dayFromYear_mono (y1 y2 : Int) (h : y1 < y2) :
    dayFromYear y1 + 365 ≤ dayFromYear y2 := by
  simp only [dayFromYear]
  omega

theorem daysInMonth_of_range (y m : Int) (h0 : 0 ≤ m) (h11 : m ≤ 11) :
    daysInMonth y m
      = if m = 1 then (if isLeapYear y = true then 29 else 28) else 31 - ((m % 7) % 2) := by
  have e1 : m % 12 = m := by omega
  simp only [daysInMonth, e1, sub_self, Int.zero_ediv, add_zero]

theorem daysBeforeMonth_step (l : Bool) (m : Int) (h0 : 0 ≤ m) (h10 : m ≤ 10) :
    daysBeforeMonth l (m + 1)
      = daysBeforeMonth l m
        + (if m = 1 then (if l = true then 29 else 28) else 31 - ((m % 7) % 2)) := by
  cases l <;> interval_cases m <;> decide

theorem daysBeforeMonth_mono (l : Bool) (m m' : Int) (h0 : 0 ≤ m) (h : m ≤ m') (h11 : m' ≤ 11) :
    daysBeforeMonth l m ≤ daysBeforeMonth l m' := by
  have h0' : 0 ≤ m' := le_trans h0 h
  cases l <;> interval_cases m' <;> interval_cases m <;> decide

theorem daysBeforeMonth_nonneg (l : Bool) (m : Int) (h0 : 0 ≤ m) (h11 : m ≤ 11) :
    0 ≤ daysBeforeMonth l m := by
  cases l <;> interval_cases m <;> decide

theorem daysBeforeMonth_last (l : Bool) :
    daysBeforeMonth l 11 = 334 + (if l = true then 1 else 0) := by
  cases l <;> decide

/-- The day of the year lies within the year. -/
theorem ordinal_bounds (c : Civil) (h : c.WF) :
    0 ≤ daysBeforeMonth (isLeapYear c.year) c.month + (c.day - 1)
      ∧ daysBeforeMonth (isLeapYear c.year) c.month + (c.day - 1)
          < 365 + (if isLeapYear c.year = true then 1 else 0) := by
  obtain ⟨h0, h11, h1, hd⟩ := h
  rw [daysInMonth_of_range _ _ h0 h11] at hd
  have hn := daysBeforeMonth_nonneg (isLeapYear c.year) c.month h0 h11
  refine ⟨by omega, ?_⟩
  by_cases hm : c.month = 11
  · rw [hm] at hd ⊢
    rw [daysBeforeMonth_last]
    simp only [show ¬ ((11 : Int) = 1) by decide, if_false] at hd
    split_ifs <;> omega
  · have hs := daysBeforeMonth_step (isLeapYear c.year) c.month h0 (by omega)
    have hmono := daysBeforeMonth_mono (isLeapYear c.year) (c.month + 1) 11 (by omega) (by omega)
      (le_refl _)
    rw [daysBeforeMonth_last] at hmono
    split_ifs at hd hs hmono ⊢ <;> omega

/-- Within a year the day number grows with the month. -/
theorem ordinal_lt_of_month_lt (y : Int) (m1 d1 m2 d2 : Int) (h1 : Civil.WF ⟨y, m1, d1⟩)
    (h2 : Civil.WF ⟨y, m2, d2⟩) (hm : m1 < m2) :
    daysBeforeMonth (isLeapYear y) m1 + (d1 - 1) < daysBeforeMonth (isLeapYear y) m2 + (d2 - 1) := by
  obtain ⟨a0, a11, a1, ad⟩ := h1
  obtain ⟨b0, b11, b1, bd⟩ := h2
  simp only at a0 a11 a1 ad b0 b11 b1 bd
  rw [daysInMonth_of_range _ _ a0 a11] at ad
  have hs := daysBeforeMonth_step (isLeapYear y) m1 a0 (by omega)
  have hmono := daysBeforeMonth_mono (isLeapYear y) (m1 + 1) m2 (by omega) (by omega) b11
  split_ifs at ad hs <;> omega

theorem Civil.later_iff (a b : Civil) : a.later b = true ↔
    b.year < a.year ∨ (a.year = b.year ∧ (b.month < a.month ∨ (a.month = b.month ∧ b.day < a.day))) := by
  simp [Civil.later]

/-- A later date has a larger day number. -/
theorem dayNumber_lt_of_later (a b : Civil) (ha : a.WF) (hb : b.WF) (h : a.later b = true) :
    dayNumber b < dayNumber a := by
  rw [Civil.later_iff] at h
  have oa := ordinal_bounds a ha
  have ob := ordinal_bounds b hb
  simp only [dayNumber]
  rcases h with hy | ⟨hy, hm | ⟨hm, hd⟩⟩
  · have h1 := dayFromYear_succ b.year
    have h2 : dayFromYear (b.year + 1) ≤ dayFromYear a.year := by
      simp only [dayFromYear]; omega
    omega
  · have := ordinal_lt_of_month_lt a.year b.month b.day a.month a.day (hy ▸ hb) ha hm
    rw [← hy]
    omega
  · rw [← hy, ← hm]
    omega

/-- The day number orders real calendar dates as the calendar does. -/
theorem dayNumber_lt_iff (a b : Civil) (ha : a.WF) (hb : b.WF) :
    dayNumber b < dayNumber a ↔ a.later b = true := by
  constructor
  · intro h
    by_contra hn
    have hba : b.later a = true ∨ a = b := by
      rw [Civil.later_iff] at hn ⊢
      by_cases e : a = b
      · exact Or.inr e
      · left
        have : a.year ≠ b.year ∨ a.month ≠ b.month ∨ a.day ≠ b.day := by
          by_contra hc
          push_neg at hc
          apply e
          cases a; cases b
          simp only [Civil.mk.injEq]
          exact hc
        omega
    rcases hba with h' | h'
    · have := dayNumber_lt_of_later b a hb ha h'
      omega
    · rw [h'] at h
      omega
  · exact dayNumber_lt_of_later a b ha hb

theorem isAfter_some (a b : Civil) (ha : a.WF) (hb : b.WF) :
    Moment.isAfter (some a) (some b) = a.later b := by
  have h := dayNumber_lt_iff a b ha hb
  simp only [Moment.isAfter, Option.isSome_some, Bool.and_self, if_true, Moment.valueOf,
    Option.map_some', jsLt, msPerDay]
  cases hl : a.later b
  · have : ¬ dayNumber b < dayNumber a := fun h' => by rw [h.1 h'] at hl; cases hl
    simp only [decide_eq_false_iff_not]
    omega
  · have := h.2 hl
    simp only [decide_eq_true_eq]
    omega

/-- The loop pushes the years from `y` up to `ye`, and ends within
`ye - y + 2` rounds. -/
theorem getDateRangeYearsLoop_eq (ye : Int) :
    ∀ (n fuel : Nat) (y : Int) (years : List JSNum), (ye - y + 1).toNat = n → n < fuel →
      getDateRangeYearsLoop (some ye) fuel (some y) years
        = some (years ++ (List.range n).map (fun (k : Nat) => some (y + (k : Int)))) := by
  intro n
  induction n with
  | zero =>
    intro fuel y years hn hf
    obtain ⟨fuel, rfl⟩ : ∃ k, fuel = k + 1 := ⟨fuel - 1, by omega⟩
    have : ¬ y ≤ ye := by omega
    simp [getDateRangeYearsLoop, jsLe, this]
  | succ n ih =>
    intro fuel y years hn hf
    obtain ⟨fuel, rfl⟩ : ∃ k, fuel = k + 1 := ⟨fuel - 1, by omega⟩
    have h : y ≤ ye := by omega
    simp only [getDateRangeYearsLoop, jsLe, h, decide_True, if_true, Option.map_some']
    rw [ih fuel (y + 1) (years ++ [some y]) (by omega) (by omega)]
    simp only [List.range_succ_eq_map, List.map_cons, List.map_map, List.append_assoc,
      List.singleton_append, Nat.cast_zero, add_zero]
    congr 3
    apply List.map_congr_left
    intro k _
    simp only [Function.comp, Nat.cast_succ]
    congr 1
    ring

/-- Claim C9: for valid date strings `start`, `end`, `getDateRangeYears` ends
and returns the ascending list of the consecutive years from the year of
`start` to the year of `end`, both included, whatever the months and days; the
list is empty when the year of `start` is after the year of `end`. -/
theorem getDateRangeYears_eq (fs : List Format) (now : Civil) (startDate endDate : String)
    (hfs : ∀ f ∈ fs, f ∈ knownFormats) (h1 : MM_DD_YYYY ∈ fs) (h2 : YYYY_MM_DD ∈ fs)
    (h3 : YYYY_MMM ∈ fs) (hs : isDate now (.str startDate) = true)
    (he : isDate now (.str endDate) = true) :
    ∃ ds de, denotedDate startDate.toList = some ds ∧ denotedDate endDate.toList = some de
      ∧ ∀ fuel, (de.year - ds.year + 1).toNat < fuel →
        getDateRangeYears fs now fuel (.str startDate) (.str endDate)
          = some ((List.range (de.year - ds.year + 1).toNat).map
              (fun (k : Nat) => some (ds.year + (k : Int)))) := by
  obtain ⟨ds, hds, -, gs⟩ := getMomentDate_of_isDate fs now startDate hfs h1 h2 h3 hs
  obtain ⟨de, hde, -, ge⟩ := getMomentDate_of_isDate fs now endDate hfs h1 h2 h3 he
  refine ⟨ds, de, hds, hde, ?_⟩
  intro fuel hfuel
  simp only [getDateRangeYears, getYear, gs, ge, Moment.year, Option.map_some']
  rw [getDateRangeYearsLoop_eq de.year _ fuel ds.year [] rfl hfuel]
  rfl

/-- `getDateRangeYears("01/15/2020", "03/01/2022")` is `[2020, 2021, 2022]`. -/
theorem getDateRangeYears_witness :
    getDateRangeYears knownFormats ⟨2025, 10, 6⟩ 4 (.str "01/15/2020") (.str "03/01/2022")
      = some [some 2020, some 2021, some 2022] := by
  obtain ⟨ds, de, h1, h2, h⟩ := getDateRangeYears_eq knownFormats ⟨2025, 10, 6⟩
    "01/15/2020" "03/01/2022" (fun _ h => h) (by decide) (by decide) (by decide)
    (by decide) (by decide)
  have e1 : denotedDate "01/15/2020".toList = some ⟨2020, 0, 15⟩ := by decide
  have e2 : denotedDate "03/01/2022".toList = some ⟨2022, 2, 1⟩ := by decide
  rw [e1] at h1; rw [e2] at h2
  cases h1; cases h2
  exact (h 4 (by decide)).trans (by decide)

theorem daysInMonth_pos (y m : Int) (h0 : 0 ≤ m) (h11 : m ≤ 11) : 28 ≤ daysInMonth y m := by
  rw [daysInMonth_of_range y m h0 h11]
  split_ifs <;> omega

/-- The day after a real calendar date is a real calendar date. -/
theorem nextDay_WF (c : Civil) (h : c.WF) : (nextDay c).WF := by
  obtain ⟨h0, h11, h1, hd⟩ := h
  simp only [nextDay]
  split_ifs with a b
  · exact ⟨h0, h11, by simp only; omega, by simp only; omega⟩
  · have := daysInMonth_pos c.year (c.month + 1) (by omega) (by omega)
    exact ⟨by simp only; omega, by simp only; omega, le_refl _, by simp only; omega⟩
  · have := daysInMonth_pos (c.year + 1) 0 (by omega) (by omega)
    exact ⟨le_refl _, by simp only; omega, le_refl _, by simp only; omega⟩

/-- The day after a real calendar date has the next day number. -/
theorem dayNumber_nextDay (c : Civil) (h : c.WF) : dayNumber (nextDay c) = dayNumber c + 1 := by
  obtain ⟨h0, h11, h1, hd⟩ := h
  simp only [nextDay]
  split_ifs with a b
  · simp only [dayNumber]; omega
  · have hs := daysBeforeMonth_step (isLeapYear c.year) c.month h0 (by omega)
    rw [← daysInMonth_of_range c.year c.month h0 h11] at hs
    simp only [dayNumber, hs]
    omega
  · have hm : c.month = 11 := by omega
    have hy := dayFromYear_succ c.year
    have hl := daysBeforeMonth_last (isLeapYear c.year)
    have hdim : daysInMonth c.year c.month = 31 := by
      rw [daysInMonth_of_range c.year c.month h0 h11, hm]
      simp
    have hz : daysBeforeMonth (isLeapYear (c.year + 1)) 0 = 0 := by
      cases isLeapYear (c.year + 1) <;> decide
    simp only [dayNumber, hy, hz, hm, hl]
    split_ifs <;> omega

theorem plusDays_succ : ∀ (n : Nat) (c : Civil), plusDays c (n + 1) = nextDay (plusDays c n) := by
  intro n
  induction n with
  | zero => intro c; rfl
  | succ n ih => intro c; rw [plusDays, ih (nextDay c)]; rfl

theorem plusDays_WF : ∀ (n : Nat) (c : Civil), c.WF → (plusDays c n).WF := by
  intro n
  induction n with
  | zero => intro c h; exact h
  | succ n ih => intro c h; rw [plusDays_succ]; exact nextDay_WF _ (ih c h)

theorem dayNumber_plusDays : ∀ (n : Nat) (c : Civil), c.WF →
    dayNumber (plusDays c n) = dayNumber c + n := by
  intro n
  induction n with
  | zero => intro c _; simp [plusDays]
  | succ n ih =>
    intro c h
    rw [plusDays_succ, dayNumber_nextDay _ (plusDays_WF n c h), ih c h]
    push_cast
    ring

/-- Within a month the days follow one another. -/
theorem plusDays_within : ∀ (k : Nat) (y m d : Int), d + k ≤ daysInMonth y m →
    plusDays ⟨y, m, d⟩ k = ⟨y, m, d + k⟩ := by
  intro k
  induction k with
  | zero => intro y m d _; simp [plusDays]
  | succ k ih =>
    intro y m d h
    have hlt : d < daysInMonth y m := by push_cast at h; omega
    have hn : nextDay ⟨y, m, d⟩ = ⟨y, m, d + 1⟩ := by simp [nextDay, hlt]
    rw [plusDays, hn, ih y m (d + 1) (by push_cast at h ⊢; omega)]
    push_cast
    congr 1
    ring

/-- Setting the day of the month to the next number gives the next day. -/
theorem makeDay_succ (c : Civil) (h : c.WF) : makeDay c.year c.month (c.day + 1) = nextDay c := by
  obtain ⟨h0, h11, h1, hd⟩ := h
  have e1 : c.month / 12 = 0 := by omega
  have e2 : c.month % 12 = c.month := by omega
  have e3 : c.day + 1 - 1 = c.day := by ring
  have e4 : c.day.toNat = (c.day - 1).toNat + 1 := by omega
  simp only [makeDay, e1, e2, e3, add_zero, addDays, show 0 ≤ c.day by omega, if_true]
  rw [e4, plusDays_succ, plusDays_within _ _ _ _ (by
    have : (((c.day - 1).toNat : Nat) : Int) = c.day - 1 := by omega
    rw [this]; omega)]
  have : (1 : Int) + ((c.day - 1).toNat : Nat) = c.day := by omega
  rw [this]

/-- The loop pushes the days from `c` up to `de`, one calendar day after the
other, and ends within two rounds more than the days between them. -/
theorem getDateRangeDatesLoop_eq (fs : List Format) (now : Civil) (de : Civil) :
    ∀ (n fuel : Nat) (c : Civil) (dates : List String), c.WF →
      (dayNumber de - dayNumber c + 1).toNat = n → n < fuel →
      getDateRangeDatesLoop fs now (some de) fuel (some c) dates
        = some (dates ++ (List.range n).map
            (fun (k : Nat) => Moment.format (some (plusDays c k)) MM_DD_YYYY)) := by
  intro n
  induction n with
  | zero =>
    intro fuel c dates _ hn hf
    obtain ⟨fuel, rfl⟩ : ∃ k, fuel = k + 1 := ⟨fuel - 1, by omega⟩
    have : ¬ dayNumber c * msPerDay ≤ dayNumber de * msPerDay := by
      simp only [msPerDay]; omega
    simp [getDateRangeDatesLoop, jsLe, Moment.valueOf, this]
  | succ n ih =>
    intro fuel c dates hc hn hf
    obtain ⟨fuel, rfl⟩ : ∃ k, fuel = k + 1 := ⟨fuel - 1, by omega⟩
    have h : dayNumber c * msPerDay ≤ dayNumber de * msPerDay := by
      simp only [msPerDay]; omega
    have hnext : Moment.addDays (some c) 1 = some (nextDay c) := by
      simp only [Moment.addDays, Option.map_some', makeDay_succ c hc]
    have hfmt : toMonthDayYearFormat fs now (.mom (some c)) = Moment.format (some c) MM_DD_YYYY :=
      rfl
    simp only [getDateRangeDatesLoop, jsLe, Moment.valueOf, Option.map_some', h, decide_True,
      if_true, hnext, hfmt]
    rw [ih fuel (nextDay c) _ (nextDay_WF c hc)
      (by rw [dayNumber_nextDay c hc]; omega) (by omega)]
    simp only [List.range_succ_eq_map, List.map_cons, List.map_map, List.append_assoc,
      List.singleton_append, plusDays]
    rfl

/-- Claim C10: for valid date strings `start`, `end`, `getDateRangeDates` ends
and returns the days from the date of `start` on, each one calendar day after
the one before and printed month/day/year, as many as the days from `start` to
`end` plus one; when `start` is on or before `end` the last day is the date of
`end`, and when `start` is after `end` the list is empty. -/
theorem getDateRangeDates_eq (fs : List Format) (now : Civil) (startDate endDate : String)
    (hfs : ∀ f ∈ fs, f ∈ knownFormats) (h1 : MM_DD_YYYY ∈ fs) (h2 : YYYY_MM_DD ∈ fs)
    (h3 : YYYY_MMM ∈ fs) (hs : isDate now (.str startDate) = true)
    (he : isDate now (.str endDate) = true) :
    ∃ ds de, denotedDate startDate.toList = some ds ∧ denotedDate endDate.toList = some de
      ∧ (∀ fuel, (dayNumber de - dayNumber ds + 1).toNat < fuel →
          getDateRangeDates fs now fuel (.str startDate) (.str endDate)
            = some ((List.range (dayNumber de - dayNumber ds + 1).toNat).map
                (fun (k : Nat) => Moment.format (some (plusDays ds k)) MM_DD_YYYY)))
      ∧ (ds.later de = false → plusDays ds (dayNumber de - dayNumber ds).toNat = de)
      ∧ (ds.later de = true → (dayNumber de - dayNumber ds + 1).toNat = 0) := by
  obtain ⟨ds, hds, ws, gs⟩ := getMomentDate_of_isDate fs now startDate hfs h1 h2 h3 hs
  obtain ⟨de, hde, we, ge⟩ := getMomentDate_of_isDate fs now endDate hfs h1 h2 h3 he
  refine ⟨ds, de, hds, hde, ?_, ?_, ?_⟩
  · intro fuel hfuel
    simp only [getDateRangeDates, gs, ge]
    rw [getDateRangeDatesLoop_eq fs now de _ fuel ds [] ws rfl hfuel]
    rfl
  · intro hl
    have hle : dayNumber ds ≤ dayNumber de := by
      by_contra hn
      have := (dayNumber_lt_iff ds de ws we).1 (by omega)
      rw [this] at hl
      cases hl
    have hw := plusDays_WF (dayNumber de - dayNumber ds).toNat ds ws
    have hn := dayNumber_plusDays (dayNumber de - dayNumber ds).toNat ds ws
    have heq : dayNumber (plusDays ds (dayNumber de - dayNumber ds).toNat) = dayNumber de := by
      omega
    by_contra hne
    have h1' : ¬ (plusDays ds (dayNumber de - dayNumber ds).toNat).later de = true := by
      intro hc
      have := (dayNumber_lt_iff _ de hw we).2 hc
      omega
    have h2' : ¬ de.later (plusDays ds (dayNumber de - dayNumber ds).toNat) = true := by
      intro hc
      have := (dayNumber_lt_iff de _ we hw).2 hc
      omega
    rw [Civil.later_iff] at h1' h2'
    apply hne
    generalize plusDays ds (dayNumber de - dayNumber ds).toNat = p at h1' h2'
    cases p; cases de
    simp only [Civil.mk.injEq]
    simp only at h1' h2'
    omega
  · intro hl
    have := (dayNumber_lt_iff ds de ws we).2 hl
    omega

/-- From 27 February 2020 to 2 March 2020, the second date written
year-month-day, `getDateRangeDates` lists five days, with 29 February. -/
theorem getDateRangeDates_witness :
    getDateRangeDates knownFormats ⟨2025, 10, 6⟩ 6 (.str "02/27/2020") (.str "2020-03-02")
      = some ["02/27/2020", "02/28/2020", "02/29/2020", "03/01/2020", "03/02/2020"] := by
  obtain ⟨ds, de, h1, h2, h, -⟩ := getDateRangeDates_eq knownFormats ⟨2025, 10, 6⟩
    "02/27/2020" "2020-03-02" (fun _ h => h) (by decide) (by decide) (by decide)
    (by decide) (by decide)
  have e1 : denotedDate "02/27/2020".toList = some ⟨2020, 1, 27⟩ := by decide
  have e2 : denotedDate "2020-03-02".toList = some ⟨2020, 2, 2⟩ := by decide
  rw [e1] at h1; rw [e2] at h2
  cases h1; cases h2
  exact (h 6 (by decide)).trans (by decide)

theorem hasDigitPair_tail (c : Char) (t : List Char) (h : hasDigitPair (c :: t) = false) :
    hasDigitPair t = false := by
  cases t with
  | nil => rfl
  | cons d t' =>
    simp only [hasDigitPair, Bool.or_eq_false_iff] at h
    exact h.2

/-- No match starts inside a text without two adjacent digits that is followed
by a character that is neither a word character nor white space. -/
theorem yearLabelAt_none_before_sep (x : Char) (rest : List Char)
    (hx : (isWord x || isSpace x) = false) :
    ∀ t : List Char, hasDigitPair t = false → yearLabelAt (t ++ x :: rest) = none := by
  have hxd : isDigit x = false := by
    cases h : isDigit x with
    | false => rfl
    | true => simp [isDigit_isWord h] at hx
  intro t
  induction t with
  | nil =>
    intro _
    simp only [List.nil_append, yearLabelAt, hx, Bool.false_eq_true, if_false, Option.orElse]
    cases rest <;> simp [hxd]
  | cons c t ih =>
    intro h
    have ht := ih (hasDigitPair_tail c t h)
    cases t with
    | nil =>
      simp only [List.nil_append] at ht
      show yearLabelAt (c :: x :: rest) = none
      rw [yearLabelAt.eq_2, ht]
      simp [Option.orElse, hxd]
    | cons d t' =>
      simp only [List.cons_append] at ht
      simp only [hasDigitPair, Bool.or_eq_false_iff] at h
      show yearLabelAt (c :: d :: (t' ++ x :: rest)) = none
      rw [yearLabelAt.eq_2, ht]
      simp [Option.orElse, h.1]

theorem yearLabelExec_skip (x : Char) (rest : List Char)
    (hx : (isWord x || isSpace x) = false) :
    ∀ t : List Char, hasDigitPair t = false →
      yearLabelExec (t ++ x :: rest) = yearLabelExec rest := by
  intro t
  induction t with
  | nil =>
    intro h
    have := yearLabelAt_none_before_sep x rest hx [] h
    simp only [List.nil_append] at this ⊢
    simp only [yearLabelExec, this]
  | cons c t ih =>
    intro h
    have := yearLabelAt_none_before_sep x rest hx (c :: t) h
    simp only [List.cons_append] at this ⊢
    simp only [yearLabelExec, this]
    exact ih (hasDigitPair_tail c t h)

theorem hasDigitPair_concat (x : Char) : ∀ q : List Char,
    hasDigitPair (q ++ [x]) = false → hasDigitPair q = false := by
  intro q
  induction q with
  | nil => intro _; rfl
  | cons c q ih =>
    intro h
    cases q with
    | nil => rfl
    | cons d q' =>
      simp only [List.cons_append, hasDigitPair, Bool.or_eq_false_iff] at h ⊢
      exact ⟨h.1, ih h.2⟩

/-- The array `exec` returns on a run of word and white-space characters that
ends in two digits. -/
theorem yearLabelExec_run (run : List Char) (d1 d2 : Char)
    (hrun : ∀ c ∈ run, (isWord c || isSpace c) = true)
    (h1 : isDigit d1 = true) (h2 : isDigit d2 = true) :
    ∃ g1, yearLabelExec (run ++ [d1, d2])
      = some [some (String.mk (run ++ [d1, d2])), g1, some (String.mk [d1, d2])] := by
  obtain ⟨g1, hg⟩ := yearLabelAt_suffix d1 d2 h1 h2 run hrun
  refine ⟨g1.map (fun x => String.mk [x]), ?_⟩
  cases run with
  | nil =>
    simp only [List.nil_append] at hg ⊢
    simp [yearLabelExec, hg]
  | cons c run =>
    simp only [List.cons_append] at hg ⊢
    simp [yearLabelExec, hg]

/-- Claim C7, amended: for a label that ends in the digits `d1 d2` after a run
of word characters and white space, where the text before that run holds no
two adjacent digits and is empty or ends in a character that is neither a word
character nor white space, `parseYearFromLabel` returns `2000 + 10*d1 + d2`. -/
theorem parseYearFromLabel_suffix (pre run : List Char) (d1 d2 : Char)
    (hpair : hasDigitPair pre = false)
    (hsep : ∀ x, pre.getLast? = some x → (isWord x || isSpace x) = false)
    (hrun : ∀ c ∈ run, (isWord c || isSpace c) = true)
    (h1 : isDigit d1 = true) (h2 : isDigit d2 = true) :
    parseYearFromLabel (.str (String.mk (pre ++ run ++ [d1, d2])))
      = some (some (2000 + 10 * digitValue d1 + digitValue d2)) := by
  obtain ⟨g1, hg⟩ := yearLabelExec_run run d1 d2 hrun h1 h2
  have he : ∃ w, yearLabelExec (pre ++ run ++ [d1, d2])
      = some [some w, g1, some (String.mk [d1, d2])] := by
    rcases List.eq_nil_or_concat pre with rfl | ⟨q, x, hqx⟩
    · exact ⟨_, by simpa using hg⟩
    · rw [List.concat_eq_append] at hqx
      subst hqx
      have hx := hsep x (by simp)
      have hq := hasDigitPair_concat x q hpair
      have := yearLabelExec_skip x (run ++ [d1, d2]) hx q hq
      refine ⟨String.mk (run ++ [d1, d2]), ?_⟩
      rw [← hg, ← this]
      simp
  obtain ⟨w, he⟩ := he
  simp only [parseYearFromLabel, String.toList, he, Option.isSome_some, if_true,
    List.length_cons, List.length_nil, List.getD_cons_succ, List.getD_cons_zero,
    Option.getD_some]
  rw [parseInt_century d1 d2 h1 h2]

/-- The labels `FY 23` and `Q1-FY 23` give 2023. -/
theorem parseYearFromLabel_suffix_witness :
    parseYearFromLabel (.str (String.mk ([] ++ "FY ".toList ++ ['2', '3'])))
        = some (some (2000 + 10 * digitValue '2' + digitValue '3'))
      ∧ parseYearFromLabel (.str (String.mk ("Q1-".toList ++ "FY ".toList ++ ['2', '3'])))
        = some (some (2000 + 10 * digitValue '2' + digitValue '3')) :=
  ⟨parseYearFromLabel_suffix [] "FY ".toList '2' '3' (by decide) (by decide) (by decide)
      (by decide) (by decide),
    parseYearFromLabel_suffix "Q1-".toList "FY ".toList '2' '3' (by decide) (by decide)
      (by decide) (by decide) (by decide)⟩

/-- The strings `isDate` accepts are the texts that denote a calendar date. -/
theorem isDate_eq_denotedDate (now : Civil) (a : String) :
    isDate now (.str a) = (denotedDate a.toList).isSome := by
  cases h : isDate now (.str a) with
  | true =>
    obtain ⟨d, hd, -⟩ := getMomentDate_of_isDate knownFormats now a (fun _ h => h)
      (by decide) (by decide) (by decide) h
    rw [hd]; rfl
  | false =>
    cases hden : denotedDate a.toList with
    | none => rfl
    | some d =>
      exfalso
      simp only [isDate, isValidDate, momentWithFormat, Bool.or_eq_false_iff] at h
      obtain ⟨⟨hmdy, hymd⟩, hymon⟩ := h
      unfold denotedDate at hden
      split at hden
      · rename_i c0 c1 c2 c3 c4 c5 c6 c7 c8 c9 heq
        split_ifs at hden with c1' c2'
        · obtain ⟨rfl, rfl, hdig⟩ := c1'
          simp only [List.all_cons, List.all_nil, Bool.and_true, Bool.and_eq_true] at hdig
          obtain ⟨h0, h1, h3, h4, h6, h7, h8, h9⟩ := hdig
          rw [heq, parseFormat_mdy now true c0 c1 c3 c4 c6 c7 c8 c9 h0 h1 h3 h4 h6 h7 h8 h9,
            civilOfFields_eq_realDate, hden] at hmdy
          cases hmdy
        · obtain ⟨rfl, rfl, hdig⟩ := c2'
          simp only [List.all_cons, List.all_nil, Bool.and_true, Bool.and_eq_true] at hdig
          obtain ⟨h0, h1, h2, h3, h5, h6, h8, h9⟩ := hdig
          rw [heq, parseFormat_ymd now true c0 c1 c2 c3 c5 c6 c8 c9 h0 h1 h2 h3 h5 h6 h8 h9,
            civilOfFields_eq_realDate, hden] at hymd
          cases hymd
      · rename_i c0 c1 c2 c3 c4 c5 c6 c7 heq
        split_ifs at hden with c1'
        obtain ⟨rfl, hdig⟩ := c1'
        simp only [List.all_cons, List.all_nil, Bool.and_true, Bool.and_eq_true] at hdig
        obtain ⟨h0, h1, h2, h3⟩ := hdig
        cases hk : monthsShort.findIdx? (fun name => eqIgnoreCase [c5, c6, c7] name.toList) with
        | none => rw [hk] at hden; cases hden
        | some k =>
          have hk' : monthsParse [c5, c6, c7] true = some k := by
            simp only [monthsParse, if_true]; exact hk
          obtain ⟨x, y, z, hxyz, hx, hy, hz, -⟩ :=
            monthsParse_true_letters [c5, c6, c7] (by rw [hk']; rfl)
          simp only [List.cons.injEq, and_true] at hxyz
          obtain ⟨rfl, rfl, rfl⟩ := hxyz
          rw [heq, parseFormat_ymon now true c0 c1 c2 c3 c5 c6 c7 k h0 h1 h2 h3 hx hy hz hk']
            at hymon
          cases hymon
      · cases hden

/-- Claim C2: the strings that satisfy `isDate` are the texts that denote a
calendar date (month/day/year, year-month-day, or year-month-abbreviation for
the first of the month), and for two such strings `a`, `b`, `isAfter(a, b)` is
true exactly when the date of `a` is strictly later than the date of `b`,
whatever the formats of the two.
The list `fs` of formats `getMomentDate` parses with is any list of the known
format constants that holds the three formats of `isDate`. -/
theorem isAfter_chronological (fs : List Format) (now : Civil) (a b : String)
    (hfs : ∀ f ∈ fs, f ∈ knownFormats) (h1 : MM_DD_YYYY ∈ fs) (h2 : YYYY_MM_DD ∈ fs)
    (h3 : YYYY_MMM ∈ fs) (ha : isDate now (.str a) = true) (hb : isDate now (.str b) = true) :
    (∀ s : String, isDate now (.str s) = (denotedDate s.toList).isSome)
      ∧ ∃ da db, denotedDate a.toList = some da ∧ denotedDate b.toList = some db
          ∧ isAfter fs now (.str a) (.str b) = some (da.later db) := by
  refine ⟨isDate_eq_denotedDate now, ?_⟩
  obtain ⟨da, hda, wa, ga⟩ := getMomentDate_of_isDate fs now a hfs h1 h2 h3 ha
  obtain ⟨db, hdb, wb, gb⟩ := getMomentDate_of_isDate fs now b hfs h1 h2 h3 hb
  refine ⟨da, db, hda, hdb, ?_⟩
  simp only [isAfter, ha, hb, Bool.and_self, if_true, ga, gb, isAfter_some da db wa wb]

/-- `isAfter("02/01/2020", "01/01/2020")` is true, and a date in another
format compares by its calendar date: `isAfter("2020-02-01", "01/31/2020")`
is true and `isAfter("2020-Feb", "02/01/2020")` is false. -/
theorem isAfter_chronological_witness :
    isAfter knownFormats ⟨2025, 10, 6⟩ (.str "02/01/2020") (.str "01/01/2020") = some true
      ∧ isAfter knownFormats ⟨2025, 10, 6⟩ (.str "2020-02-01") (.str "01/31/2020") = some true
      ∧ isAfter knownFormats ⟨2025, 10, 6⟩ (.str "2020-Feb") (.str "02/01/2020") = some false := by
  refine ⟨?_, ?_, ?_⟩
  · obtain ⟨-, da, db, h1, h2, h⟩ := isAfter_chronological knownFormats ⟨2025, 10, 6⟩
      "02/01/2020" "01/01/2020" (fun _ h => h) (by decide) (by decide) (by decide)
      (by decide) (by decide)
    have e1 : denotedDate "02/01/2020".toList = some ⟨2020, 1, 1⟩ := by decide
    have e2 : denotedDate "01/01/2020".toList = some ⟨2020, 0, 1⟩ := by decide
    rw [e1] at h1; rw [e2] at h2
    cases h1; cases h2
    exact h
  · obtain ⟨-, da, db, h1, h2, h⟩ := isAfter_chronological knownFormats ⟨2025, 10, 6⟩
      "2020-02-01" "01/31/2020" (fun _ h => h) (by decide) (by decide) (by decide)
      (by decide) (by decide)
    have e1 : denotedDate "2020-02-01".toList = some ⟨2020, 1, 1⟩ := by decide
    have e2 : denotedDate "01/31/2020".toList = some ⟨2020, 0, 31⟩ := by decide
    rw [e1] at h1; rw [e2] at h2
    cases h1; cases h2
    exact h
  · obtain ⟨-, da, db, h1, h2, h⟩ := isAfter_chronological knownFormats ⟨2025, 10, 6⟩
      "2020-Feb" "02/01/2020" (fun _ h => h) (by decide) (by decide) (by decide)
      (by decide) (by decide)
    have e1 : denotedDate "2020-Feb".toList = some ⟨2020, 1, 1⟩ := by decide
    have e2 : denotedDate "02/01/2020".toList = some ⟨2020, 1, 1⟩ := by decide
    rw [e1] at h1; rw [e2] at h2
    cases h1; cases h2
    exact h

/-! ## `isFiscalYear` and `isCalendarYear` -/

/-- Claim C14: `isFiscalYear(x)` is true exactly when `x` is a string that
starts with the fiscal-year prefix, `isCalendarYear(x)` exactly when `x` is a
string that starts with the calendar-year prefix, and both return `false` for
every input that is no string. -/
theorem isFiscalYear_isCalendarYear_iff (fiscalYearPrefix calendarYearPrefix : String)
    (x : DateInput) (n : Int) (m : Moment) :
    (isFiscalYear fiscalYearPrefix x = true
        ↔ ∃ s, x = .str s ∧ fiscalYearPrefix.toList <+: s.toList)
      ∧ (isCalendarYear calendarYearPrefix x = true
        ↔ ∃ s, x = .str s ∧ calendarYearPrefix.toList <+: s.toList)
      ∧ (isFiscalYear fiscalYearPrefix (.num n) = false
        ∧ isFiscalYear fiscalYearPrefix (.mom m) = false
        ∧ isFiscalYear fiscalYearPrefix .null = false
        ∧ isFiscalYear fiscalYearPrefix .undefined = false)
      ∧ (isCalendarYear calendarYearPrefix (.num n) = false
        ∧ isCalendarYear calendarYearPrefix (.mom m) = false
        ∧ isCalendarYear calendarYearPrefix .null = false
        ∧ isCalendarYear calendarYearPrefix .undefined = false) := by
  refine ⟨?_, ?_, ⟨rfl, rfl, rfl, rfl⟩, ⟨rfl, rfl, rfl, rfl⟩⟩
  · cases x <;> simp [isFiscalYear, startsWith, List.isPrefixOf_iff_prefix]
  · cases x <;> simp [isCalendarYear, startsWith, List.isPrefixOf_iff_prefix]

/-! ## Relations between the comparison helpers -/

/-- Every input `isDate` accepts parses to a valid moment. -/
theorem getMomentDate_valid_of_isDate (fs : List Format) (now : Civil) (x : DateInput)
    (hfs : ∀ f ∈ fs, f ∈ knownFormats) (h1 : MM_DD_YYYY ∈ fs) (h2 : YYYY_MM_DD ∈ fs)
    (h3 : YYYY_MMM ∈ fs) (hx : isDate now x = true) :
    ∃ c, getMomentDate fs now x = some c := by
  cases x with
  | str s =>
    obtain ⟨d, -, -, hd⟩ := getMomentDate_of_isDate fs now s hfs h1 h2 h3 hx
    exact ⟨d, hd⟩
  | num n =>
    obtain ⟨d, -, -, hd⟩ := getMomentDate_of_isDate fs now (inputText n) hfs h1 h2 h3 hx
    exact ⟨d, hd⟩
  | mom m =>
    cases m with
    | none => simp [isDate, isValidDate, momentWithFormat] at hx
    | some c => exact ⟨c, rfl⟩
  | null => simp [isDate, isValidDate, momentWithFormat] at hx
  | undefined =>
    obtain ⟨d, -, -, hd⟩ := getMomentDate_of_isDate fs now "undefined" hfs h1 h2 h3 hx
    exact ⟨d, hd⟩

/-- The comparisons of two valid moments, by their time values. -/
theorem moment_comparisons (ca cb : Civil) :
    Moment.isSameOrBefore (some ca) (some cb) = Moment.isSameOrAfter (some cb) (some ca)
      ∧ Moment.isAfter (some ca) (some cb) = !Moment.isSameOrBefore (some ca) (some cb)
      ∧ ((Moment.isSameOrAfter (some ca) (some cb) = true
            ∧ Moment.isSameOrBefore (some ca) (some cb) = true)
          ↔ Moment.valueOf (some ca) = Moment.valueOf (some cb))
      ∧ Moment.isSameOrAfter (some ca) (some ca) = true
      ∧ Moment.isSameOrBefore (some ca) (some ca) = true
      ∧ Moment.isAfter (some ca) (some ca) = false := by
  simp only [Moment.isSameOrBefore, Moment.isSameOrAfter, Moment.isSame, Moment.isBefore,
    Moment.isAfter, Moment.valueOf, Option.map_some', Option.isSome_some, Bool.and_self,
    if_true, jsLt]
  generalize dayNumber ca * msPerDay = x
  generalize dayNumber cb * msPerDay = y
  rcases lt_trichotomy x y with h | h | h
  · have h1 : x ≠ y := ne_of_lt h
    have h2 : y ≠ x := fun e => h1 e.symm
    have h3 : ¬ y < x := not_lt_of_lt h
    simp [h, h1, h2, h3]
  · subst h
    simp
  · have h1 : x ≠ y := fun e => (ne_of_lt h) e.symm
    have h2 : y ≠ x := ne_of_lt h
    have h3 : ¬ x < y := not_lt_of_lt h
    simp [h, h1, h2, h3]

/-- Claim C17: for inputs `a`, `b` that both satisfy `isDate`,
`isSameOrBefore(a, b)` equals `isSameOrAfter(b, a)`, `isAfter(a, b)` is the
negation of `isSameOrBefore(a, b)`, `isSameOrAfter(a, b)` and
`isSameOrBefore(a, b)` are both true exactly when the two moments have the same
time value, and on `(a, a)` the first two are true and `isAfter` is false. -/
theorem comparison_relations (fs : List Format) (now : Civil) (a b : DateInput)
    (hfs : ∀ f ∈ fs, f ∈ knownFormats) (h1 : MM_DD_YYYY ∈ fs) (h2 : YYYY_MM_DD ∈ fs)
    (h3 : YYYY_MMM ∈ fs) (ha : isDate now a = true) (hb : isDate now b = true) :
    isSameOrBefore fs now a b = isSameOrAfter fs now b a
      ∧ isAfter fs now a b = (isSameOrBefore fs now a b).map (fun r => !r)
      ∧ ((isSameOrAfter fs now a b = some true ∧ isSameOrBefore fs now a b = some true)
          ↔ Moment.valueOf (getMomentDate fs now a) = Moment.valueOf (getMomentDate fs now b))
      ∧ isSameOrAfter fs now a a = some true
      ∧ isSameOrBefore fs now a a = some true
      ∧ isAfter fs now a a = some false := by
  obtain ⟨ca, hca⟩ := getMomentDate_valid_of_isDate fs now a hfs h1 h2 h3 ha
  obtain ⟨cb, hcb⟩ := getMomentDate_valid_of_isDate fs now b hfs h1 h2 h3 hb
  obtain ⟨r1, r2, r3, r4, r5, r6⟩ := moment_comparisons ca cb
  simp only [isSameOrBefore, isSameOrAfter, isAfter, ha, hb, Bool.and_self, if_true, hca, hcb,
    Option.map_some', Option.some.injEq]
  exact ⟨r1, r2, r3, r4, r5, r6⟩

/-- On `"2020-02-01"` and `"02/01/2020"`, the same day in two formats, the
relations hold with `isSameOrBefore` and `isSameOrAfter` both true. -/
theorem comparison_relations_witness :
    isSameOrBefore knownFormats ⟨2025, 10, 6⟩ (.str "2020-02-01") (.str "02/01/2020")
        = isSameOrAfter knownFormats ⟨2025, 10, 6⟩ (.str "02/01/2020") (.str "2020-02-01")
      ∧ isAfter knownFormats ⟨2025, 10, 6⟩ (.str "2020-02-01") (.str "02/01/2020")
        = (isSameOrBefore knownFormats ⟨2025, 10, 6⟩ (.str "2020-02-01")
            (.str "02/01/2020")).map (fun r => !r)
      ∧ ((isSameOrAfter knownFormats ⟨2025, 10, 6⟩ (.str "2020-02-01") (.str "02/01/2020")
            = some true
          ∧ isSameOrBefore knownFormats ⟨2025, 10, 6⟩ (.str "2020-02-01") (.str "02/01/2020")
            = some true)
          ↔ Moment.valueOf (getMomentDate knownFormats ⟨2025, 10, 6⟩ (.str "2020-02-01"))
            = Moment.valueOf (getMomentDate knownFormats ⟨2025, 10, 6⟩ (.str "02/01/2020")))
      ∧ isSameOrAfter knownFormats ⟨2025, 10, 6⟩ (.str "2020-02-01") (.str "2020-02-01")
        = some true
      ∧ isSameOrBefore knownFormats ⟨2025, 10, 6⟩ (.str "2020-02-01") (.str "2020-02-01")
        = some true
      ∧ isAfter knownFormats ⟨2025, 10, 6⟩ (.str "2020-02-01") (.str "2020-02-01")
        = some false :=
  comparison_relations knownFormats ⟨2025, 10, 6⟩ (.str "2020-02-01") (.str "02/01/2020")
    (fun _ h => h) (by decide) (by decide) (by decide) (by decide) (by decide)

/-! ## The pair of digits `parseYearFromLabel` reads -/

theorem lastDigitPair_eq_none_iff : ∀ s : List Char,
    lastDigitPair s = none ↔ hasDigitPair s = false := by
  intro s
  induction s with
  | nil => simp [lastDigitPair, hasDigitPair]
  | cons c t ih =>
    cases t with
    | nil => simp [lastDigitPair, hasDigitPair]
    | cons d r =>
      simp only [lastDigitPair, hasDigitPair, Bool.or_eq_false_iff]
      cases hl : lastDigitPair (d :: r) with
      | none =>
        have := ih.1 hl
        simp [this]
      | some p =>
        have : hasDigitPair (d :: r) ≠ false := fun h => by
          rw [ih.2 h] at hl; cases hl
        simp [this]

/-- On a run of word and white-space characters that is followed by nothing or
by another character, a match from the head of the run ends in the last pair
of digits of the run, and there is none when the run has no pair. -/
theorem yearLabelAt_run (tail : List Char)
    (htail : ∀ x rest, tail = x :: rest → (isWord x || isSpace x) = false) :
    ∀ run : List Char, (∀ c ∈ run, (isWord c || isSpace c) = true) →
      match lastDigitPair run with
      | some p => ∃ w g1, yearLabelAt (run ++ tail) = some (w, g1, [p.1, p.2])
      | none => yearLabelAt (run ++ tail) = none := by
  have hhead : ∀ c : Char, (match tail with
      | d :: _ => if (isDigit c && isDigit d) = true then some ([c, d], (none : Option Char), [c, d]) else none
      | [] => none) = none := by
    intro c
    cases tail with
    | nil => rfl
    | cons x rest =>
      have hx := htail x rest rfl
      have hxd : isDigit x = false := by
        cases h : isDigit x with
        | false => rfl
        | true => simp [isDigit_isWord h] at hx
      simp [hxd]
  intro run
  induction run with
  | nil =>
    intro _
    simp only [lastDigitPair, List.nil_append]
    cases tail with
    | nil => rfl
    | cons x rest =>
      have hx := htail x rest rfl
      have := hhead x
      rw [yearLabelAt.eq_def]
      simp only [hx, Bool.false_eq_true, if_false, Option.orElse]
      cases rest with
      | nil => rfl
      | cons d r =>
        have hxd : isDigit x = false := by
          cases h : isDigit x with
          | false => rfl
          | true => simp [isDigit_isWord h] at hx
        simp [hxd]
  | cons c r ih =>
    intro hrun
    have hc := hrun c (List.mem_cons_self _ _)
    have ihr := ih (fun x hx => hrun x (List.mem_cons_of_mem _ hx))
    cases r with
    | nil =>
      simp only [lastDigitPair, List.nil_append] at ihr ⊢
      show yearLabelAt (c :: tail) = none
      rw [yearLabelAt.eq_def]
      simp only [hc, if_true, ihr, Option.map_none', Option.orElse]
      exact hhead c
    | cons d r' =>
      simp only [List.cons_append] at ihr ⊢
      cases hl : lastDigitPair (d :: r') with
      | some p =>
        rw [hl] at ihr
        obtain ⟨w, g1, hw⟩ := ihr
        simp only [lastDigitPair, hl]
        refine ⟨c :: w, some (g1.getD c), ?_⟩
        rw [yearLabelAt.eq_2, hw]
        simp [hc, Option.orElse]
      | none =>
        rw [hl] at ihr
        simp only at ihr
        simp only [lastDigitPair, hl]
        by_cases hcd : (isDigit c && isDigit d) = true
        · simp only [hcd, if_true]
          refine ⟨[c, d], none, ?_⟩
          rw [yearLabelAt.eq_2, ihr]
          simp [hcd, Option.orElse]
        · simp only [hcd, Bool.false_eq_true, if_false]
          rw [yearLabelAt.eq_2, ihr]
          simp [hcd, Option.orElse]

theorem wordRuns_run : ∀ run : List Char, (∀ c ∈ run, (isWord c || isSpace c) = true) →
    wordRuns run = [run] := by
  intro run
  induction run with
  | nil => intro _; rfl
  | cons c r ih =>
    intro h
    have hc := h c (List.mem_cons_self _ _)
    have := ih (fun x hx => h x (List.mem_cons_of_mem _ hx))
    simp only [wordRuns, hc, if_true, this]

theorem wordRuns_append_sep (x : Char) (rest : List Char)
    (hx : (isWord x || isSpace x) = false) :
    ∀ run : List Char, (∀ c ∈ run, (isWord c || isSpace c) = true) →
      wordRuns (run ++ x :: rest) = run :: wordRuns rest := by
  intro run
  induction run with
  | nil => intro _; simp only [List.nil_append, wordRuns, hx, Bool.false_eq_true, if_false]
  | cons c r ih =>
    intro h
    have hc := h c (List.mem_cons_self _ _)
    have := ih (fun x hx => h x (List.mem_cons_of_mem _ hx))
    simp only [List.cons_append, wordRuns, hc, if_true]
    show (match wordRuns (r ++ x :: rest) with
      | r :: rs => (c :: r) :: rs
      | [] => [[c]]) = (c :: r) :: wordRuns rest
    rw [this]

/-- A text is a run of word and white-space characters, followed by nothing
or by a character of another kind and the rest. -/
theorem run_decomposition : ∀ s : List Char, ∃ run tail, s = run ++ tail
    ∧ (∀ c ∈ run, (isWord c || isSpace c) = true)
    ∧ (tail = [] ∨ ∃ x rest, tail = x :: rest ∧ (isWord x || isSpace x) = false) := by
  intro s
  induction s with
  | nil => exact ⟨[], [], rfl, by simp, Or.inl rfl⟩
  | cons c cs ih =>
    obtain ⟨run, tail, hs, hrun, htail⟩ := ih
    by_cases hc : (isWord c || isSpace c) = true
    · refine ⟨c :: run, tail, by simp [hs], ?_, htail⟩
      intro x hx
      rcases List.mem_cons.1 hx with rfl | hx
      · exact hc
      · exact hrun x hx
    · exact ⟨[], c :: cs, rfl, by simp, Or.inr ⟨c, cs, rfl, by simpa using hc⟩⟩

/-- What `exec` returns: nothing when no run holds a pair of digits, and
otherwise an array that ends in the last pair of the first run that holds
one. -/
theorem yearLabelExec_firstRunLastPair : ∀ (n : Nat) (s : List Char), s.length = n →
    (firstRunLastPair s = none ∧ yearLabelExec s = none)
    ∨ ∃ p w g1, firstRunLastPair s = some p
        ∧ yearLabelExec s = some [some w, g1, some (String.mk [p.1, p.2])] := by
  intro n
  induction n using Nat.strong_induction_on with
  | _ n ih =>
    intro s hn
    obtain ⟨run, tail, hs, hrun, htail⟩ := run_decomposition s
    have htail' : ∀ x rest, tail = x :: rest → (isWord x || isSpace x) = false := by
      intro x rest h
      rcases htail with h0 | ⟨x', rest', h1, h2⟩
      · rw [h0] at h; cases h
      · rw [h1] at h; cases h; exact h2
    have hat := yearLabelAt_run tail htail' run hrun
    cases hl : lastDigitPair run with
    | some p =>
      rw [hl] at hat
      obtain ⟨w, g1, hw⟩ := hat
      have hpair : hasDigitPair run = true := by
        cases h : hasDigitPair run with
        | true => rfl
        | false => rw [(lastDigitPair_eq_none_iff run).2 h] at hl; cases hl
      have hfirst : firstRunLastPair s = some p := by
        rcases htail with h0 | ⟨x, rest, h1, h2⟩
        · subst h0
          rw [List.append_nil] at hs
          subst hs
          simp [firstRunLastPair, wordRuns_run s hrun, List.find?, hpair, hl]
        · subst h1
          subst hs
          simp [firstRunLastPair, wordRuns_append_sep x rest h2 run hrun, List.find?, hpair, hl]
      right
      refine ⟨p, String.mk w, g1.map (fun x => String.mk [x]), hfirst, ?_⟩
      rw [hs]
      cases hrt : run ++ tail with
      | nil => rw [hrt] at hw; simp [yearLabelAt] at hw
      | cons c cs =>
        rw [hrt] at hw
        simp [yearLabelExec, hw]
    | none =>
      rw [hl] at hat
      simp only at hat
      have hpair : hasDigitPair run = false := (lastDigitPair_eq_none_iff run).1 hl
      rcases htail with h0 | ⟨x, rest, h1, h2⟩
      · subst h0
        rw [List.append_nil] at hs
        subst hs
        left
        constructor
        · simp [firstRunLastPair, wordRuns_run s hrun, List.find?, hpair]
        · rcases yearLabelExec_spec s with ⟨-, h⟩ | ⟨h, -⟩
          · exact h
          · rw [hpair] at h; cases h
      · subst h1
        subst hs
        have hskip := yearLabelExec_skip x rest h2 run hpair
        have hfirst : firstRunLastPair (run ++ x :: rest) = firstRunLastPair rest := by
          simp [firstRunLastPair, wordRuns_append_sep x rest h2 run hrun, List.find?, hpair]
        rw [hskip, hfirst]
        exact ih rest.length (by rw [← hn]; simp; omega) rest rfl

/-- Claim C16: for every string label, `parseYearFromLabel(label)` is 2000 plus
the value of the last pair of adjacent digits inside the first maximal run of
word and white-space characters that holds such a pair; there is such a run
exactly when the label holds two adjacent digits, and the result is `null`
otherwise. So `FY 23-24` gives 2023, `2019` gives 2019 and `1999 x` gives
2099. -/
theorem parseYearFromLabel_firstRun (label : String) :
    parseYearFromLabel (.str label)
        = (firstRunLastPair label.toList).map
            (fun p => some (2000 + 10 * digitValue p.1 + digitValue p.2))
      ∧ (firstRunLastPair label.toList).isSome = hasDigitPair label.toList
      ∧ parseYearFromLabel (.str "FY 23-24") = some (some 2023)
      ∧ parseYearFromLabel (.str "2019") = some (some 2019)
      ∧ parseYearFromLabel (.str "1999 x") = some (some 2099) := by
  refine ⟨?_, ?_, by decide, by decide, by decide⟩
  · simp only [String.toList]
    rcases yearLabelExec_firstRunLastPair _ label.data rfl with ⟨h1, h2⟩ | ⟨p, w, g1, h1, h2⟩
    · simp [parseYearFromLabel, String.toList, h1, h2]
    · have hd : isDigit p.1 = true ∧ isDigit p.2 = true := by
        rcases yearLabelExec_spec label.data with ⟨-, hn⟩ | ⟨-, w', g', d1, d2, he, hd1, hd2⟩
        · rw [hn] at h2; cases h2
        · rw [he] at h2
          injection h2 with h2
          injection h2 with _ h2
          injection h2 with _ h2
          injection h2 with h2 _
          injection h2 with h2
          injection h2 with h2
          injection h2 with e1 h2
          injection h2 with e2 _
          rw [← e1, ← e2]
          exact ⟨hd1, hd2⟩
      simp only [parseYearFromLabel, String.toList, h2, Option.isSome_some, if_true,
        List.length_cons, List.length_nil, List.getD_cons_succ, List.getD_cons_zero,
        Option.getD_some, h1, Option.map_some']
      rw [parseInt_century p.1 p.2 hd.1 hd.2]
  · simp only [String.toList]
    rcases yearLabelExec_firstRunLastPair _ label.data rfl with ⟨h1, h2⟩ | ⟨p, w, g1, h1, h2⟩
    · rcases yearLabelExec_spec label.data with ⟨hp, -⟩ | ⟨-, w', g', d1, d2, he, -⟩
      · rw [h1, hp]; rfl
      · rw [he] at h2; cases h2
    · rcases yearLabelExec_spec label.data with ⟨-, hn⟩ | ⟨hp, -⟩
      · rw [hn] at h2; cases h2
      · rw [h1, hp]; rfl

/-! ## `getMonthNumber` -/

/-- Setting year, month and a day of that month gives that date. -/
theorem makeDay_within (y m d : Int) (h0 : 0 ≤ m) (h11 : m ≤ 11) (h1 : 1 ≤ d)
    (hd : d ≤ daysInMonth y m) : makeDay y m d = ⟨y, m, d⟩ := by
  have e1 : m / 12 = 0 := by omega
  have e2 : m % 12 = m := by omega
  have e3 : ((d - 1).toNat : Int) = d - 1 := by omega
  simp only [makeDay, e1, e2, add_zero, addDays, show 0 ≤ d - 1 by omega, if_true]
  rw [plusDays_within _ _ _ _ (by rw [e3]; omega), e3]
  congr 1
  ring

/-- Setting the month to `i` on a real date lands in month `i`: the day is cut
to the length of the month. -/
theorem setMonth_month (now : Civil) (hnow : now.WF) (i : Int) (h0 : 0 ≤ i) (h11 : i ≤ 11) :
    ∃ d, Moment.setMonth (some now) i = some ⟨now.year, i, d⟩ := by
  have hdim := daysInMonth_pos now.year i h0 h11
  obtain ⟨-, -, h1, -⟩ := hnow
  refine ⟨min now.day (daysInMonth now.year i), ?_⟩
  simp only [Moment.setMonth, Option.map_some']
  rw [makeDay_within _ _ _ h0 h11 (le_min h1 (by omega)) (min_le_right _ _)]

/-- A name `monthsParse` reads as month `i` gives `i`, whatever the current
date. -/
theorem getMonthNumber_of_name (now : Civil) (hnow : now.WF) (name : String) (i : Nat)
    (hdig : (name.toList ≠ [] ∧ name.toList.all isDigit = true) = False)
    (hp : monthsParse name.toList false = some i) :
    getMonthNumber now name = some (i : Int) := by
  have hi := monthsParse_lt _ _ _ hp
  obtain ⟨d, hd⟩ := setMonth_month now hnow i (by omega) (by omega)
  simp only [getMonthNumber, Moment.setMonthText, hdig, if_false, hp, hd, Option.map_some',
    add_sub_cancel_right]

/-- Claim C15: for every month index `i` of `0..11` and every current date,
`getMonthNumber` of the short name and of the long name of month `i` is `i`,
`getShortMonthName(i)` is that short name and `getMonthByShortName` of it is
`i`. -/
theorem getMonthNumber_eq (now : Civil) (hnow : now.WF) (i : Nat) (hi : i < 12) :
    getMonthNumber now (monthsShort.getD i "") = some (i : Int)
      ∧ getMonthNumber now (months.getD i "") = some (i : Int)
      ∧ getShortMonthName i = some (monthsShort.getD i "")
      ∧ getMonthByShortName (monthsShort.getD i "") = i := by
  interval_cases i <;>
    exact ⟨getMonthNumber_of_name now hnow _ _ (by decide) (by decide),
      getMonthNumber_of_name now hnow _ _ (by decide) (by decide), by decide, by decide⟩

/-- On 31 January 2025, `getMonthNumber("Feb")` is 1: February has no 31st and
the day is cut to the 28th. -/
theorem getMonthNumber_witness :
    getMonthNumber ⟨2025, 0, 31⟩ "Feb" = some 1
      ∧ getMonthNumber ⟨2025, 0, 31⟩ "February" = some 1
      ∧ getShortMonthName 1 = some "Feb"
      ∧ getMonthByShortName "Feb" = 1 :=
  getMonthNumber_eq ⟨2025, 0, 31⟩ (by decide) 1 (by decide)

/-! ## Consecutive fiscal years -/

/-- Two real calendar dates with the same day number are the same date. -/
theorem civil_eq_of_dayNumber (a b : Civil) (ha : a.WF) (hb : b.WF)
    (h : dayNumber a = dayNumber b) : a = b := by
  have h1 : ¬ a.later b = true := fun hc => by
    have := (dayNumber_lt_iff a b ha hb).2 hc; omega
  have h2 : ¬ b.later a = true := fun hc => by
    have := (dayNumber_lt_iff b a hb ha).2 hc; omega
  rw [Civil.later_iff] at h1 h2
  cases a; cases b
  simp only [Civil.mk.injEq]
  simp only at h1 h2
  omega

/-- Going forward from a date by the difference of the day numbers reaches the
later date. -/
theorem plusDays_to (ds de : Civil) (hs : ds.WF) (he : de.WF)
    (h : dayNumber ds ≤ dayNumber de) :
    plusDays ds (dayNumber de - dayNumber ds).toNat = de := by
  apply civil_eq_of_dayNumber _ _ (plusDays_WF _ ds hs) he
  rw [dayNumber_plusDays _ ds hs]
  omega

/-- The date a month/day/year text with a four-digit year denotes. -/
theorem denotedDate_mdy_year (m1 m2 d1 d2 : Char) (n : Int) (h1 : 1000 ≤ n) (h2 : n ≤ 9999)
    (hm1 : isDigit m1 = true) (hm2 : isDigit m2 = true) (hd1 : isDigit d1 = true)
    (hd2 : isDigit d2 = true) :
    denotedDate (String.mk [m1, m2, '/', d1, d2, '/'] ++ toString n).toList
      = civilOfFields n ((digitsToNat [m1, m2] : Int) - 1) (digitsToNat [d1, d2]) := by
  obtain ⟨a, b, c, d, hl, -, ha, hb, hc, hd, hv⟩ := toString_four n h1 h2
  have htext : (String.mk [m1, m2, '/', d1, d2, '/'] ++ toString n).toList
      = [m1, m2, '/', d1, d2, '/', a, b, c, d] := by
    simp only [String.toList, String.data_append] at hl ⊢
    rw [hl]; rfl
  rw [htext, denotedDate_mdy m1 m2 d1 d2 a b c d hm1 hm2 hd1 hd2 ha hb hc hd, hv]

theorem fiscalRange_of_number (now : Civil) (y : Int) (h1 : 1001 ≤ y) (h2 : y ≤ 9999) :
    fiscalYearToDateRange now (.num y) = ["07/01/" ++ toString (y - 1), "06/30/" ++ toString y] := by
  have h := fiscalRange_of_year now (y - 1) (by omega) (by omega)
  rw [sub_add_cancel] at h
  exact h

theorem denotedDate_july_first (n : Int) (h1 : 1000 ≤ n) (h2 : n ≤ 9999) :
    denotedDate ("07/01/" ++ toString n).toList = some ⟨n, 6, 1⟩ := by
  rw [july_text, denotedDate_mdy_year '0' '7' '0' '1' n h1 h2 (by decide) (by decide) (by decide)
    (by decide)]
  have e1 : ((digitsToNat ['0', '7'] : Nat) : Int) - 1 = 6 := by decide
  have e2 : ((digitsToNat ['0', '1'] : Nat) : Int) = 1 := by decide
  have hdim := daysInMonth_pos n 6 (by decide) (by decide)
  rw [e1, e2, civilOfFields, if_neg (by omega)]

theorem denotedDate_june_last (n : Int) (h1 : 1000 ≤ n) (h2 : n ≤ 9999) :
    denotedDate ("06/30/" ++ toString n).toList = some ⟨n, 5, 30⟩ := by
  have ht : "06/30/" ++ toString n = String.mk ['0', '6', '/', '3', '0', '/'] ++ toString n := rfl
  rw [ht, denotedDate_mdy_year '0' '6' '3' '0' n h1 h2 (by decide) (by decide) (by decide)
    (by decide)]
  have e1 : ((digitsToNat ['0', '6'] : Nat) : Int) - 1 = 5 := by decide
  have e2 : ((digitsToNat ['3', '0'] : Nat) : Int) = 30 := by decide
  have hdim : daysInMonth n 5 = 30 := by
    rw [daysInMonth_of_range n 5 (by decide) (by decide)]; simp
  rw [e1, e2, civilOfFields, if_neg (by omega)]

/-- Claim C18: for an integer year `y` of `1001..9998`, the day after the end
date of `fiscalYearToDateRange(y)` is the start date of
`fiscalYearToDateRange(y+1)`, and the range of `fiscalYearToDateRange(y)` holds
366 days when `y` is a leap year and 365 days otherwise. -/
theorem fiscalYears_tile (now : Civil) (y : Int) (h1 : 1001 ≤ y) (h2 : y ≤ 9998) :
    ∃ first last next : Civil,
      (fiscalYearToDateRange now (.num y)).map (fun t => denotedDate t.toList)
          = [some first, some last]
        ∧ ((fiscalYearToDateRange now (.num (y + 1))).map
            (fun t => denotedDate t.toList)).head? = some (some next)
        ∧ nextDay last = next
        ∧ dayNumber last - dayNumber first + 1 = (if isLeapYear y = true then 366 else 365)
        ∧ plusDays first (if isLeapYear y = true then 365 else 364) = last := by
  have hw1 : Civil.WF ⟨y - 1, 6, 1⟩ := by
    have := daysInMonth_pos (y - 1) 6 (by decide) (by decide)
    exact ⟨by simp, by simp, by simp, by simp only; omega⟩
  have hw2 : Civil.WF ⟨y, 5, 30⟩ := by
    have hdim : daysInMonth y 5 = 30 := by
      rw [daysInMonth_of_range y 5 (by decide) (by decide)]; simp
    exact ⟨by simp, by simp, by simp, by simp only; omega⟩
  have hdays : dayNumber ⟨y, 5, 30⟩ - dayNumber ⟨y - 1, 6, 1⟩ + 1
      = (if isLeapYear y = true then 366 else 365) := by
    have hy := dayFromYear_succ (y - 1)
    rw [sub_add_cancel] at hy
    have t5 : ∀ l : Bool, daysBeforeMonth l 5 = 151 + (if l = true then 1 else 0) := by
      intro l; cases l <;> decide
    have t6 : ∀ l : Bool, daysBeforeMonth l 6 = 181 + (if l = true then 1 else 0) := by
      intro l; cases l <;> decide
    simp only [dayNumber, hy, t5, t6]
    split_ifs <;> omega
  refine ⟨⟨y - 1, 6, 1⟩, ⟨y, 5, 30⟩, ⟨y, 6, 1⟩, ?_, ?_, ?_, hdays, ?_⟩
  · rw [fiscalRange_of_number now y h1 (by omega)]
    simp only [List.map_cons, List.map_nil,
      denotedDate_july_first (y - 1) (by omega) (by omega),
      denotedDate_june_last y (by omega) (by omega)]
  · rw [fiscalRange_of_number now (y + 1) (by omega) (by omega)]
    simp only [List.map_cons, List.map_nil, List.head?_cons, add_sub_cancel_right,
      denotedDate_july_first y (by omega) (by omega)]
  · have hdim : daysInMonth y 5 = 30 := by
      rw [daysInMonth_of_range y 5 (by decide) (by decide)]; simp
    simp [nextDay, hdim]
  · have hle : dayNumber ⟨y - 1, 6, 1⟩ ≤ dayNumber ⟨y, 5, 30⟩ := by
      split_ifs at hdays <;> omega
    have := plusDays_to ⟨y - 1, 6, 1⟩ ⟨y, 5, 30⟩ hw1 hw2 hle
    rw [← this]
    congr 1
    split_ifs at hdays ⊢ <;> omega

/-- The fiscal year 2024 ends on 30 June 2024, the day before the fiscal year
2025 starts, and holds 366 days. -/
theorem fiscalYears_tile_witness :
    ∃ first last next : Civil,
      (fiscalYearToDateRange ⟨2025, 10, 6⟩ (.num 2024)).map (fun t => denotedDate t.toList)
          = [some first, some last]
        ∧ ((fiscalYearToDateRange ⟨2025, 10, 6⟩ (.num (2024 + 1))).map
            (fun t => denotedDate t.toList)).head? = some (some next)
        ∧ nextDay last = next
        ∧ dayNumber last - dayNumber first + 1 = (if isLeapYear 2024 = true then 366 else 365)
        ∧ plusDays first (if isLeapYear 2024 = true then 365 else 364) = last :=
  fiscalYears_tile ⟨2025, 10, 6⟩ 2024 (by decide) (by decide)

/-! ## Moving by whole days -/

/-- The day before a real calendar date is a real calendar date. -/
theorem prevDay_WF (c : Civil) (h : c.WF) : (prevDay c).WF := by
  obtain ⟨h0, h11, h1, hd⟩ := h
  simp only [prevDay]
  split_ifs with a b
  · exact ⟨h0, h11, by simp only; omega, by simp only; omega⟩
  · have := daysInMonth_pos c.year (c.month - 1) (by omega) (by omega)
    exact ⟨by simp only; omega, by simp only; omega, by simp only; omega, le_refl _⟩
  · have hdim : daysInMonth (c.year - 1) 11 = 31 := by
      rw [daysInMonth_of_range _ 11 (by decide) (by decide)]; simp
    exact ⟨by simp, by simp, by simp, by simp only; omega⟩

theorem nextDay_prevDay (c : Civil) (h : c.WF) : nextDay (prevDay c) = c := by
  obtain ⟨h0, h11, h1, hd⟩ := h
  simp only [prevDay]
  split_ifs with a b
  · have : c.day - 1 < daysInMonth c.year c.month := by omega
    simp only [nextDay, this, if_true, sub_add_cancel]
  · have hm : c.month - 1 < 11 := by omega
    have hday : c.day = 1 := by omega
    simp only [nextDay, lt_self_iff_false, if_false, hm, if_true, sub_add_cancel]
    cases c
    simp only at hday
    simp only [hday]
  · have hdim : daysInMonth (c.year - 1) 11 = 31 := by
      rw [daysInMonth_of_range _ 11 (by decide) (by decide)]; simp
    have hday : c.day = 1 := by omega
    have hmon : c.month = 0 := by omega
    simp only [nextDay, hdim, lt_self_iff_false, if_false, sub_add_cancel]
    cases c
    simp only at hday hmon
    simp only [hday, hmon]

/-- The day before a real calendar date has the previous day number. -/
theorem dayNumber_prevDay (c : Civil) (h : c.WF) : dayNumber (prevDay c) = dayNumber c - 1 := by
  have h1 := dayNumber_nextDay (prevDay c) (prevDay_WF c h)
  rw [nextDay_prevDay c h] at h1
  omega

theorem minusDays_spec : ∀ (n : Nat) (c : Civil), c.WF →
    (minusDays c n).WF ∧ dayNumber (minusDays c n) = dayNumber c - n := by
  intro n
  induction n with
  | zero => intro c h; exact ⟨h, by simp [minusDays]⟩
  | succ n ih =>
    intro c h
    obtain ⟨h1, h2⟩ := ih (prevDay c) (prevDay_WF c h)
    refine ⟨h1, ?_⟩
    rw [minusDays, h2, dayNumber_prevDay c h]
    push_cast
    ring

/-- Moving a real calendar date by `k` days gives a real calendar date whose
day number is `k` more. -/
theorem addDays_spec (c : Civil) (h : c.WF) (k : Int) :
    (addDays c k).WF ∧ dayNumber (addDays c k) = dayNumber c + k := by
  simp only [addDays]
  split_ifs with hk
  · refine ⟨plusDays_WF _ c h, ?_⟩
    rw [dayNumber_plusDays _ c h]
    omega
  · obtain ⟨h1, h2⟩ := minusDays_spec (-k).toNat c h
    refine ⟨h1, ?_⟩
    rw [h2]
    omega

/-- What a `Date` holds after its day of the month is set: a real calendar
date, as many days from the first of the month as the number says. -/
theorem makeDay_spec (y m d : Int) :
    (makeDay y m d).WF
      ∧ dayNumber (makeDay y m d) = dayNumber ⟨y + m / 12, m % 12, 1⟩ + (d - 1) := by
  have hbase : Civil.WF ⟨y + m / 12, m % 12, 1⟩ := by
    have h0 : 0 ≤ m % 12 := by omega
    have h11 : m % 12 ≤ 11 := by omega
    have := daysInMonth_pos (y + m / 12) (m % 12) h0 h11
    exact ⟨h0, h11, by simp, by simp only; omega⟩
  exact addDays_spec _ hbase (d - 1)

/-- Adding `n` days to a valid moment of a real calendar date. -/
theorem momentAddDays_spec (c : Civil) (h : c.WF) (n : Int) :
    ∃ c', Moment.addDays (some c) n = some c' ∧ c'.WF ∧ dayNumber c' = dayNumber c + n := by
  obtain ⟨h0, h11, h1, hd⟩ := h
  obtain ⟨w, hn⟩ := makeDay_spec c.year c.month (c.day + n)
  refine ⟨_, rfl, w, ?_⟩
  have e1 : c.month / 12 = 0 := by omega
  have e2 : c.month % 12 = c.month := by omega
  rw [hn, e1, e2]
  simp only [dayNumber, add_zero]
  omega

/-! ## The two range loops end on every input -/

/-- The loop of `getDateRangeDates` ends from every pair of moments: at once
with the empty list when one of them is invalid, and otherwise after as many
rounds as the days it lists. -/
theorem getDateRangeDatesLoop_terminates (fs : List Format) (now : Civil) (ms me : Moment) :
    ∃ dates, (∀ fuel, dates.length < fuel →
        getDateRangeDatesLoop fs now me fuel ms [] = some dates)
      ∧ ((ms = none ∨ me = none) → dates = [])
      ∧ (∀ cs ce, ms = some cs → me = some ce → cs.WF →
          dates.length = (dayNumber ce - dayNumber cs + 1).toNat) := by
  have hstop : ∀ fuel, 0 < fuel → jsLe ms.valueOf me.valueOf = false →
      getDateRangeDatesLoop fs now me fuel ms [] = some [] := by
    intro fuel hf hg
    obtain ⟨k, rfl⟩ : ∃ k, fuel = k + 1 := ⟨fuel - 1, by omega⟩
    simp only [getDateRangeDatesLoop, hg, Bool.false_eq_true, if_false]
  cases hs : ms with
  | none =>
    subst hs
    refine ⟨[], fun fuel hf => hstop fuel (by simpa using hf) rfl, fun _ => rfl, ?_⟩
    intro cs ce h; cases h
  | some cs =>
    cases he : me with
    | none =>
      subst hs he
      refine ⟨[], fun fuel hf => hstop fuel (by simpa using hf) rfl, fun _ => rfl, ?_⟩
      intro cs' ce _ h; cases h
    | some ce =>
      subst hs he
      by_cases hg : dayNumber cs ≤ dayNumber ce
      · -- one round, then the loop runs from a real calendar date
        obtain ⟨hw1, hn1⟩ := makeDay_spec cs.year cs.month (cs.day + 1)
        have hnext : Moment.addDays (some cs) 1 = some (makeDay cs.year cs.month (cs.day + 1)) :=
          rfl
        have hfmt : toMonthDayYearFormat fs now (.mom (some cs))
            = Moment.format (some cs) MM_DD_YYYY := rfl
        have hguard : jsLe (Moment.valueOf (some cs)) (Moment.valueOf (some ce)) = true := by
          simp only [jsLe, Moment.valueOf, Option.map_some', msPerDay, decide_eq_true_eq]
          omega
        refine ⟨[Moment.format (some cs) MM_DD_YYYY]
          ++ (List.range (dayNumber ce - dayNumber (makeDay cs.year cs.month (cs.day + 1))
                + 1).toNat).map (fun (k : Nat) => Moment.format
              (some (plusDays (makeDay cs.year cs.month (cs.day + 1)) k)) MM_DD_YYYY), ?_, ?_, ?_⟩
        · intro fuel hf
          simp only [List.length_append, List.length_cons, List.length_nil, List.length_map,
            List.length_range] at hf
          obtain ⟨k, rfl⟩ : ∃ k, fuel = k + 1 := ⟨fuel - 1, by omega⟩
          rw [getDateRangeDatesLoop, if_pos hguard, hnext, hfmt, List.nil_append]
          exact getDateRangeDatesLoop_eq fs now ce _ k _ _ hw1 rfl (by omega)
        · rintro (h | h) <;> cases h
        · intro cs' ce' h1 h2 hw
          cases h1; cases h2
          obtain ⟨c', hc', -, hd'⟩ := momentAddDays_spec cs hw 1
          rw [hnext] at hc'
          cases hc'
          simp only [List.length_append, List.length_cons, List.length_nil, List.length_map,
            List.length_range]
          omega
      · have hguard : jsLe (Moment.valueOf (some cs)) (Moment.valueOf (some ce)) = false := by
          simp only [jsLe, Moment.valueOf, Option.map_some', msPerDay, decide_eq_false_iff_not]
          omega
        refine ⟨[], fun fuel hf => hstop fuel (by simpa using hf) hguard, fun _ => rfl, ?_⟩
        intro cs' ce' h1 h2 _
        cases h1; cases h2
        simp only [List.length_nil]
        omega

/-- The loop of `getDateRangeYears` ends from every pair of numbers: at once
with the empty list when one of them is `NaN`, and otherwise after as many
rounds as the years it lists. -/
theorem getDateRangeYearsLoop_terminates (ys ye : JSNum) :
    ∃ years, (∀ fuel, years.length < fuel →
        getDateRangeYearsLoop ye fuel ys [] = some years)
      ∧ ((ys = none ∨ ye = none) → years = [])
      ∧ (∀ a b, ys = some a → ye = some b → years.length = (b - a + 1).toNat) := by
  have hstop : ∀ fuel, 0 < fuel → jsLe ys ye = false →
      getDateRangeYearsLoop ye fuel ys [] = some [] := by
    intro fuel hf hg
    obtain ⟨k, rfl⟩ : ∃ k, fuel = k + 1 := ⟨fuel - 1, by omega⟩
    simp only [getDateRangeYearsLoop, hg, Bool.false_eq_true, if_false]
  cases hs : ys with
  | none =>
    subst hs
    refine ⟨[], fun fuel hf => hstop fuel (by simpa using hf) rfl, fun _ => rfl, ?_⟩
    intro a b h; cases h
  | some a =>
    cases he : ye with
    | none =>
      subst hs he
      refine ⟨[], fun fuel hf => hstop fuel (by simpa using hf) rfl, fun _ => rfl, ?_⟩
      intro a' b _ h; cases h
    | some b =>
      subst hs he
      refine ⟨(List.range (b - a + 1).toNat).map (fun (k : Nat) => some (a + (k : Int))),
        ?_, ?_, ?_⟩
      · intro fuel hf
        simp only [List.length_map, List.length_range] at hf
        rw [getDateRangeYearsLoop_eq b _ fuel a [] rfl hf]
        rfl
      · rintro (h | h) <;> cases h
      · intro a' b' h1 h2
        cases h1; cases h2
        simp

/-- Claim C19: `getDateRangeDates` and `getDateRangeYears` end on every input:
some list is returned as soon as the fuel exceeds its length, the number of
rounds of the loop. When `start` or `end` does not parse to a valid date both
lists are empty, and when both are valid the loops run `(end - start) + 1`
rounds, in days and in years, or none when that number is negative. -/
theorem range_loops_terminate (fs : List Format) (now : Civil) (startDate endDate : DateInput) :
    ∃ dates years,
      (∀ fuel, dates.length < fuel →
          getDateRangeDates fs now fuel startDate endDate = some dates)
      ∧ (∀ fuel, years.length < fuel →
          getDateRangeYears fs now fuel startDate endDate = some years)
      ∧ ((getMomentDate fs now startDate = none ∨ getMomentDate fs now endDate = none) →
          dates = [] ∧ years = [])
      ∧ (∀ cs ce, getMomentDate fs now startDate = some cs →
          getMomentDate fs now endDate = some ce → cs.WF →
          dates.length = (dayNumber ce - dayNumber cs + 1).toNat
            ∧ years.length = (ce.year - cs.year + 1).toNat) := by
  obtain ⟨dates, hd1, hd2, hd3⟩ := getDateRangeDatesLoop_terminates fs now
    (getMomentDate fs now startDate) (getMomentDate fs now endDate)
  obtain ⟨years, hy1, hy2, hy3⟩ := getDateRangeYearsLoop_terminates
    (getYear fs now startDate) (getYear fs now endDate)
  refine ⟨dates, years, hd1, hy1, ?_, ?_⟩
  · intro h
    refine ⟨hd2 h, hy2 ?_⟩
    rcases h with h | h
    · left; simp [getYear, h, Moment.year]
    · right; simp [getYear, h, Moment.year]
  · intro cs ce h1 h2 hw
    refine ⟨hd3 cs ce h1 h2 hw, hy3 cs.year ce.year ?_ ?_⟩
    · simp [getYear, h1, Moment.year]
    · simp [getYear, h2, Moment.year]

/-! ## `getDiffDaysBetweenTwoDate` -/

theorem isIsoDateText_ymd (y1 y2 y3 y4 m1 m2 d1 d2 : Char)
    (hy1 : isDigit y1 = true) (hy2 : isDigit y2 = true) (hy3 : isDigit y3 = true)
    (hy4 : isDigit y4 = true) (hm1 : isDigit m1 = true) (hm2 : isDigit m2 = true)
    (hd1 : isDigit d1 = true) (hd2 : isDigit d2 = true) :
    isIsoDateText [y1, y2, y3, y4, '-', m1, m2, '-', d1, d2] = true := by
  simp [isIsoDateText, List.dropWhile, isDigit_not_isSpace hy1, hy1, hy2, hy3, hy4, hm1, hm2,
    hd1, hd2]

/-- A string the format `YYYY-MM-DD` accepts strictly is parsed by `moment`,
without a format, to the date it denotes. -/
theorem momentOfString_iso (now : Civil) (s : String)
    (hs : isValidDate now (.str s) YYYY_MM_DD true = true) :
    ∃ d, denotedDate s.toList = some d ∧ d.WF ∧ momentOfString now s = some (some d) := by
  simp only [isValidDate, momentWithFormat] at hs
  obtain ⟨y1, y2, y3, y4, m1, m2, d1, d2, ht, hy1, hy2, hy3, hy4, hm1, hm2, hd1, hd2⟩ :=
    exactRead_ymd (exactRead_of_strict now _ _ hs)
  rw [ht, parseFormat_ymd now true y1 y2 y3 y4 m1 m2 d1 d2 hy1 hy2 hy3 hy4 hm1 hm2 hd1 hd2] at hs
  obtain ⟨d, hd⟩ := Option.isSome_iff_exists.1 hs
  simp only at hd
  refine ⟨d, ?_, (civilOfFields_WF hd).2, ?_⟩
  · rw [ht, denotedDate_ymd y1 y2 y3 y4 m1 m2 d1 d2 hy1 hy2 hy3 hy4 hm1 hm2 hd1 hd2, hd]
  · simp only [momentOfString, ht,
      isIsoDateText_ymd y1 y2 y3 y4 m1 m2 d1 d2 hy1 hy2 hy3 hy4 hm1 hm2 hd1 hd2, if_true,
      parseFormat_ymd now false y1 y2 y3 y4 m1 m2 d1 d2 hy1 hy2 hy3 hy4 hm1 hm2 hd1 hd2, hd]

/-- The difference in days of two valid moments is the difference of their
day numbers. -/
theorem diffDays_some (a b : Civil) :
    Moment.diffDays (some a) (some b) = some (dayNumber a - dayNumber b) := by
  simp only [Moment.diffDays, Moment.valueOf, Option.map_some']
  have : dayNumber a * msPerDay - dayNumber b * msPerDay = (dayNumber a - dayNumber b) * msPerDay := by
    ring
  rw [this, Int.mul_tdiv_cancel _ (by decide)]

/-- Claim C11: for two valid ISO year-month-day strings,
`getDiffDaysBetweenTwoDate(dateTo, dateFrom)` is the day number of the date of
`dateTo` minus the day number of the date of `dateFrom`: positive exactly when
`dateTo` is the later date, zero exactly when the dates are equal, the number
of calendar days from the earlier date to the later one, and the opposite
number when the arguments are swapped. -/
theorem getDiffDaysBetweenTwoDate_eq (now : Civil) (dateTo dateFrom : String)
    (hto : isValidDate now (.str dateTo) YYYY_MM_DD true = true)
    (hfrom : isValidDate now (.str dateFrom) YYYY_MM_DD true = true) :
    ∃ dTo dFrom, denotedDate dateTo.toList = some dTo
      ∧ denotedDate dateFrom.toList = some dFrom
      ∧ getDiffDaysBetweenTwoDate now dateTo dateFrom = some (some (dayNumber dTo - dayNumber dFrom))
      ∧ getDiffDaysBetweenTwoDate now dateFrom dateTo
          = some (some (-(dayNumber dTo - dayNumber dFrom)))
      ∧ (0 < dayNumber dTo - dayNumber dFrom ↔ dTo.later dFrom = true)
      ∧ (dayNumber dTo - dayNumber dFrom = 0 ↔ dTo = dFrom)
      ∧ (dayNumber dTo - dayNumber dFrom < 0 ↔ dFrom.later dTo = true)
      ∧ (0 ≤ dayNumber dTo - dayNumber dFrom →
          plusDays dFrom (dayNumber dTo - dayNumber dFrom).toNat = dTo)
      ∧ (dayNumber dTo - dayNumber dFrom ≤ 0 →
          plusDays dTo (-(dayNumber dTo - dayNumber dFrom)).toNat = dFrom) := by
  obtain ⟨a, ha, wa, ma⟩ := momentOfString_iso now dateTo hto
  obtain ⟨b, hb, wb, mb⟩ := momentOfString_iso now dateFrom hfrom
  refine ⟨a, b, ha, hb, ?_, ?_, ?_, ?_, ?_, ?_, ?_⟩
  · simp only [getDiffDaysBetweenTwoDate, ma, mb, diffDays_some]
  · simp only [getDiffDaysBetweenTwoDate, ma, mb, diffDays_some, neg_sub]
  · rw [← dayNumber_lt_iff a b wa wb]; omega
  · constructor
    · intro h; exact civil_eq_of_dayNumber a b wa wb (by omega)
    · intro h; rw [h]; omega
  · rw [← dayNumber_lt_iff b a wb wa]; omega
  · intro h
    exact plusDays_to b a wb wa (by omega)
  · intro h
    have e : -(dayNumber a - dayNumber b) = dayNumber b - dayNumber a := by ring
    rw [e]
    exact plusDays_to a b wa wb (by omega)

/-- `getDiffDaysBetweenTwoDate("2024-01-10", "2024-01-01")` is 9, and -9 with
the arguments swapped. -/
theorem getDiffDaysBetweenTwoDate_witness :
    getDiffDaysBetweenTwoDate ⟨2025, 10, 6⟩ "2024-01-10" "2024-01-01" = some (some 9)
      ∧ getDiffDaysBetweenTwoDate ⟨2025, 10, 6⟩ "2024-01-01" "2024-01-10" = some (some (-9)) := by
  obtain ⟨a, b, h1, h2, h3, h4, -⟩ := getDiffDaysBetweenTwoDate_eq ⟨2025, 10, 6⟩
    "2024-01-10" "2024-01-01" (by decide) (by decide)
  have e1 : denotedDate "2024-01-10".toList = some ⟨2024, 0, 10⟩ := by decide
  have e2 : denotedDate "2024-01-01".toList = some ⟨2024, 0, 1⟩ := by decide
  rw [e1] at h1; rw [e2] at h2
  cases h1; cases h2
  exact ⟨h3.trans (by decide), h4.trans (by decide)⟩

/-! ## Printing a date and reading it back -/

theorem toDigits_one (n : Nat) (h : n < 10) : Nat.toDigits 10 n = [Nat.digitChar n] := by
  have c1 : n / 10 = 0 := by omega
  have e1 : n % 10 = n := by omega
  rw [Nat.toDigits]
  simp only [Nat.toDigitsCore, c1, if_true, e1]

theorem toDigits_two (n : Nat) (h1 : 10 ≤ n) (h2 : n < 100) :
    Nat.toDigits 10 n = [Nat.digitChar (n / 10), Nat.digitChar (n % 10)] := by
  have hf : n + 1 = (n - 1) + 1 + 1 := by omega
  have c1 : ¬ n / 10 = 0 := by omega
  have c2 : n / 10 / 10 = 0 := by omega
  have e1 : n / 10 % 10 = n / 10 := by omega
  rw [Nat.toDigits, hf]
  simp only [Nat.toDigitsCore, c1, c2, if_false, if_true, e1]

theorem toDigits_three (n : Nat) (h1 : 100 ≤ n) (h2 : n < 1000) :
    Nat.toDigits 10 n
      = [Nat.digitChar (n / 100), Nat.digitChar (n / 10 % 10), Nat.digitChar (n % 10)] := by
  have hf : n + 1 = (n - 2) + 1 + 1 + 1 := by omega
  have c1 : ¬ n / 10 = 0 := by omega
  have c2 : ¬ n / 10 / 10 = 0 := by omega
  have c3 : n / 10 / 10 / 10 = 0 := by omega
  have e2 : n / 10 / 10 = n / 100 := by omega
  have e3 : n / 100 % 10 = n / 100 := by omega
  rw [Nat.toDigits, hf]
  simp only [Nat.toDigitsCore, c1, c2, c3, if_false, if_true]
  rw [e2, e3]

/-- The four characters `zeroFill` prints for a number of `0..9999`. -/
theorem zeroFill_four_digits (n : Nat) (h : n ≤ 9999) :
    zeroFill (n : Int) 4 = String.mk [Nat.digitChar (n / 1000), Nat.digitChar (n / 100 % 10),
      Nat.digitChar (n / 10 % 10), Nat.digitChar (n % 10)] := by
  have hs : toString (n : Int).natAbs = String.mk (Nat.toDigits 10 n) := rfl
  have h0 : (0 : Int) ≤ n := Int.natCast_nonneg n
  simp only [zeroFill, hs, h0, if_true]
  by_cases c1 : n < 10
  · rw [toDigits_one n c1]
    have e1 : n / 1000 = 0 := by omega
    have e2 : n / 100 % 10 = 0 := by omega
    have e3 : n / 10 % 10 = 0 := by omega
    have e4 : n % 10 = n := by omega
    rw [e1, e2, e3, e4]
    rfl
  · by_cases c2 : n < 100
    · rw [toDigits_two n (by omega) c2]
      have e1 : n / 1000 = 0 := by omega
      have e2 : n / 100 % 10 = 0 := by omega
      have e3 : n / 10 % 10 = n / 10 := by omega
      rw [e1, e2, e3]
      rfl
    · by_cases c3 : n < 1000
      · rw [toDigits_three n (by omega) c3]
        have e1 : n / 1000 = 0 := by omega
        have e2 : n / 100 % 10 = n / 100 := by omega
        rw [e1, e2]
        rfl
      · rw [toDigits_four n (by omega) h]
        rfl

/-- The two characters `zeroFill` prints for a number of `0..99`. -/
theorem zeroFill_two_digits (n : Nat) (h : n ≤ 99) :
    zeroFill (n : Int) 2 = String.mk [Nat.digitChar (n / 10), Nat.digitChar (n % 10)] := by
  have hs : toString (n : Int).natAbs = String.mk (Nat.toDigits 10 n) := rfl
  have h0 : (0 : Int) ≤ n := Int.natCast_nonneg n
  simp only [zeroFill, hs, h0, if_true]
  by_cases c1 : n < 10
  · rw [toDigits_one n c1]
    have e1 : n / 10 = 0 := by omega
    have e4 : n % 10 = n := by omega
    rw [e1, e4]
    rfl
  · rw [toDigits_two n (by omega) (by omega)]
    rfl

theorem digitChar_toNat (a : Char) (h : isDigit a = true) : Nat.digitChar (a.toNat - 48) = a := by
  rw [isDigit_iff] at h
  have e : a = Char.ofNat a.toNat := (Char.ofNat_toNat a).symm
  obtain ⟨h1, h2⟩ := h
  generalize a.toNat = n at e h1 h2
  subst e
  interval_cases n <;> decide

theorem digit_value_lt (a : Char) (h : isDigit a = true) : a.toNat - 48 < 10 := by
  rw [isDigit_iff] at h
  omega

/-- Four digits, read as a number and printed with `zeroFill`, come back. -/
theorem zeroFill_digitsToNat_four (a b c d : Char) (ha : isDigit a = true)
    (hb : isDigit b = true) (hc : isDigit c = true) (hd : isDigit d = true) :
    zeroFill (digitsToNat [a, b, c, d] : Nat) 4 = String.mk [a, b, c, d] := by
  have va := digit_value_lt a ha
  have vb := digit_value_lt b hb
  have vc := digit_value_lt c hc
  have vd := digit_value_lt d hd
  have hval : digitsToNat [a, b, c, d]
      = 1000 * (a.toNat - 48) + 100 * (b.toNat - 48) + 10 * (c.toNat - 48) + (d.toNat - 48) := by
    simp only [digitsToNat, List.foldl]
    omega
  rw [zeroFill_four_digits _ (by omega), hval]
  have e1 : (1000 * (a.toNat - 48) + 100 * (b.toNat - 48) + 10 * (c.toNat - 48)
      + (d.toNat - 48)) / 1000 = a.toNat - 48 := by omega
  have e2 : (1000 * (a.toNat - 48) + 100 * (b.toNat - 48) + 10 * (c.toNat - 48)
      + (d.toNat - 48)) / 100 % 10 = b.toNat - 48 := by omega
  have e3 : (1000 * (a.toNat - 48) + 100 * (b.toNat - 48) + 10 * (c.toNat - 48)
      + (d.toNat - 48)) / 10 % 10 = c.toNat - 48 := by omega
  have e4 : (1000 * (a.toNat - 48) + 100 * (b.toNat - 48) + 10 * (c.toNat - 48)
      + (d.toNat - 48)) % 10 = d.toNat - 48 := by omega
  rw [e1, e2, e3, e4, digitChar_toNat a ha, digitChar_toNat b hb, digitChar_toNat c hc,
    digitChar_toNat d hd]

/-- Two digits, read as a number and printed with `zeroFill`, come back. -/
theorem zeroFill_digitsToNat_two (a b : Char) (ha : isDigit a = true) (hb : isDigit b = true) :
    zeroFill (digitsToNat [a, b] : Nat) 2 = String.mk [a, b] := by
  have va := digit_value_lt a ha
  have vb := digit_value_lt b hb
  have hval : digitsToNat [a, b] = 10 * (a.toNat - 48) + (b.toNat - 48) := by
    simp only [digitsToNat, List.foldl]
    omega
  rw [zeroFill_two_digits _ (by omega), hval]
  have e1 : (10 * (a.toNat - 48) + (b.toNat - 48)) / 10 = a.toNat - 48 := by omega
  have e2 : (10 * (a.toNat - 48) + (b.toNat - 48)) % 10 = b.toNat - 48 := by omega
  rw [e1, e2, digitChar_toNat a ha, digitChar_toNat b hb]

/-- The digits `zeroFill` prints for a number of `0..9999`, and their value. -/
theorem zeroFill_four_value (n : Nat) (h : n ≤ 9999) :
    ∃ a b c d : Char, zeroFill (n : Int) 4 = String.mk [a, b, c, d]
      ∧ isDigit a = true ∧ isDigit b = true ∧ isDigit c = true ∧ isDigit d = true
      ∧ digitsToNat [a, b, c, d] = n := by
  have ha := digitChar_isDigit (n / 1000) (by omega)
  have hb := digitChar_isDigit (n / 100 % 10) (by omega)
  have hc := digitChar_isDigit (n / 10 % 10) (by omega)
  have hd := digitChar_isDigit (n % 10) (by omega)
  refine ⟨_, _, _, _, zeroFill_four_digits n h, ha.1, hb.1, hc.1, hd.1, ?_⟩
  have ha' := isDigit_iff.1 ha.1
  have hb' := isDigit_iff.1 hb.1
  have hc' := isDigit_iff.1 hc.1
  have hd' := isDigit_iff.1 hd.1
  have := ha.2; have := hb.2; have := hc.2; have := hd.2
  simp only [digitsToNat, List.foldl]
  omega

/-- The digits `zeroFill` prints for a number of `0..99`, and their value. -/
theorem zeroFill_two_value (n : Nat) (h : n ≤ 99) :
    ∃ a b : Char, zeroFill (n : Int) 2 = String.mk [a, b]
      ∧ isDigit a = true ∧ isDigit b = true ∧ digitsToNat [a, b] = n := by
  have ha := digitChar_isDigit (n / 10) (by omega)
  have hb := digitChar_isDigit (n % 10) (by omega)
  refine ⟨_, _, zeroFill_two_digits n h, ha.1, hb.1, ?_⟩
  have ha' := isDigit_iff.1 ha.1
  have hb' := isDigit_iff.1 hb.1
  have := ha.2; have := hb.2
  simp only [digitsToNat, List.foldl]
  omega

theorem format_YYYY_MM_DD (c : Civil) :
    Moment.format (some c) YYYY_MM_DD
      = zeroFill c.year 4 ++ "-" ++ zeroFill (c.month + 1) 2 ++ "-" ++ zeroFill c.day 2 := by
  simp [Moment.format, YYYY_MM_DD, formatTok, String.join, String.append_assoc]

theorem daysInMonth_le (y m : Int) (h0 : 0 ≤ m) (h11 : m ≤ 11) : daysInMonth y m ≤ 31 := by
  rw [daysInMonth_of_range y m h0 h11]
  split_ifs <;> omega

/-- A real calendar date of the years `0..9999` prints as four digits, a dash,
two digits, a dash and two digits, which spell its year, month and day. -/
theorem isoText_shape (c : Civil) (hw : c.WF) (hy0 : 0 ≤ c.year) (hy1 : c.year ≤ 9999) :
    ∃ y1 y2 y3 y4 m1 m2 d1 d2 : Char,
      (Moment.format (some c) YYYY_MM_DD).toList = [y1, y2, y3, y4, '-', m1, m2, '-', d1, d2]
      ∧ isDigit y1 = true ∧ isDigit y2 = true ∧ isDigit y3 = true ∧ isDigit y4 = true
      ∧ isDigit m1 = true ∧ isDigit m2 = true ∧ isDigit d1 = true ∧ isDigit d2 = true
      ∧ civilOfFields (digitsToNat [y1, y2, y3, y4]) ((digitsToNat [m1, m2] : Int) - 1)
          (digitsToNat [d1, d2]) = some c := by
  obtain ⟨h0, h11, h1, hd⟩ := hw
  have hdim := daysInMonth_le c.year c.month h0 h11
  obtain ⟨y1, y2, y3, y4, ey, hy1', hy2', hy3', hy4', vy⟩ :=
    zeroFill_four_value c.year.toNat (by omega)
  obtain ⟨m1, m2, em, hm1, hm2, vm⟩ := zeroFill_two_value (c.month + 1).toNat (by omega)
  obtain ⟨d1, d2, ed, hd1, hd2, vd⟩ := zeroFill_two_value c.day.toNat (by omega)
  have cy : ((c.year.toNat : Nat) : Int) = c.year := by omega
  have cm : (((c.month + 1).toNat : Nat) : Int) = c.month + 1 := by omega
  have cd : ((c.day.toNat : Nat) : Int) = c.day := by omega
  rw [cy] at ey; rw [cm] at em; rw [cd] at ed
  refine ⟨y1, y2, y3, y4, m1, m2, d1, d2, ?_, hy1', hy2', hy3', hy4', hm1, hm2, hd1, hd2, ?_⟩
  · rw [format_YYYY_MM_DD, ey, em, ed]
    rfl
  · rw [vy, vm, vd, cy, cm, cd]
    have e : c.month + 1 - 1 = c.month := by omega
    rw [e, civilOfFields, if_neg (by omega)]

/-- The printed date is a valid ISO string, denotes the date, and both parsers
read the date back from it. -/
theorem isoText_roundtrip (fs : List Format) (now : Civil) (c : Civil) (hw : c.WF)
    (hy0 : 0 ≤ c.year) (hy1 : c.year ≤ 9999)
    (hfs : ∀ f ∈ fs, f ∈ knownFormats) (h1 : MM_DD_YYYY ∈ fs) (h2 : YYYY_MM_DD ∈ fs)
    (h3 : YYYY_MMM ∈ fs) :
    isValidDate now (.str (Moment.format (some c) YYYY_MM_DD)) YYYY_MM_DD true = true
      ∧ denotedDate (Moment.format (some c) YYYY_MM_DD).toList = some c
      ∧ getMomentDate fs now (.str (Moment.format (some c) YYYY_MM_DD)) = some c
      ∧ momentOfString now (Moment.format (some c) YYYY_MM_DD) = some (some c) := by
  obtain ⟨y1, y2, y3, y4, m1, m2, d1, d2, ht, hy1', hy2', hy3', hy4', hm1, hm2, hd1, hd2, hv⟩ :=
    isoText_shape c hw hy0 hy1
  have hvalid : isValidDate now (.str (Moment.format (some c) YYYY_MM_DD)) YYYY_MM_DD true
      = true := by
    simp only [isValidDate, momentWithFormat, ht,
      parseFormat_ymd now true y1 y2 y3 y4 m1 m2 d1 d2 hy1' hy2' hy3' hy4' hm1 hm2 hd1 hd2, hv,
      Option.isSome_some]
  have hden : denotedDate (Moment.format (some c) YYYY_MM_DD).toList = some c := by
    rw [ht, denotedDate_ymd y1 y2 y3 y4 m1 m2 d1 d2 hy1' hy2' hy3' hy4' hm1 hm2 hd1 hd2, hv]
  have hisDate : isDate now (.str (Moment.format (some c) YYYY_MM_DD)) = true := by
    simp only [isDate, hvalid, Bool.or_true, Bool.true_or]
  obtain ⟨d, hd, -, hg⟩ := getMomentDate_of_isDate fs now _ hfs h1 h2 h3 hisDate
  obtain ⟨d', hd', -, hm⟩ := momentOfString_iso now _ hvalid
  rw [hden] at hd hd'
  cases hd; cases hd'
  exact ⟨hvalid, hden, hg, hm⟩

/-! ## Every date the parser reads lies in the years the printer can write -/

theorem digitsToNat_foldl_bound : ∀ (ds : List Char) (acc : Nat),
    (∀ c ∈ ds, isDigit c = true) →
      ds.foldl (fun acc c => 10 * acc + (c.toNat - 48)) acc + 1 ≤ (acc + 1) * 10 ^ ds.length := by
  intro ds
  induction ds with
  | nil => intro acc _; simp
  | cons c cs ih =>
    intro acc h
    have hc := isDigit_iff.1 (h c (List.mem_cons_self c cs))
    have h1 := ih (10 * acc + (c.toNat - 48)) (fun x hx => h x (List.mem_cons_of_mem c hx))
    have h2 : (10 * acc + (c.toNat - 48) + 1) * 10 ^ cs.length
        ≤ ((acc + 1) * 10) * 10 ^ cs.length :=
      Nat.mul_le_mul_right _ (by omega)
    simp only [List.foldl_cons, List.length_cons]
    calc _ ≤ _ := h1
      _ ≤ _ := h2
      _ = (acc + 1) * 10 ^ (cs.length + 1) := by rw [Nat.pow_succ]; ring

theorem digitsToNat_lt (ds : List Char) (h : ∀ c ∈ ds, isDigit c = true) :
    digitsToNat ds < 10 ^ ds.length := by
  have := digitsToNat_foldl_bound ds 0 h
  simp only [digitsToNat]
  omega

theorem parseYearToken_range (ds : List Char) (h : ∀ c ∈ ds, isDigit c = true)
    (hl : ds.length ≤ 4) : 0 ≤ parseYearToken ds ∧ parseYearToken ds ≤ 9999 := by
  have h1 := digitsToNat_lt ds h
  have h2 : 10 ^ ds.length ≤ 10 ^ 4 := Nat.pow_le_pow_right (by omega) hl
  simp only [parseYearToken]
  split_ifs with e1 e2
  · rw [e1] at h1; omega
  · omega
  · omega

theorem parseTok_yearInRange (strict : Bool) (st : ParseState) (t : Tok)
    (h : YearInRange st) : YearInRange (parseTok strict st t) := by
  cases t with
  | MM =>
    simp only [parseTok]
    split
    · exact h
    · exact h
  | DD =>
    simp only [parseTok]
    split
    · exact h
    · exact h
  | YYYY =>
    simp only [parseTok]
    split
    · rename_i ds rest hs
      obtain ⟨sk, -, -, hl, hd⟩ := searchDigits_inv _ _ _ _ _ hs
      intro v hv
      simp only [Option.some.injEq] at hv
      subst hv
      exact parseYearToken_range ds hd hl
    · exact h
  | MMM =>
    simp only [parseTok]
    split
    · split
      · exact h
      · exact h
    · exact h
  | lit text =>
    simp only [parseTok]
    split
    · exact h
    · split
      · exact h
      · exact h

theorem foldl_parseTok_yearInRange (strict : Bool) : ∀ (f : Format) (st : ParseState),
    YearInRange st → YearInRange (f.foldl (parseTok strict) st) := by
  intro f
  induction f with
  | nil => intro st h; exact h
  | cons t ts ih => intro st h; exact ih _ (parseTok_yearInRange strict st t h)

/-- A date read with one format is a real calendar date, and its year is in
`0..9999` when the year of the clock is. -/
theorem parseFormat_range (now : Civil) (text : List Char) (f : Format) (strict : Bool)
    (c : Civil) (hn0 : 0 ≤ now.year) (hn1 : now.year ≤ 9999)
    (h : (parseFormat now text f strict).date = some c) :
    c.WF ∧ 0 ≤ c.year ∧ c.year ≤ 9999 := by
  have hinv := foldl_parseTok_yearInRange strict f ⟨text, none, none, none, 0, 0, true, false⟩
    (by intro v hv; cases hv)
  simp only [parseFormat] at h
  split at h
  · obtain ⟨rfl, hw⟩ := civilOfFields_WF h
    refine ⟨hw, ?_⟩
    cases hy : (f.foldl (parseTok strict) ⟨text, none, none, none, 0, 0, true, false⟩).year with
    | none => simpa using ⟨hn0, hn1⟩
    | some v => simpa using hinv v hy
  · cases h

theorem foldl_pickBest_mem (now : Civil) (text : List Char) (all : List Format) :
    ∀ (fs : List Format) (best : Option Best),
      (∀ f ∈ fs, f ∈ all) →
      (∀ b, best = some b → ∃ f ∈ all, b.parsed = parseFormat now text f false) →
      ∀ b, fs.foldl (pickBest now text) best = some b →
        ∃ f ∈ all, b.parsed = parseFormat now text f false := by
  intro fs
  induction fs with
  | nil => intro best _ hb b h; exact hb b h
  | cons g gs ih =>
    intro best hsub hb b h
    simp only [List.foldl_cons] at h
    refine ih (pickBest now text best g) (fun f hf => hsub f (List.mem_cons_of_mem g hf)) ?_ b h
    intro b' hb'
    have hg : g ∈ all := hsub g (List.mem_cons_self g gs)
    cases best with
    | none =>
      simp only [pickBest, Option.some.injEq] at hb'
      subst hb'
      exact ⟨g, hg, rfl⟩
    | some b0 =>
      simp only [pickBest] at hb'
      split_ifs at hb' <;> simp only [Option.some.injEq] at hb' <;> subst hb'
      all_goals first
        | exact ⟨g, hg, rfl⟩
        | exact hb b0 rfl

/-- A date read with a list of formats is a real calendar date, and its year is
in `0..9999` when the year of the clock is. -/
theorem parseFormats_range (now : Civil) (text : List Char) (fs : List Format) (c : Civil)
    (hn0 : 0 ≤ now.year) (hn1 : now.year ≤ 9999) (h : parseFormats now text fs = some c) :
    c.WF ∧ 0 ≤ c.year ∧ c.year ≤ 9999 := by
  simp only [parseFormats] at h
  cases hb : fs.foldl (pickBest now text) none with
  | none => simp only [hb] at h; cases h
  | some b =>
    simp only [hb] at h
    obtain ⟨f, -, hf⟩ := foldl_pickBest_mem now text fs fs none (fun _ hf => hf)
      (by intro b hb; cases hb) b hb
    rw [hf] at h
    exact parseFormat_range now text f false c hn0 hn1 h

theorem string_of_toList (s : String) (l : List Char) (h : s.toList = l) : s = String.mk l := by
  cases s
  simp only [String.toList] at h
  rw [h]

/-- A valid ISO string prints back as itself. -/
theorem format_of_iso (now : Civil) (d : String) (c : Civil)
    (hv : isValidDate now (.str d) YYYY_MM_DD true = true)
    (hc : denotedDate d.toList = some c) : Moment.format (some c) YYYY_MM_DD = d := by
  simp only [isValidDate, momentWithFormat] at hv
  obtain ⟨y1, y2, y3, y4, m1, m2, d1, d2, ht, hy1, hy2, hy3, hy4, hm1, hm2, hd1, hd2⟩ :=
    exactRead_ymd (exactRead_of_strict now _ _ hv)
  rw [ht, denotedDate_ymd y1 y2 y3 y4 m1 m2 d1 d2 hy1 hy2 hy3 hy4 hm1 hm2 hd1 hd2] at hc
  obtain ⟨rfl, -⟩ := civilOfFields_WF hc
  rw [format_YYYY_MM_DD, string_of_toList d _ ht]
  have e : ((digitsToNat [m1, m2] : Int) - 1 + 1) = (digitsToNat [m1, m2] : Int) := by ring
  simp only [e]
  rw [zeroFill_digitsToNat_four y1 y2 y3 y4 hy1 hy2 hy3 hy4,
    zeroFill_digitsToNat_two m1 m2 hm1 hm2, zeroFill_digitsToNat_two d1 d2 hd1 hd2]
  rfl

/-- A date read with a list of formats is a real calendar date, whatever the
clock. -/
theorem parseFormats_WF (now : Civil) (text : List Char) (fs : List Format) (c : Civil)
    (h : parseFormats now text fs = some c) : c.WF := by
  simp only [parseFormats] at h
  cases hb : fs.foldl (pickBest now text) none with
  | none => simp only [hb] at h; cases h
  | some b =>
    simp only [hb] at h
    obtain ⟨f, -, hf⟩ := foldl_pickBest_mem now text fs fs none (fun _ hf => hf)
      (by intro b hb; cases hb) b hb
    rw [hf] at h
    simp only [parseFormat] at h
    split at h
    · exact (civilOfFields_WF h).2
    · cases h

/-- Claim C13, amended: for every valid ISO year-month-day string `d`,
`toISOFormat(d) = d`; and for every input `x` that parses to a valid date whose
year is in `0000..9999` (a moment object being a real calendar date),
`toISOFormat(toISOFormat(x)) = toISOFormat(x)`. A text or a number parses to
such a year whenever the year of the clock is in `0000..9999` (a format without
a year takes the year of the clock). -/
theorem toISOFormat_idempotent (fs : List Format) (now : Civil)
    (hfs : ∀ f ∈ fs, f ∈ knownFormats) (h1 : MM_DD_YYYY ∈ fs) (h2 : YYYY_MM_DD ∈ fs)
    (h3 : YYYY_MMM ∈ fs) :
    (∀ d : String, isValidDate now (.str d) YYYY_MM_DD true = true →
        toISOFormat fs now (.str d) = d)
      ∧ (∀ (x : DateInput) (c : Civil), getMomentDate fs now x = some c →
          0 ≤ c.year → c.year ≤ 9999 → (∀ m, x = .mom m → c.WF) →
          toISOFormat fs now (.str (toISOFormat fs now x)) = toISOFormat fs now x)
      ∧ (0 ≤ now.year → now.year ≤ 9999 →
          ∀ (x : DateInput) (c : Civil), (∀ m, x ≠ .mom m) →
            getMomentDate fs now x = some c → 0 ≤ c.year ∧ c.year ≤ 9999) := by
  refine ⟨?_, ?_, ?_⟩
  · intro d hv
    have hisDate : isDate now (.str d) = true := by
      simp only [isDate, hv, Bool.or_true, Bool.true_or]
    obtain ⟨c, hc, -, hg⟩ := getMomentDate_of_isDate fs now d hfs h1 h2 h3 hisDate
    rw [toISOFormat, hg]
    exact format_of_iso now d c hv hc
  · intro x c hx hy0 hy1 hm
    have hw : c.WF := by
      cases x with
      | str s => exact parseFormats_WF now s.toList fs c hx
      | num n => exact parseFormats_WF now (inputText n).toList fs c hx
      | mom m => exact hm m rfl
      | null => cases hx
      | undefined => exact parseFormats_WF now "undefined".toList fs c hx
    obtain ⟨-, -, hg, -⟩ := isoText_roundtrip fs now c hw hy0 hy1 hfs h1 h2 h3
    have e : toISOFormat fs now x = Moment.format (some c) YYYY_MM_DD := by
      rw [toISOFormat, hx]
    rw [e, toISOFormat, hg]
  · intro hn0 hn1 x c hx hg
    cases x with
    | str s => exact (parseFormats_range now s.toList fs c hn0 hn1 hg).2
    | num n => exact (parseFormats_range now (inputText n).toList fs c hn0 hn1 hg).2
    | mom m => exact absurd rfl (hx m)
    | null => cases hg
    | undefined => exact (parseFormats_range now "undefined".toList fs c hn0 hn1 hg).2

/-- With the clock on 2025-11-06, `toISOFormat("2024-02-29")` is the same text,
and `toISOFormat("02/29/2024")`, which is `"2024-02-29"`, is a fixed point. -/
theorem toISOFormat_idempotent_witness :
    isValidDate ⟨2025, 10, 6⟩ (.str "2024-02-29") YYYY_MM_DD true = true
      ∧ toISOFormat knownFormats ⟨2025, 10, 6⟩ (.str "2024-02-29") = "2024-02-29"
      ∧ getMomentDate knownFormats ⟨2025, 10, 6⟩ (.str "02/29/2024") = some ⟨2024, 1, 29⟩
      ∧ toISOFormat knownFormats ⟨2025, 10, 6⟩
          (.str (toISOFormat knownFormats ⟨2025, 10, 6⟩ (.str "02/29/2024")))
        = toISOFormat knownFormats ⟨2025, 10, 6⟩ (.str "02/29/2024") :=
  ⟨by decide,
   (toISOFormat_idempotent knownFormats ⟨2025, 10, 6⟩ (fun _ h => h) (by decide) (by decide)
      (by decide)).1 "2024-02-29" (by decide),
   by decide,
   (toISOFormat_idempotent knownFormats ⟨2025, 10, 6⟩ (fun _ h => h) (by decide) (by decide)
      (by decide)).2.1 (.str "02/29/2024") ⟨2024, 1, 29⟩ (by decide) (by decide) (by decide)
      (by intro m h; cases h)⟩

/-- Claim C13 as stated fails on a valid date outside the years `0000..9999`:
the token `YYYY` reads at most four digits and no sign. With the clock on
2025-11-06, the moment of 10000-01-01 prints as `10000-01-01`, which prints as
`1000-01-01`; the moment of the first of January of the year -5 prints as
`-0005-01-01`, which prints as `0005-01-01`. With the clock on 10000-01-01 the
text `Jan` prints as `10000-01-01`, which prints as `1000-01-01`. -/
theorem toISOFormat_idempotent_counterexample :
    (Civil.WF ⟨10000, 0, 1⟩
      ∧ getMomentDate knownFormats ⟨2025, 10, 6⟩ (.mom (some ⟨10000, 0, 1⟩))
          = some ⟨10000, 0, 1⟩
      ∧ toISOFormat knownFormats ⟨2025, 10, 6⟩ (.mom (some ⟨10000, 0, 1⟩)) = "10000-01-01"
      ∧ toISOFormat knownFormats ⟨2025, 10, 6⟩ (.str "10000-01-01") = "1000-01-01")
      ∧ (Civil.WF ⟨-5, 0, 1⟩
        ∧ toISOFormat knownFormats ⟨2025, 10, 6⟩ (.mom (some ⟨-5, 0, 1⟩)) = "-0005-01-01"
        ∧ toISOFormat knownFormats ⟨2025, 10, 6⟩ (.str "-0005-01-01") = "0005-01-01")
      ∧ (getMomentDate knownFormats ⟨10000, 0, 1⟩ (.str "Jan") = some ⟨10000, 0, 1⟩
        ∧ toISOFormat knownFormats ⟨10000, 0, 1⟩ (.str "Jan") = "10000-01-01"
        ∧ toISOFormat knownFormats ⟨10000, 0, 1⟩ (.str "10000-01-01") = "1000-01-01") := by
  decide

/-! ## The range that ends today -/

/-- A real date with a day number not above that of another real date is not
in a later year. -/
theorem year_le_of_dayNumber_le (a b : Civil) (ha : a.WF) (hb : b.WF)
    (h : dayNumber a ≤ dayNumber b) : a.year ≤ b.year := by
  by_contra hc
  have hl : a.later b = true := (Civil.later_iff a b).2 (Or.inl (by omega))
  have := (dayNumber_lt_iff a b ha hb).2 hl
  omega

/-- Going back `n` days from a real date with the method `subtract` reaches the
date `n` calendar days before it. -/
theorem subtractDays_eq (c : Civil) (hw : c.WF) (n : Int) (hn : 0 ≤ n) :
    Moment.addDays (some c) (-n) = some (minusDays c n.toNat) := by
  obtain ⟨c', hc', hw', hd'⟩ := momentAddDays_spec c hw (-n)
  obtain ⟨hw2, hd2⟩ := minusDays_spec n.toNat c hw
  have e : ((n.toNat : Nat) : Int) = n := Int.toNat_of_nonneg hn
  rw [e] at hd2
  rw [hc', civil_eq_of_dayNumber c' (minusDays c n.toNat) hw' hw2 (by omega)]

/-- Claim C12, amended: with the clock on the real calendar date `now` of the
years `0000..9999`, and for a non-negative `n` such that the date `n` days
before `now` is not before the year `0000`, `getDateRangeSubtractFromNow(n)`
returns a record whose `date_to` is `now` printed year-month-day (a text that
denotes `now`), whose `date_from` is the date `n` calendar days before `now`
printed the same way (a text that denotes that date, the day number of which is
that of `now` minus `n`), and whose `label` is `date_from`, then `" - "`, then
`date_to`; and `getDiffDaysBetweenTwoDate(date_to, date_from)` is `n`. -/
theorem getDateRangeSubtractFromNow_eq (fs : List Format) (now : Civil) (n : Int)
    (hfs : ∀ f ∈ fs, f ∈ knownFormats) (h1 : MM_DD_YYYY ∈ fs) (h2 : YYYY_MM_DD ∈ fs)
    (h3 : YYYY_MMM ∈ fs) (hw : now.WF) (hn0 : 0 ≤ now.year) (hn1 : now.year ≤ 9999)
    (hn : 0 ≤ n) (hlow : 0 ≤ (minusDays now n.toNat).year) :
    (getDateRangeSubtractFromNow fs now n).date_to = Moment.format (some now) YYYY_MM_DD
      ∧ denotedDate (getDateRangeSubtractFromNow fs now n).date_to.toList = some now
      ∧ (getDateRangeSubtractFromNow fs now n).date_from
          = Moment.format (some (minusDays now n.toNat)) YYYY_MM_DD
      ∧ denotedDate (getDateRangeSubtractFromNow fs now n).date_from.toList
          = some (minusDays now n.toNat)
      ∧ dayNumber (minusDays now n.toNat) = dayNumber now - n
      ∧ (getDateRangeSubtractFromNow fs now n).label
          = (getDateRangeSubtractFromNow fs now n).date_from ++ " - "
              ++ (getDateRangeSubtractFromNow fs now n).date_to
      ∧ getDiffDaysBetweenTwoDate now (getDateRangeSubtractFromNow fs now n).date_to
          (getDateRangeSubtractFromNow fs now n).date_from = some (some n) := by
  obtain ⟨hw2, hd2⟩ := minusDays_spec n.toNat now hw
  have e : ((n.toNat : Nat) : Int) = n := Int.toNat_of_nonneg hn
  rw [e] at hd2
  have hup : (minusDays now n.toNat).year ≤ 9999 :=
    le_trans (year_le_of_dayNumber_le _ _ hw2 hw (by omega)) hn1
  obtain ⟨-, hden, hg, hm⟩ := isoText_roundtrip fs now now hw hn0 hn1 hfs h1 h2 h3
  obtain ⟨-, hden2, -, hm2⟩ :=
    isoText_roundtrip fs now (minusDays now n.toNat) hw2 hlow hup hfs h1 h2 h3
  have eto : (getDateRangeSubtractFromNow fs now n).date_to
      = Moment.format (some now) YYYY_MM_DD := by
    simp only [getDateRangeSubtractFromNow, getCurrentDate, toISOFormat, hg]
  have efrom : (getDateRangeSubtractFromNow fs now n).date_from
      = Moment.format (some (minusDays now n.toNat)) YYYY_MM_DD := by
    simp only [getDateRangeSubtractFromNow, getCurrentDate, toISOFormat]
    rw [hg, subtractDays_eq now hw n hn]
    rfl
  refine ⟨eto, ?_, efrom, ?_, hd2, rfl, ?_⟩
  · rw [eto, hden]
  · rw [efrom, hden2]
  · rw [eto, efrom, getDiffDaysBetweenTwoDate, hm, hm2]
    simp only [diffDays_some]
    rw [hd2]
    congr 2
    ring

/-- With the clock on 2025-11-06 and `n = 7` the range is 2025-10-30 to
2025-11-06, seven days apart. -/
theorem getDateRangeSubtractFromNow_witness :
    getDateRangeSubtractFromNow knownFormats ⟨2025, 10, 6⟩ 7
        = ⟨"2025-10-30", "2025-11-06", "2025-10-30 - 2025-11-06"⟩
      ∧ minusDays ⟨2025, 10, 6⟩ 7 = ⟨2025, 9, 30⟩
      ∧ getDiffDaysBetweenTwoDate ⟨2025, 10, 6⟩
          (getDateRangeSubtractFromNow knownFormats ⟨2025, 10, 6⟩ 7).date_to
          (getDateRangeSubtractFromNow knownFormats ⟨2025, 10, 6⟩ 7).date_from
        = some (some 7) :=
  ⟨by decide, by decide,
   (getDateRangeSubtractFromNow_eq knownFormats ⟨2025, 10, 6⟩ 7 (fun _ h => h) (by decide)
      (by decide) (by decide) (by decide) (by decide) (by decide) (by decide)
      (by decide)).2.2.2.2.2.2⟩

/-- Claim C12 as stated fails when the clock is past the year 9999: on
10000-01-01 the current date prints as `10000-01-01`, which is read back as the
year 1000, so `date_to` is `1000-01-01`, a text that does not denote the date of
the clock. -/
theorem getDateRangeSubtractFromNow_counterexample :
    Civil.WF ⟨10000, 0, 1⟩
      ∧ getCurrentDate ⟨10000, 0, 1⟩ YYYY_MM_DD = "10000-01-01"
      ∧ (getDateRangeSubtractFromNow knownFormats ⟨10000, 0, 1⟩ 0).date_to = "1000-01-01"
      ∧ denotedDate (getDateRangeSubtractFromNow knownFormats ⟨10000, 0, 1⟩ 0).date_to.toList
          ≠ some ⟨10000, 0, 1⟩ := by
  decide

end DateUtils
